import Mathlib

/-! # go.discord-bot: command dispatch and voice connection management

A shallow embedding of `bot/commands.go`, `bot/events.go`, `bot/voice.go` and
`bot/bot.go`.

* Go maps with string keys are association lists (`GoMap`); where the code ranges
  over a map, the order of the list stands for the order in which the `range`
  clause delivers the entries.
* Calls on collaborators (the Discord session, the repository, logrus) are
  recorded, in program order, in a trace of `Effect`s; what a collaborator
  answers is read from a `World` record.
* A Go run-time panic (nil pointer dereference, index out of range) ends the
  run and is reported in the `panic` field of the `Outcome`.
* Mutexes are not modelled: every function is embedded as one sequential run.
  The one interference that matters, the stopping flag set by another goroutine
  while `PlayAudio` runs, is an explicit schedule in `AudioWorld`.
* Pointers are indices into lists of objects (`VoiceManager.heap`, `Memory`), so
  that two references to one object can be told from two equal objects.
* The loop of `PlayAudio` may run for ever; it is embedded with a bound on the
  number of iterations and gives `none` when the bound is reached.
* The one `float64` computation, `Duration.Seconds` in `updateStats`, is embedded
  over the rationals with the rounding of IEEE 754 (nearest, ties to even).
-/

namespace DiscordBot

/-! ## Go maps keyed by strings -/

/-- A Go `map[string]V`, as an association list with at most one live entry per key. -/
abbrev GoMap (V : Type) := List (String × V)

namespace GoMap

variable {V : Type}

/-- The comma-ok lookup `v, ok := m[k]`. -/
def get (m : GoMap V) (k : String) : Option V :=
  List.lookup k m

/-- The builtin `delete(m, k)`. -/
def delete (m : GoMap V) (k : String) : GoMap V :=
  m.filter (fun e => e.1 != k)

/-- The assignment `m[k] = v`. -/
def set (m : GoMap V) (k : String) (v : V) : GoMap V :=
  delete m k ++ [(k, v)]

/-- Number of entries stored under key `k`. -/
def count (m : GoMap V) (k : String) : Nat :=
  (m.filter (fun e => e.1 == k)).length

/-- The builtin `len(m)`. -/
def len (m : GoMap V) : Nat :=
  m.length

end GoMap

/-! ## The parts of package `strings` used by the router -/

/-- Go `unicode.IsSpace`: the Latin-1 cases and the `White_Space` table. -/
def isSpace (c : Char) : Bool :=
  let n := c.toNat
  (0x09 ≤ n && n ≤ 0x0D) || n == 0x20 || n == 0x85 || n == 0xA0 || n == 0x1680
    || (0x2000 ≤ n && n ≤ 0x200A) || n == 0x2028 || n == 0x2029 || n == 0x202F
    || n == 0x205F || n == 0x3000

/-- Worker of `Fields`: `cur` is the field being read, in reverse. -/
def fieldsAux : List Char → List Char → List String
  | cur, [] => if cur.isEmpty then [] else [String.mk cur.reverse]
  | cur, c :: cs =>
    if isSpace c then
      if cur.isEmpty then fieldsAux [] cs else String.mk cur.reverse :: fieldsAux [] cs
    else fieldsAux (c :: cur) cs

/-- Go `strings.Fields`: the maximal runs of non-space characters, in order. -/
def Fields (s : String) : List String :=
  fieldsAux [] s.data

/-- Go `strings.HasPrefix`. -/
def HasPrefix (s pre : String) : Bool :=
  pre.data.isPrefixOf s.data

/-- Go `strings.TrimPrefix`. -/
def TrimPrefix (s pre : String) : String :=
  if HasPrefix s pre then String.mk (s.data.drop pre.data.length) else s

/-- Worker of `Contains`: does `sub` start at some position of `s`. -/
def containsAux (sub : List Char) : List Char → Bool
  | [] => sub.isEmpty
  | c :: cs => sub.isPrefixOf (c :: cs) || containsAux sub cs

/-- Go `strings.Contains`. -/
def Contains (s sub : String) : Bool :=
  containsAux sub.data s.data

/-! ## Data model of the dispatcher -/

/-- A value of Go type `interface{}` as stored in an argument map. -/
inductive Value where
  | str (s : String)
  | number (n : Int)
  | bool (b : Bool)
  | null
  deriving DecidableEq, Repr

/-- The `map[string]interface{}` handed to `LogCommand`. -/
abbrev ArgMap := GoMap Value

/-- The name of a Go function used as a command handler. -/
abbrev HandlerRef := String

/-- Go `discordgo.User`, reduced to the field the dispatcher reads. -/
structure User where
  ID : String
  deriving DecidableEq, Repr

/-- Go `discordgo.Member`; its `User` pointer is always set on interactions. -/
structure Member where
  User : User
  deriving DecidableEq, Repr

/-- Go `discordgo.ApplicationCommandInteractionDataOption`. -/
inductive DataOption where
  | mk (Name : String) (OptType : Nat) (Value : Value) (Options : List DataOption)

namespace DataOption

/-- Field `Name`. -/
def Name : DataOption → String
  | mk n _ _ _ => n

/-- Field `Type` (a Lean keyword, hence the longer name). -/
def OptType : DataOption → Nat
  | mk _ t _ _ => t

/-- Field `Value`. -/
def Value : DataOption → DiscordBot.Value
  | mk _ _ v _ => v

/-- Field `Options`. -/
def Options : DataOption → List DataOption
  | mk _ _ _ os => os

end DataOption

/-- Go `discordgo.ApplicationCommandOptionSubCommand`. -/
def ApplicationCommandOptionSubCommand : Nat := 1

/-- Go `discordgo.ApplicationCommandOptionString`. -/
def ApplicationCommandOptionString : Nat := 3

/-- Go `discordgo.InteractionResponseChannelMessageWithSource`. -/
def InteractionResponseChannelMessageWithSource : Nat := 4

/-- Go `discordgo.MessageFlagsEphemeral` (`1 << 6`). -/
def MessageFlagsEphemeral : Nat := 64

/-- Go `discordgo.PermissionManageRoles` (`1 << 28`). -/
def PermissionManageRoles : Int := 268435456

/-- Go `discordgo.PermissionManageChannels` (`1 << 4`). -/
def PermissionManageChannels : Int := 16

/-- An application-command `discordgo.InteractionCreate`. `Member` is nil
outside guilds; `Name` and `Options` are those of `ApplicationCommandData()`. -/
structure InteractionCreate where
  GuildID : String
  ChannelID : String
  Member : Option Member
  Name : String
  Options : List DataOption

/-- Go `discordgo.MessageCreate`, reduced to the fields the router reads; the
`Author` pointer is set on every message the gateway delivers. -/
structure MessageCreate where
  ID : String
  GuildID : String
  ChannelID : String
  Content : String
  Author : User
  deriving DecidableEq, Repr

/-- Go `PrefixCommand`. -/
structure PrefixCommand where
  Name : String
  Description : String
  Usage : String
  Handler : HandlerRef
  deriving DecidableEq, Repr

/-- Go `SlashCommand`; `Command` keeps the name of the application command. -/
structure SlashCommand where
  Command : String
  Handler : HandlerRef
  Permissions : Int
  deriving DecidableEq, Repr

/-- A call made on a collaborator, or a handler invocation. -/
inductive Effect where
  | InteractionRespond (type : Nat) (content : String) (flags : Nat)
  | UserChannelPermissions (userID channelID : String)
  | LogCommand (guildID channelID userID name kind : String) (args : ArgMap)
  | Errorf (msg : String)
  | Warnf (msg : String)
  | PrefixHandler (h : HandlerRef) (cmdArgs : List String)
  | SlashHandler (h : HandlerRef)
  | MessageReactionAdd (channelID messageID emoji : String)
  deriving DecidableEq, Repr

/-- A Go run-time panic. -/
inductive Panic where
  | nilDereference
  | indexOutOfRange
  | sliceBoundsOutOfRange
  | nilMapAssignment
  deriving DecidableEq, Repr

/-- What a run did: its calls in program order, and the panic that ended it, if any. -/
structure Outcome where
  trace : List Effect
  panic : Option Panic
  deriving DecidableEq, Repr

/-- What the collaborators answer. `toLower` is Go `strings.ToLower`; an
`Option String` answer is a Go `error` (`none` is `nil`). -/
structure World where
  toLower : String → String
  UserChannelPermissions : String → String → Except String Int
  LogCommand : String → String → String → String → String → ArgMap → Option String
  MessageReactionAdd : String → String → String → Option String

/-- The state of `Bot` and `CommandHandler` read by the router. -/
structure Bot where
  UserID : String
  CommandPrefix : String
  PrefixCommands : GoMap PrefixCommand
  SlashCommands : GoMap SlashCommand

/-! ## `bot/commands.go` -/

/-- An ephemeral `s.InteractionRespond` with the given content. -/
def respondEphemeral (content : String) : Effect :=
  .InteractionRespond InteractionResponseChannelMessageWithSource content MessageFlagsEphemeral

/-- The loop `for i, arg := range args { argumentsMap[fmt.Sprintf("arg%d", i+1)] = arg }`,
started at index `i`. -/
def prefixArguments : Nat → List String → ArgMap → ArgMap
  | _, [], m => m
  | i, arg :: rest, m => prefixArguments (i + 1) rest (GoMap.set m ("arg" ++ toString (i + 1)) (.str arg))

/-- The loop `for _, opt := range opts { argumentsMap[opt.Name] = opt.Value }`. -/
def flattenOptions (opts : List DataOption) (m : ArgMap) : ArgMap :=
  opts.foldl (fun acc opt => GoMap.set acc opt.Name opt.Value) m

/-- Lines 349-369 of `HandleSlashCommand`: the argument map of an invocation. -/
def slashArguments (opts : List DataOption) : ArgMap :=
  match opts with
  | [] => []
  | first :: _ =>
    if first.OptType = ApplicationCommandOptionSubCommand then
      flattenOptions first.Options (GoMap.set [] "subcommand" (.str first.Name))
    else
      flattenOptions opts []

/-- The logrus diagnostic written when `LogCommand` returns an error (lines 287-289
and 372-374). -/
def afterLogCommand (err : Option String) : List Effect :=
  match err with
  | some e => [.Errorf ("Error logging command: " ++ e)]
  | none => []

/-- Go `CommandHandler.HandlePrefixCommand`. -/
def HandlePrefixCommand (w : World) (b : Bot) (m : MessageCreate) (cmdName : String)
    (args : List String) : Outcome :=
  match GoMap.get b.PrefixCommands (w.toLower cmdName) with
  | none => ⟨[], none⟩
  | some cmd =>
    let guildID := if m.GuildID ≠ "" then m.GuildID else ""
    let argumentsMap := prefixArguments 0 args []
    let err := w.LogCommand guildID m.ChannelID m.Author.ID cmdName "prefix" argumentsMap
    ⟨[.LogCommand guildID m.ChannelID m.Author.ID cmdName "prefix" argumentsMap]
        ++ afterLogCommand err ++ [.PrefixHandler cmd.Handler args], none⟩

/-- Lines 342-377 of `HandleSlashCommand`: log the invocation, run the handler. -/
def logAndRunSlash (w : World) (cmd : SlashCommand) (i : InteractionCreate) : Outcome :=
  let guildID := if i.GuildID ≠ "" then i.GuildID else ""
  let argumentsMap := slashArguments i.Options
  match i.Member with
  | none => ⟨[], some .nilDereference⟩
  | some member =>
    let err := w.LogCommand guildID i.ChannelID member.User.ID i.Name "slash" argumentsMap
    ⟨[.LogCommand guildID i.ChannelID member.User.ID i.Name "slash" argumentsMap]
        ++ afterLogCommand err ++ [.SlashHandler cmd.Handler], none⟩

/-- Prefix a run with the calls made before it. -/
def Outcome.after (pre : List Effect) (o : Outcome) : Outcome :=
  ⟨pre ++ o.trace, o.panic⟩

/-- Go `CommandHandler.HandleSlashCommand`. -/
def HandleSlashCommand (w : World) (b : Bot) (i : InteractionCreate) : Outcome :=
  let cmdName := i.Name
  match GoMap.get b.SlashCommands cmdName with
  | none => ⟨[respondEphemeral "Unknown command."], none⟩
  | some cmd =>
    if i.GuildID ≠ "" ∧ cmd.Permissions ≠ 0 then
      match i.Member with
      | none => ⟨[], some .nilDereference⟩
      | some member =>
        match w.UserChannelPermissions member.User.ID i.ChannelID with
        | .error e =>
          ⟨[.UserChannelPermissions member.User.ID i.ChannelID,
            .Errorf ("Error checking permissions: " ++ e),
            respondEphemeral "An error occurred while checking permissions."], none⟩
        | .ok perms =>
          if Int.land perms cmd.Permissions = 0 then
            ⟨[.UserChannelPermissions member.User.ID i.ChannelID,
              respondEphemeral "You don't have permission to use this command."], none⟩
          else
            (logAndRunSlash w cmd i).after [.UserChannelPermissions member.User.ID i.ChannelID]
    else
      logAndRunSlash w cmd i

/-! ## `bot/events.go` -/

/-- Lines 105-112 of `onMessageCreate`: the wave reaction. -/
def helloReaction (w : World) (m : MessageCreate) : List Effect :=
  if Contains (w.toLower m.Content) "hello bot" then
    [.MessageReactionAdd m.ChannelID m.ID "👋"] ++
      (match w.MessageReactionAdd m.ChannelID m.ID "👋" with
       | some e => [.Warnf ("Error adding reaction: " ++ e)]
       | none => [])
  else []

/-- Lines 95-103 of `onMessageCreate`: the prefix-command branch. -/
def dispatchPrefix (w : World) (b : Bot) (m : MessageCreate) : Outcome :=
  if HasPrefix m.Content b.CommandPrefix then
    let cmdString := TrimPrefix m.Content b.CommandPrefix
    match Fields cmdString with
    | [] => ⟨[], some .indexOutOfRange⟩
    | cmdName :: cmdArgs => HandlePrefixCommand w b m cmdName cmdArgs
  else ⟨[], none⟩

/-- Go `Bot.onMessageCreate`. -/
def onMessageCreate (w : World) (b : Bot) (m : MessageCreate) : Outcome :=
  if m.Author.ID = b.UserID then ⟨[], none⟩
  else
    let r := dispatchPrefix w b m
    match r.panic with
    | some p => ⟨r.trace, some p⟩
    | none => ⟨r.trace ++ helloReaction w m, none⟩

/-! ## `bot/voice.go` -/

/-- Go `VoiceConnection`; `Conn` is the handle of the transport connection. -/
structure VoiceConnection where
  GuildID : String
  ChannelID : String
  Conn : Nat
  Playing : Bool
  Stopping : Bool
  deriving DecidableEq, Repr

/-- A `*VoiceConnection`: an index into the heap of the manager; an index
past the end of the heap is a nil pointer. -/
abbrev Ptr := Nat

/-- Go `VoiceManager`: the connection records allocated so far and the map
from guild id to the record of its connection. -/
structure VoiceManager where
  heap : List VoiceConnection
  Connections : GoMap Ptr
  deriving DecidableEq, Repr

/-- A call made by the voice manager on the transport or on logrus. -/
inductive VoiceCall where
  | Disconnect (conn : Nat)
  | ChannelVoiceJoin (guildID channelID : String) (mute deaf : Bool)
  | Warnf (msg : String)
  deriving DecidableEq, Repr

/-- What the transport answers: `ChannelVoiceJoin` gives a connection handle
or an error, `Disconnect` gives a Go `error`. -/
structure Transport where
  ChannelVoiceJoin : String → String → Except String Nat
  Disconnect : Nat → Option String

/-- What `JoinVoiceChannel` did: the manager afterwards, the two return
values, and the calls in program order, each with the connection map as it
was when the call was made. -/
structure JoinResult where
  vm : VoiceManager
  vc : Option Ptr
  err : Option String
  trace : List (VoiceCall × GoMap Ptr)
  panic : Option Panic
  deriving DecidableEq, Repr

/-- Lines 49-53 of `JoinVoiceChannel`: disconnect the current connection and
delete the entry of the guild. -/
def teardown (t : Transport) (vm : VoiceManager) (guildID : String) (vc : VoiceConnection) :
    VoiceManager × List (VoiceCall × GoMap Ptr) :=
  let warn : List (VoiceCall × GoMap Ptr) :=
    match t.Disconnect vc.Conn with
    | some e => [(.Warnf ("Error disconnecting from voice channel: " ++ e), vm.Connections)]
    | none => []
  ({ vm with Connections := GoMap.delete vm.Connections guildID },
    [(VoiceCall.Disconnect vc.Conn, vm.Connections)] ++ warn)

/-- Lines 56-72 of `JoinVoiceChannel`: join the channel and store the record. -/
def establish (t : Transport) (vm : VoiceManager) (guildID channelID : String)
    (pre : List (VoiceCall × GoMap Ptr)) : JoinResult :=
  let call : VoiceCall × GoMap Ptr :=
    (.ChannelVoiceJoin guildID channelID false true, vm.Connections)
  match t.ChannelVoiceJoin guildID channelID with
  | .error e => ⟨vm, none, some e, pre ++ [call], none⟩
  | .ok conn =>
    let vc : VoiceConnection :=
      { GuildID := guildID, ChannelID := channelID, Conn := conn,
        Playing := false, Stopping := false }
    let p : Ptr := vm.heap.length
    ⟨{ heap := vm.heap ++ [vc], Connections := GoMap.set vm.Connections guildID p },
      some p, none, pre ++ [call], none⟩

/-- Go `VoiceManager.JoinVoiceChannel`. -/
def JoinVoiceChannel (t : Transport) (vm : VoiceManager) (guildID channelID : String) :
    JoinResult :=
  match GoMap.get vm.Connections guildID with
  | some p =>
    match vm.heap[p]? with
    | none => ⟨vm, none, none, [], some .nilDereference⟩
    | some vc =>
      if vc.ChannelID = channelID then ⟨vm, some p, none, [], none⟩
      else
        let (vm1, pre) := teardown t vm guildID vc
        establish t vm1 guildID channelID pre
  | none => establish t vm guildID channelID []

/-- Is the call a transport join. -/
def VoiceCall.isJoin : VoiceCall → Bool
  | .ChannelVoiceJoin _ _ _ _ => true
  | _ => false

/-- Is the call a transport disconnect. -/
def VoiceCall.isDisconnect : VoiceCall → Bool
  | .Disconnect _ => true
  | _ => false

/-! ## `bot/voice.go`: leaving a channel and playing audio -/

/-- An error value returned by `LeaveVoiceChannel` or `PlayAudio`: one of the two
values made with `errors.New` in `voice.go`, or an error handed back by the
transport. -/
inductive VoiceError where
  | notConnected
  | alreadyPlaying
  | transport (msg : String)
  deriving DecidableEq, Repr

/-- The text of the error, as `err.Error()` gives it. -/
def VoiceError.Error : VoiceError → String
  | .notConnected => "not connected to a voice channel in this guild"
  | .alreadyPlaying => "already playing audio"
  | .transport msg => msg

/-- What `LeaveVoiceChannel` did: the manager afterwards, the returned error, and
the calls in program order, each with the connection map as it was at the call. -/
structure LeaveResult where
  vm : VoiceManager
  err : Option VoiceError
  trace : List (VoiceCall × GoMap Ptr)
  panic : Option Panic
  deriving DecidableEq, Repr

/-- Go `VoiceManager.LeaveVoiceChannel`. -/
def LeaveVoiceChannel (t : Transport) (vm : VoiceManager) (guildID : String) : LeaveResult :=
  match GoMap.get vm.Connections guildID with
  | none => ⟨vm, some .notConnected, [], none⟩
  | some p =>
    match vm.heap[p]? with
    | none => ⟨vm, none, [], some .nilDereference⟩
    | some vc =>
      let vm1 : VoiceManager := { vm with heap := vm.heap.set p { vc with Stopping := true } }
      let call : VoiceCall × GoMap Ptr := (.Disconnect vc.Conn, vm.Connections)
      match t.Disconnect vc.Conn with
      | some e => ⟨vm1, some (.transport e), [call], none⟩
      | none =>
        ⟨{ vm1 with Connections := GoMap.delete vm1.Connections guildID }, none, [call], none⟩

/-- Go `VoiceConnection.StopAudio`. -/
def StopAudio (vc : VoiceConnection) : VoiceConnection :=
  { vc with Stopping := true }

/-- Go `VoiceConnection.IsPlaying`. -/
def IsPlaying (vc : VoiceConnection) : Bool :=
  vc.Playing

/-- The error of an `io.Reader` call: `io.EOF` or another error. -/
inductive ReadError where
  | EOF
  | other (msg : String)
  deriving DecidableEq, Repr

/-- The answer `(n, err)` of one `reader.Read(buf)`: the `n` bytes written to the
front of `buf` (so `n` is `bytes.length`) and the error. -/
structure ReadResult where
  bytes : List Nat
  err : Option ReadError
  deriving DecidableEq, Repr

/-- The length of the buffer `make([]byte, 16*1024)`. -/
def bufferSize : Nat := 16 * 1024

/-- A call made by `PlayAudio` on the transport, the reader or logrus. -/
inductive AudioCall where
  | Speaking (active : Bool)
  | Read (size : Nat)
  | OpusSend (chunk : List Nat)
  | Errorf (msg : String)
  deriving DecidableEq, Repr

/-- The surroundings of one `PlayAudio` run: what `vc.Conn.Speaking` answers, what
the `k`-th call of `reader.Read` answers, and whether another goroutine set the
stopping flag (`StopAudio`, `LeaveVoiceChannel`) after the previous check of the
flag and before check number `k` of the loop. -/
structure AudioWorld where
  Speaking : Bool → Option String
  reader : Nat → ReadResult
  stops : Nat → Bool

/-- What `PlayAudio` did: the connection record afterwards, the returned error, the
calls in program order, and the panic that ended the run, if any. -/
structure PlayResult where
  vc : VoiceConnection
  err : Option VoiceError
  trace : List AudioCall
  panic : Option Panic
  deriving DecidableEq, Repr

/-- The calls of the loop body after a read that reports an error (lines 140-145). -/
def readFailed : ReadError → List AudioCall
  | .EOF => [.Read bufferSize]
  | .other msg => [.Read bufferSize, .Errorf ("Error reading audio: " ++ msg)]

/-- The `for` loop of `PlayAudio` (lines 129-151) from iteration `k` on, with at most
`fuel` iterations; `none` when the fuel runs out before the loop exits. -/
def playLoop (a : AudioWorld) :
    Nat → Nat → VoiceConnection → Option (VoiceConnection × List AudioCall × Option Panic)
  | 0, _, _ => none
  | fuel + 1, k, vc =>
    let vc1 := if a.stops k then StopAudio vc else vc
    if vc1.Stopping then some (vc1, [], none)
    else
      match (a.reader k).err with
      | some e => some (vc1, readFailed e, none)
      | none =>
        if (a.reader k).bytes.length > 0 then
          if (a.reader k).bytes.length > bufferSize then
            some (vc1, [.Read bufferSize], some .sliceBoundsOutOfRange)
          else
            match playLoop a fuel (k + 1) vc1 with
            | none => none
            | some (vc2, tr, p) =>
              some (vc2, [.Read bufferSize, .OpusSend (a.reader k).bytes] ++ tr, p)
        else
          match playLoop a fuel (k + 1) vc1 with
          | none => none
          | some (vc2, tr, p) => some (vc2, [.Read bufferSize] ++ tr, p)

/-- Go `VoiceConnection.PlayAudio`, with at most `fuel` iterations of its loop. The
deferred function runs on every way out of the loop, a panic included. -/
def PlayAudio (a : AudioWorld) (fuel : Nat) (vc : VoiceConnection) : Option PlayResult :=
  if vc.Playing then some ⟨vc, some .alreadyPlaying, [], none⟩
  else
    let vc1 : VoiceConnection := { vc with Playing := true, Stopping := false }
    match a.Speaking true with
    | some e => some ⟨vc1, some (.transport e), [.Speaking true], none⟩
    | none =>
      match playLoop a fuel 0 vc1 with
      | none => none
      | some (vc2, tr, p) =>
        some ⟨{ vc2 with Playing := false, Stopping := false }, none,
          [.Speaking true] ++ tr ++ [.Speaking false], p⟩

/-! ## `bot/bot.go` and the guild events of `bot/events.go` -/

/-- Go `discordgo.Channel`, reduced to the fields the welcome message reads;
`ChannelType` is its field `Type`. -/
structure Channel where
  ID : String
  ChannelType : Nat
  deriving DecidableEq, Repr

/-- Go `discordgo.Guild`, reduced to the fields the bot reads. -/
structure Guild where
  ID : String
  Name : String
  MemberCount : Int
  Channels : List Channel
  deriving DecidableEq, Repr

/-- A `map[string]*discordgo.Guild` value: the index of a map object in memory; an
index past the end is the nil map. -/
abbrev MapRef := Nat

/-- The part of the Go heap the guild store lives in: the `discordgo.Guild` objects
(a `Ptr` is an index into `guilds`) and the map objects. -/
structure Memory where
  guilds : List Guild
  maps : List (GoMap Ptr)
  deriving DecidableEq, Repr

/-- The field `Guilds` of `Bot`, with the memory it refers to. -/
structure GuildStore where
  mem : Memory
  Guilds : MapRef
  deriving DecidableEq, Repr

/-- The entries of a map object; a nil map has none. -/
def Memory.entries (m : Memory) (r : MapRef) : GoMap Ptr :=
  (m.maps[r]?).getD []

/-- The assignment `r[k] = p` through a map value; it panics on the nil map. -/
def Memory.mapSet (m : Memory) (r : MapRef) (k : String) (p : Ptr) : Memory × Option Panic :=
  match m.maps[r]? with
  | none => (m, some .nilMapAssignment)
  | some es => ({ m with maps := m.maps.set r (GoMap.set es k p) }, none)

/-- The builtin `delete(r, k)` through a map value; a no-op on the nil map. -/
def Memory.mapDelete (m : Memory) (r : MapRef) (k : String) : Memory :=
  match m.maps[r]? with
  | none => m
  | some es => { m with maps := m.maps.set r (GoMap.delete es k) }

/-- The assignment `p.MemberCount = n` through a guild pointer. -/
def Memory.setMemberCount (m : Memory) (p : Ptr) (n : Int) : Memory × Option Panic :=
  match m.guilds[p]? with
  | none => (m, some .nilDereference)
  | some g => ({ m with guilds := m.guilds.set p { g with MemberCount := n } }, none)

/-- The snapshot found under a guild id through a map value: the object the entry
points to. -/
def Memory.lookup (m : Memory) (r : MapRef) (id : String) : Option Guild :=
  match GoMap.get (m.entries r) id with
  | none => none
  | some p => m.guilds[p]?

/-- The snapshot the store holds for a guild id. -/
def GuildStore.lookup (st : GuildStore) (id : String) : Option Guild :=
  st.mem.lookup st.Guilds id

/-- Go `Bot.GetGuilds`: a new map object that receives every entry of `b.Guilds`. -/
def GetGuilds (st : GuildStore) : GuildStore × MapRef :=
  let guildsCopy : GoMap Ptr :=
    (st.mem.entries st.Guilds).foldl (fun acc e => GoMap.set acc e.1 e.2) []
  ({ st with mem := { st.mem with maps := st.mem.maps ++ [guildsCopy] } }, st.mem.maps.length)

/-- A Go `int` (64 bits) holding the value `x`, wrapped around on overflow. -/
def wrapInt (x : Int) : Int :=
  (x + 2 ^ 63) % 2 ^ 64 - 2 ^ 63

/-- Go `discordgo.ChannelTypeGuildText`. -/
def ChannelTypeGuildText : Nat := 0

/-- Go `discordgo.PermissionSendMessages` (`1 << 11`). -/
def PermissionSendMessages : Int := 2048

/-- A call made by the guild event handlers on a collaborator. -/
inductive GuildCall where
  | Infof (msg : String)
  | Warnf (msg : String)
  | Errorf (msg : String)
  | UpdateBotStats (guildsCount usersCount uptimeSeconds : Int)
  | UserChannelPermissions (userID channelID : String)
  | ChannelMessageSendEmbed (channelID title : String)
  deriving DecidableEq, Repr

/-- The nearest integer to `x`, the even one of the two when `x` lies half-way. -/
def roundHalfEven (x : ℚ) : ℤ :=
  if x - ⌊x⌋ < 1 / 2 then ⌊x⌋
  else if 1 / 2 < x - ⌊x⌋ then ⌊x⌋ + 1
  else if ⌊x⌋ % 2 = 0 then ⌊x⌋ else ⌊x⌋ + 1

/-- The `float64` that an exact result `x` is rounded to, in the normal range of the
format (IEEE 754, round to nearest, ties to even): 53 significant bits, so a
multiple of `2 ^ (e - 52)` where `2 ^ e ≤ |x| < 2 ^ (e + 1)`. -/
def roundFloat64 (x : ℚ) : ℚ :=
  if x = 0 then 0
  else if 0 < x then roundHalfEven (x / 2 ^ (Int.log 2 x - 52)) * 2 ^ (Int.log 2 x - 52)
  else -(roundHalfEven (-x / 2 ^ (Int.log 2 (-x) - 52)) * 2 ^ (Int.log 2 (-x) - 52))

/-- The Go conversion `int(f)` of a `float64` within the range of `int`: the
fraction is dropped. -/
def float64ToInt (f : ℚ) : ℤ :=
  if 0 ≤ f then ⌊f⌋ else ⌈f⌉

/-- Go `time.Second`, a `Duration` in nanoseconds. -/
def Second : ℤ := 1000000000

/-- Go `Duration.Seconds`, `float64(sec) + float64(nsec)/1e9` with `sec := d / Second`
and `nsec := d % Second`. Both conversions are exact for an `int64` duration; the
division and the sum are rounded. -/
def Seconds (d : ℤ) : ℚ :=
  roundFloat64 ((Int.tdiv d Second : ℤ) + roundFloat64 ((Int.tmod d Second : ℤ) / 1000000000))

/-- What the collaborators of the guild event handlers answer; `uptime` is the
`Duration`, in nanoseconds, that `b.GetUptime()` returns, `time.Since(b.StartTime)`. -/
structure GuildWorld where
  BotUserID : String
  uptime : Int
  UpdateBotStats : Int → Int → Int → Option String
  UserChannelPermissions : String → String → Except String Int
  ChannelMessageSendEmbed : String → Option String

/-- What a guild event handler did: the store afterwards, its calls in program
order, and the panic that ended it, if any. -/
structure GuildRun where
  store : GuildStore
  trace : List GuildCall
  panic : Option Panic
  deriving DecidableEq, Repr

/-- The loop `for _, guild := range b.GetGuilds() { usersCount += guild.MemberCount }`
over the entries of the copy; `none` when an entry holds a nil pointer. -/
def sumMemberCounts (m : Memory) : List (String × Ptr) → Int → Option Int
  | [], usersCount => some usersCount
  | (_, p) :: rest, usersCount =>
    match m.guilds[p]? with
    | none => none
    | some guild => sumMemberCounts m rest (wrapInt (usersCount + guild.MemberCount))

/-- Go `Bot.updateStats`. -/
def updateStats (w : GuildWorld) (st : GuildStore) : GuildRun :=
  let guildsCount : Int := GoMap.len (st.mem.entries st.Guilds)
  let (st1, guildsCopy) := GetGuilds st
  match sumMemberCounts st1.mem (st1.mem.entries guildsCopy) 0 with
  | none => ⟨st1, [], some .nilDereference⟩
  | some usersCount =>
    let uptimeSeconds := float64ToInt (Seconds w.uptime)
    let call := GuildCall.UpdateBotStats guildsCount usersCount uptimeSeconds
    match w.UpdateBotStats guildsCount usersCount uptimeSeconds with
    | some e => ⟨st1, [call, .Errorf ("Error updating bot stats: " ++ e)], none⟩
    | none => ⟨st1, [call], none⟩

/-- The welcome loop of `onGuildCreate` (lines 43-72): the first text channel the
bot may send to receives the welcome embed. -/
def welcome (w : GuildWorld) : List Channel → List GuildCall
  | [] => []
  | channel :: rest =>
    if channel.ChannelType = ChannelTypeGuildText then
      match w.UserChannelPermissions w.BotUserID channel.ID with
      | .error e =>
        [.UserChannelPermissions w.BotUserID channel.ID,
          .Warnf ("Error checking permissions: " ++ e)] ++ welcome w rest
      | .ok perms =>
        if Int.land perms PermissionSendMessages ≠ 0 then
          [.UserChannelPermissions w.BotUserID channel.ID,
            .ChannelMessageSendEmbed channel.ID "Thanks for adding me!"] ++
            (match w.ChannelMessageSendEmbed channel.ID with
             | some e => [.Warnf ("Error sending welcome message: " ++ e)]
             | none => [])
        else
          [.UserChannelPermissions w.BotUserID channel.ID] ++ welcome w rest
    else welcome w rest

/-- Go `Bot.onGuildCreate`; the event brings the guild object `g`, which is placed
in memory, and `b.Guilds[g.ID] = g.Guild` stores the pointer to it. -/
def onGuildCreate (w : GuildWorld) (st : GuildStore) (g : Guild) : GuildRun :=
  let joined := GuildCall.Infof ("Bot joined guild: " ++ g.Name ++ " (ID: " ++ g.ID ++ ")")
  let p : Ptr := st.mem.guilds.length
  let mem1 : Memory := { st.mem with guilds := st.mem.guilds ++ [g] }
  match mem1.mapSet st.Guilds g.ID p with
  | (mem2, some panic) => ⟨{ st with mem := mem2 }, [joined], some panic⟩
  | (mem2, none) =>
    let r := updateStats w { st with mem := mem2 }
    match r.panic with
    | some panic => ⟨r.store, [joined] ++ r.trace, some panic⟩
    | none => ⟨r.store, [joined] ++ r.trace ++ welcome w g.Channels, none⟩

/-- Go `Bot.onGuildDelete` for the guild `id`, of name `name`. -/
def onGuildDelete (w : GuildWorld) (st : GuildStore) (id name : String) : GuildRun :=
  let left := GuildCall.Infof ("Bot left guild: " ++ name ++ " (ID: " ++ id ++ ")")
  let r := updateStats w { st with mem := st.mem.mapDelete st.Guilds id }
  ⟨r.store, [left] ++ r.trace, r.panic⟩

/-! ## `bot/commands.go`: registration of the commands -/

/-- The assignment `h.PrefixCommands[name] = cmd` of `registerPrefixCommands`. -/
def registerPrefix (b : Bot) (name : String) (cmd : PrefixCommand) : Bot :=
  { b with PrefixCommands := GoMap.set b.PrefixCommands name cmd }

/-- The assignment `h.SlashCommands[name] = cmd` of `registerSlashCommands`. -/
def registerSlash (b : Bot) (name : String) (cmd : SlashCommand) : Bot :=
  { b with SlashCommands := GoMap.set b.SlashCommands name cmd }

/-- Go `CommandHandler.registerPrefixCommands`. -/
def registerPrefixCommands (b : Bot) : Bot :=
  let b1 := registerPrefix b "help"
    ⟨"help", "Shows the help message", "help [command]", "helpCommand"⟩
  let b2 := registerPrefix b1 "ping"
    ⟨"ping", "Checks if the bot is online", "ping", "pingCommand"⟩
  let b3 := registerPrefix b2 "info"
    ⟨"info", "Shows information about the bot", "info", "infoCommand"⟩
  registerPrefix b3 "play"
    ⟨"play", "Plays audio in a voice channel", "play [URL or search term]", "playCommand"⟩

/-- Go `CommandHandler.registerSlashCommands`. -/
def registerSlashCommands (b : Bot) : Bot :=
  let b1 := registerSlash b "help" ⟨"help", "helpSlashCommand", 0⟩
  let b2 := registerSlash b1 "ping" ⟨"ping", "pingSlashCommand", 0⟩
  let b3 := registerSlash b2 "info" ⟨"info", "infoSlashCommand", 0⟩
  let b4 := registerSlash b3 "button" ⟨"button", "buttonSlashCommand", 0⟩
  let b5 := registerSlash b4 "select" ⟨"select", "selectSlashCommand", 0⟩
  registerSlash b5 "role" ⟨"role", "roleSlashCommand", PermissionManageRoles⟩

/-- Go `CommandHandler.registerCommands`. -/
def registerCommands (b : Bot) : Bot :=
  registerSlashCommands (registerPrefixCommands b)

/-- The fields of `config.Config` read by the catalog functions. -/
structure Config where
  DevMode : Bool
  DevGuildID : String
  deriving DecidableEq, Repr

/-- Go `discordgo.ApplicationCommand` as listed by the catalog. -/
structure ApplicationCommand where
  ID : String
  Name : String
  deriving DecidableEq, Repr

/-- A call made by the catalog functions on the session or on logrus. -/
inductive CatalogCall where
  | ApplicationCommandCreate (appID guildID command : String)
  | ApplicationCommands (appID guildID : String)
  | ApplicationCommandDelete (appID guildID cmdID : String)
  | Infof (msg : String)
  | Errorf (msg : String)
  deriving DecidableEq, Repr

/-- What the command catalog answers; an `Option String` is a Go `error`. -/
structure Catalog where
  ApplicationCommandCreate : String → String → String → Option String
  ApplicationCommands : String → String → Except String (List ApplicationCommand)
  ApplicationCommandDelete : String → String → String → Option String

/-- What a catalog function did: the returned error and the calls in program order. -/
structure CatalogRun where
  err : Option String
  trace : List CatalogCall
  deriving DecidableEq, Repr

/-- The loop of `RegisterSlashCommands` over the entries of `h.SlashCommands`, in
the order the `range` clause delivers them. -/
def registerLoop (c : Catalog) (cfg : Config) (appID : String) :
    List (String × SlashCommand) → CatalogRun
  | [] => ⟨none, []⟩
  | (_, cmd) :: rest =>
    let guildID := if cfg.DevMode ∧ cfg.DevGuildID ≠ "" then cfg.DevGuildID else ""
    let call := CatalogCall.ApplicationCommandCreate appID guildID cmd.Command
    match c.ApplicationCommandCreate appID guildID cmd.Command with
    | some e =>
      ⟨some ("error creating slash command '" ++ cmd.Command ++ "': " ++ e), [call]⟩
    | none =>
      let r := registerLoop c cfg appID rest
      ⟨r.err, [call, .Infof ("Registered slash command: " ++ cmd.Command)] ++ r.trace⟩

/-- Go `CommandHandler.RegisterSlashCommands`. -/
def RegisterSlashCommands (c : Catalog) (cfg : Config) (b : Bot) : CatalogRun :=
  registerLoop c cfg b.UserID b.SlashCommands

/-- The loop of `UnregisterSlashCommands` over the listed commands. -/
def unregisterLoop (c : Catalog) (cfg : Config) (appID : String) :
    List ApplicationCommand → List CatalogCall
  | [] => []
  | cmd :: rest =>
    [.ApplicationCommandDelete appID cfg.DevGuildID cmd.ID] ++
      (match c.ApplicationCommandDelete appID cfg.DevGuildID cmd.ID with
       | some e => [.Errorf ("Error deleting slash command '" ++ cmd.Name ++ "': " ++ e)]
       | none => [.Infof ("Unregistered slash command: " ++ cmd.Name)]) ++
      unregisterLoop c cfg appID rest

/-- Go `CommandHandler.UnregisterSlashCommands`. -/
def UnregisterSlashCommands (c : Catalog) (cfg : Config) (b : Bot) : CatalogRun :=
  if ¬ cfg.DevMode ∨ cfg.DevGuildID = "" then ⟨none, []⟩
  else
    match c.ApplicationCommands b.UserID cfg.DevGuildID with
    | .error e =>
      ⟨some ("error getting slash commands: " ++ e),
        [.ApplicationCommands b.UserID cfg.DevGuildID]⟩
    | .ok commands =>
      ⟨none, [.ApplicationCommands b.UserID cfg.DevGuildID] ++
        unregisterLoop c cfg b.UserID commands⟩

/-! ## Auxiliary notions used in the statements -/

/-- The keys of a map are pairwise distinct, as in every Go map. -/
def GoMap.WF {V : Type} (m : GoMap V) : Prop :=
  (m.map Prod.fst).Nodup

/-- Well-formedness of a map is decidable. -/
instance GoMap.decidableWF {V : Type} (m : GoMap V) : Decidable (GoMap.WF m) :=
  inferInstanceAs (Decidable (m.map Prod.fst).Nodup)

/-- The entry an option contributes to the argument map. -/
def DataOption.entry (o : DataOption) : String × DiscordBot.Value :=
  (o.Name, o.Value)

/-- Is the effect a handler invocation. -/
def Effect.isHandler : Effect → Bool
  | .PrefixHandler _ _ => true
  | .SlashHandler _ => true
  | _ => false

/-- Is the effect a reply to the interaction. -/
def Effect.isRespond : Effect → Bool
  | .InteractionRespond _ _ _ => true
  | _ => false

/-- Is the effect a permission query. -/
def Effect.isPermissionQuery : Effect → Bool
  | .UserChannelPermissions _ _ => true
  | _ => false

/-- Is the effect a call of `LogCommand`. -/
def Effect.isLogCommand : Effect → Bool
  | .LogCommand _ _ _ _ _ _ => true
  | _ => false

/-- Is the effect a logrus diagnostic. -/
def Effect.isDiagnostic : Effect → Bool
  | .Errorf _ => true
  | .Warnf _ => true
  | _ => false

/-- Go `strings.ToLower` on ASCII text, used for concrete runs. -/
def asciiLower (s : String) : String :=
  String.mk (s.data.map Char.toLower)

/-- A world in which every collaborator succeeds and the actor holds `perms`. -/
def quietWorld (perms : Int) : World :=
  { toLower := asciiLower
    UserChannelPermissions := fun _ _ => .ok perms
    LogCommand := fun _ _ _ _ _ _ => none
    MessageReactionAdd := fun _ _ _ => none }

/-- The prefix commands of `registerPrefixCommands`. -/
def registeredPrefixCommands : GoMap PrefixCommand :=
  let m0 : GoMap PrefixCommand := []
  let m1 := GoMap.set m0 "help"
    ⟨"help", "Shows the help message", "help [command]", "helpCommand"⟩
  let m2 := GoMap.set m1 "ping" ⟨"ping", "Checks if the bot is online", "ping", "pingCommand"⟩
  let m3 := GoMap.set m2 "info"
    ⟨"info", "Shows information about the bot", "info", "infoCommand"⟩
  GoMap.set m3 "play"
    ⟨"play", "Plays audio in a voice channel", "play [URL or search term]", "playCommand"⟩

/-- The slash commands of `registerSlashCommands`. -/
def registeredSlashCommands : GoMap SlashCommand :=
  let m0 : GoMap SlashCommand := []
  let m1 := GoMap.set m0 "help" ⟨"help", "helpSlashCommand", 0⟩
  let m2 := GoMap.set m1 "ping" ⟨"ping", "pingSlashCommand", 0⟩
  let m3 := GoMap.set m2 "info" ⟨"info", "infoSlashCommand", 0⟩
  let m4 := GoMap.set m3 "button" ⟨"button", "buttonSlashCommand", 0⟩
  let m5 := GoMap.set m4 "select" ⟨"select", "selectSlashCommand", 0⟩
  GoMap.set m5 "role" ⟨"role", "roleSlashCommand", PermissionManageRoles⟩

/-- The bot as configured by default, with the registered commands. -/
def sampleBot : Bot :=
  { UserID := "bot", CommandPrefix := "!", PrefixCommands := registeredPrefixCommands,
    SlashCommands := registeredSlashCommands }

/-! ## Concrete inputs -/

/-- The registered table, with the role command requiring two capabilities. -/
def multiRoleBot : Bot :=
  { sampleBot with
    SlashCommands := GoMap.set registeredSlashCommands "role"
      ⟨"role", "roleSlashCommand", Int.lor PermissionManageRoles PermissionManageChannels⟩ }

/-- The invocation `/role add user:u2 role:r1` by `u1` in guild `g1`. -/
def guildRoleAdd : InteractionCreate :=
  { GuildID := "g1", ChannelID := "c1", Member := some ⟨⟨"u1"⟩⟩, Name := "role",
    Options := [DataOption.mk "add" ApplicationCommandOptionSubCommand .null
      [DataOption.mk "user" 6 (.str "u2") [], DataOption.mk "role" 8 (.str "r1") []]] }

/-- The invocation `/ping` in a direct message: no guild id, no member record. -/
def directMessagePing : InteractionCreate :=
  { GuildID := "", ChannelID := "c1", Member := none, Name := "ping", Options := [] }

/-- Two top-level options carrying the same name. -/
def repeatedOptions : List DataOption :=
  [DataOption.mk "query" ApplicationCommandOptionString (.str "a") [],
   DataOption.mk "query" ApplicationCommandOptionString (.str "b") []]

/-- A manager in which guild `g1` is connected to channel `A` and guild `g2` to
channel `C`. -/
def connectedManager : VoiceManager :=
  { heap := [⟨"g1", "A", 7, false, false⟩, ⟨"g2", "C", 8, true, false⟩],
    Connections := [("g1", 0), ("g2", 1)] }

/-- A transport on which every call succeeds; joins return the handle `9`. -/
def okTransport : Transport :=
  { ChannelVoiceJoin := fun _ _ => .ok 9, Disconnect := fun _ => none }

/-- A transport on which every join fails. -/
def failingTransport : Transport :=
  { ChannelVoiceJoin := fun _ _ => .error "timeout", Disconnect := fun _ => none }

/-- Is the call a read from the stream. -/
def AudioCall.isRead : AudioCall → Bool
  | .Read _ => true
  | _ => false

/-- The chunk of a call on the audio sink. -/
def AudioCall.chunk : AudioCall → Option (List Nat)
  | .OpusSend c => some c
  | _ => none

/-- The calls of one iteration of the playback loop whose read succeeds. -/
def iterationCalls (r : ReadResult) : List AudioCall :=
  if r.bytes.length > 0 then [.Read bufferSize, .OpusSend r.bytes] else [.Read bufferSize]

/-- A transport on which every disconnect fails. -/
def brokenTransport : Transport :=
  { ChannelVoiceJoin := fun _ _ => .ok 9, Disconnect := fun _ => some "broken pipe" }

/-- A reader that gives two bytes, then nothing, then three bytes, then `io.EOF`. -/
def shortStream : Nat → ReadResult
  | 0 => ⟨[1, 2], none⟩
  | 1 => ⟨[], none⟩
  | 2 => ⟨[3, 4, 5], none⟩
  | _ => ⟨[], some .EOF⟩

/-- A reader that gives one byte on every call, without end. -/
def endlessStream : Nat → ReadResult :=
  fun k => ⟨[k % 256], none⟩

/-- A playback of `shortStream` that nobody stops. -/
def shortPlayback : AudioWorld :=
  { Speaking := fun _ => none, reader := shortStream, stops := fun _ => false }

/-- A playback of `endlessStream` stopped during its second iteration. -/
def stoppedPlayback : AudioWorld :=
  { Speaking := fun _ => none, reader := endlessStream, stops := fun k => k == 2 }

/-- The record of an idle connection of guild `g1` to channel `A`. -/
def idleConnection : VoiceConnection :=
  ⟨"g1", "A", 7, false, false⟩

/-- A store holding guild `g1` (10 members) and guild `g2` (5 members). -/
def sampleStore : GuildStore :=
  { mem := { guilds := [⟨"g1", "One", 10, []⟩, ⟨"g2", "Two", 5, []⟩],
             maps := [[("g1", 0), ("g2", 1)]] },
    Guilds := 0 }

/-- A world in which every collaborator of the guild handlers succeeds. -/
def quietGuildWorld : GuildWorld :=
  { BotUserID := "bot", uptime := 60 * Second, UpdateBotStats := fun _ _ _ => none,
    UserChannelPermissions := fun _ _ => .ok PermissionSendMessages,
    ChannelMessageSendEmbed := fun _ => none }

/-- The snapshot of a guild `g3` with one text channel. -/
def newGuild : Guild :=
  ⟨"g3", "Three", 7, [⟨"c1", ChannelTypeGuildText⟩]⟩

/-- Is the call a create call on the catalog. -/
def CatalogCall.isCreate : CatalogCall → Bool
  | .ApplicationCommandCreate _ _ _ => true
  | _ => false

/-- Is the call a delete call on the catalog. -/
def CatalogCall.isDelete : CatalogCall → Bool
  | .ApplicationCommandDelete _ _ _ => true
  | _ => false

/-- Is the call a call on the catalog, of any kind. -/
def CatalogCall.isCatalog : CatalogCall → Bool
  | .Infof _ => false
  | .Errorf _ => false
  | _ => true

/-- The scope in which `RegisterSlashCommands` creates the commands. -/
def Config.scope (cfg : Config) : String :=
  if cfg.DevMode ∧ cfg.DevGuildID ≠ "" then cfg.DevGuildID else ""

/-- A bot with empty command tables. -/
def emptyBot : Bot :=
  { UserID := "bot", CommandPrefix := "!", PrefixCommands := [], SlashCommands := [] }

/-- A catalog that accepts every call and lists two commands in every scope. -/
def okCatalog : Catalog :=
  { ApplicationCommandCreate := fun _ _ _ => none
    ApplicationCommands := fun _ _ => .ok [⟨"1", "help"⟩, ⟨"2", "ping"⟩]
    ApplicationCommandDelete := fun _ _ _ => none }

/-- A catalog that refuses every create call. -/
def refusingCatalog : Catalog :=
  { okCatalog with ApplicationCommandCreate := fun _ _ _ => some "forbidden" }

/-- A catalog that refuses the create call for `info` and accepts every other call. -/
def pickyCatalog : Catalog :=
  { okCatalog with
    ApplicationCommandCreate := fun _ _ cmd => if cmd = "info" then some "quota" else none }

/-- Development mode with the development guild `dev`. -/
def devConfig : Config :=
  ⟨true, "dev"⟩

/-- Production: no development mode. -/
def prodConfig : Config :=
  ⟨false, "dev"⟩

/-- A message that is the command prefix and nothing else. -/
def barePrefixMessage : MessageCreate :=
  ⟨"m1", "g1", "c1", "!", ⟨"u1"⟩⟩

/-- A message that is the command prefix followed by blanks only. -/
def blankPrefixMessage : MessageCreate :=
  ⟨"m2", "g1", "c1", "!  \t ", ⟨"u1"⟩⟩

/-- A sub-command `add` with one nested option that is itself named `subcommand`. -/
def reservedClash : List DataOption :=
  [DataOption.mk "add" ApplicationCommandOptionSubCommand .null
    [DataOption.mk "subcommand" ApplicationCommandOptionString (.str "x") []]]

/-- A playback on a transport that cannot raise the speaking flag. -/
def mutePlayback : AudioWorld :=
  { Speaking := fun _ => some "ws closed", reader := shortStream, stops := fun _ => false }

/-- A reader that gives two bytes and then three bytes together with `io.EOF`. -/
def tailStream : Nat → ReadResult
  | 0 => ⟨[1, 2], none⟩
  | 1 => ⟨[3, 4, 5], some .EOF⟩
  | _ => ⟨[], some .EOF⟩

/-- A playback of `tailStream` that nobody stops. -/
def tailPlayback : AudioWorld :=
  { Speaking := fun _ => none, reader := tailStream, stops := fun _ => false }

/-- Is the call a call of the stats port. -/
def GuildCall.isUpdateBotStats : GuildCall → Bool
  | .UpdateBotStats _ _ _ => true
  | _ => false

/-- The sum of the member counts of the snapshots a map points to. -/
def memberCountSum (m : Memory) (es : GoMap Ptr) : Int :=
  (es.map (fun e => ((m.guilds[e.2]?).map Guild.MemberCount).getD 0)).sum

/-- The quiet world after `2 ^ 24` seconds and `999999999` nanoseconds of uptime. -/
def longRunningWorld : GuildWorld :=
  { quietGuildWorld with uptime := 16777216999999999 }

/-- The quiet world, but with a stats port that fails. -/
def failingStatsWorld : GuildWorld :=
  { quietGuildWorld with UpdateBotStats := fun _ _ _ => some "db down" }

/-! ## Lemmas on Go maps -/

namespace GoMap

variable {V : Type}

theorem get_nil (k : String) : get ([] : GoMap V) k = none := rfl

theorem get_cons (k a : String) (v : V) (m : GoMap V) :
    get ((a, v) :: m) k = if k = a then some v else get m k := by
  unfold get
  rw [List.lookup_cons]
  by_cases h : k = a
  · simp [h]
  · have : (k == a) = false := by simpa using h
    simp [this, h]

theorem get_append_of_get_none (m n : GoMap V) (k : String) (h : get m k = none) :
    get (m ++ n) k = get n k := by
  induction m with
  | nil => rfl
  | cons e m ih =>
    obtain ⟨a, v⟩ := e
    rw [get_cons] at h
    rw [List.cons_append, get_cons]
    by_cases hk : k = a
    · simp [hk] at h
    · simp only [hk, if_false] at h ⊢
      exact ih h

theorem get_append_of_get_some (m n : GoMap V) (k : String) (v : V) (h : get m k = some v) :
    get (m ++ n) k = some v := by
  induction m with
  | nil => simp [get_nil] at h
  | cons e m ih =>
    obtain ⟨a, u⟩ := e
    rw [get_cons] at h
    rw [List.cons_append, get_cons]
    by_cases hk : k = a
    · simpa [hk] using h
    · simp only [hk, if_false] at h ⊢
      exact ih h

theorem get_delete_self (m : GoMap V) (k : String) : get (delete m k) k = none := by
  induction m with
  | nil => rfl
  | cons e m ih =>
    obtain ⟨a, v⟩ := e
    unfold delete at ih ⊢
    by_cases hk : a = k
    · simpa [List.filter_cons, hk] using ih
    · have hne : (a != k) = true := by simpa using hk
      rw [List.filter_cons]
      simp only [hne, if_true]
      rw [get_cons]
      have : ¬ k = a := fun h => hk h.symm
      simpa [this] using ih

theorem get_delete_of_ne (m : GoMap V) (k j : String) (h : j ≠ k) :
    get (delete m k) j = get m j := by
  induction m with
  | nil => rfl
  | cons e m ih =>
    obtain ⟨a, v⟩ := e
    unfold delete at ih ⊢
    by_cases hk : a = k
    · subst hk
      have hne : (a != a) = false := by simp
      rw [List.filter_cons]
      simp only [hne]
      rw [get_cons]
      simpa [h] using ih
    · have hne : (a != k) = true := by simpa using hk
      rw [List.filter_cons]
      simp only [hne, if_true]
      rw [get_cons, get_cons, ih]

theorem get_set_self (m : GoMap V) (k : String) (v : V) : get (set m k v) k = some v := by
  unfold set
  rw [get_append_of_get_none _ _ _ (get_delete_self m k), get_cons]
  simp

theorem get_set_of_ne (m : GoMap V) (k j : String) (v : V) (h : j ≠ k) :
    get (set m k v) j = get m j := by
  unfold set
  cases hj : get (delete m k) j with
  | none =>
    rw [get_append_of_get_none _ _ _ hj, get_cons, ← get_delete_of_ne m k j h, hj]
    simp [h, get_nil]
  | some u =>
    rw [get_append_of_get_some _ _ _ _ hj, ← get_delete_of_ne m k j h, hj]

theorem count_delete_self (m : GoMap V) (k : String) : count (delete m k) k = 0 := by
  unfold count delete
  rw [List.filter_filter, List.length_eq_zero, List.filter_eq_nil_iff]
  intro e _
  by_cases h : e.1 = k <;> simp [h]

theorem count_append (m n : GoMap V) (k : String) : count (m ++ n) k = count m k + count n k := by
  unfold count
  rw [List.filter_append, List.length_append]

theorem count_set_self (m : GoMap V) (k : String) (v : V) : count (set m k v) k = 1 := by
  unfold set
  rw [count_append, count_delete_self]
  simp [count]

theorem count_eq_zero_of_get_none (m : GoMap V) (k : String) (h : get m k = none) :
    count m k = 0 := by
  induction m with
  | nil => rfl
  | cons e m ih =>
    obtain ⟨a, v⟩ := e
    rw [get_cons] at h
    by_cases hk : k = a
    · simp [hk] at h
    · simp only [hk, if_false] at h
      have hne : ¬ a = k := fun h => hk h.symm
      have := ih h
      unfold count at this ⊢
      simpa [List.filter_cons, hne] using this

theorem delete_eq_self (m : GoMap V) (k : String) (h : k ∉ m.map Prod.fst) : delete m k = m := by
  unfold delete
  rw [List.filter_eq_self]
  intro e he
  have : e.1 ≠ k := by
    intro hk
    exact h (hk ▸ List.mem_map_of_mem Prod.fst he)
  simpa using this

theorem set_eq_append (m : GoMap V) (k : String) (v : V) (h : k ∉ m.map Prod.fst) :
    set m k v = m ++ [(k, v)] := by
  unfold set
  rw [delete_eq_self m k h]

end GoMap

/-! ## Structured dispatch: the permission gate (C1) -/

/-- What the permission gate of `HandleSlashCommand` decides, for a registered
command with a non-zero mask invoked in a guild: the denial is sent exactly when the
held permissions and the mask have no bit in common. -/
theorem HandleSlashCommand_denies_iff_disjoint (w : World) (b : Bot) (i : InteractionCreate)
    (cmd : SlashCommand) (member : Member) (perms : Int)
    (hcmd : GoMap.get b.SlashCommands i.Name = some cmd)
    (hguild : i.GuildID ≠ "") (hmask : cmd.Permissions ≠ 0)
    (hmem : i.Member = some member)
    (hperm : w.UserChannelPermissions member.User.ID i.ChannelID = .ok perms) :
    (Int.land perms cmd.Permissions = 0 →
      HandleSlashCommand w b i
        = ⟨[.UserChannelPermissions member.User.ID i.ChannelID,
            respondEphemeral "You don't have permission to use this command."], none⟩) ∧
    (Int.land perms cmd.Permissions ≠ 0 →
      HandleSlashCommand w b i
        = (logAndRunSlash w cmd i).after [.UserChannelPermissions member.User.ID i.ChannelID]) := by
  constructor
  · intro h
    simp [HandleSlashCommand, hcmd, hguild, hmask, hmem, hperm, h]
  · intro h
    simp [HandleSlashCommand, hcmd, hguild, hmask, hmem, hperm, h]

/-- C1, the code at the failing input: the role command requires manage-roles and
manage-channels, the actor holds manage-channels only, so the required mask is not
a subset of the held permissions; no denial is sent, the invocation is logged and
the handler runs. -/
theorem HandleSlashCommand_partial_permissions_run_handler :
    Int.land PermissionManageChannels (Int.lor PermissionManageRoles PermissionManageChannels)
        ≠ Int.lor PermissionManageRoles PermissionManageChannels ∧
      GoMap.get multiRoleBot.SlashCommands "role"
        = some ⟨"role", "roleSlashCommand",
            Int.lor PermissionManageRoles PermissionManageChannels⟩ ∧
      HandleSlashCommand (quietWorld PermissionManageChannels) multiRoleBot guildRoleAdd
        = ⟨[.UserChannelPermissions "u1" "c1",
            .LogCommand "g1" "c1" "u1" "role" "slash"
              [("subcommand", .str "add"), ("user", .str "u2"), ("role", .str "r1")],
            .SlashHandler "roleSlashCommand"], none⟩ := by
  decide

/-! ## Structured dispatch: the argument map (C2) -/

/-- One iteration of the flattening loop. -/
theorem flattenOptions_cons (o : DataOption) (os : List DataOption) (m : ArgMap) :
    flattenOptions (o :: os) m = flattenOptions os (GoMap.set m o.Name o.Value) := rfl

/-- Flattening options with fresh, pairwise distinct names appends their entries. -/
theorem flattenOptions_eq_append (os : List DataOption) (m : ArgMap)
    (hnew : ∀ o ∈ os, o.Name ∉ m.map Prod.fst) (hnd : (os.map DataOption.Name).Nodup) :
    flattenOptions os m = m ++ os.map DataOption.entry := by
  induction os generalizing m with
  | nil => simp [flattenOptions]
  | cons a os ih =>
    rw [List.map_cons, List.nodup_cons] at hnd
    have ha : a.Name ∉ m.map Prod.fst := hnew a (List.mem_cons_self a os)
    rw [flattenOptions_cons, GoMap.set_eq_append m a.Name a.Value ha, ih _ _ hnd.2]
    · simp [DataOption.entry]
    · intro o ho
      have h1 : o.Name ∉ m.map Prod.fst := hnew o (List.mem_cons_of_mem a ho)
      have h2 : o.Name ≠ a.Name := by
        intro h
        exact hnd.1 (h ▸ List.mem_map_of_mem DataOption.Name ho)
      simp only [List.map_append, List.mem_append, List.map_cons, List.map_nil,
        List.mem_singleton]
      rintro (h | h)
      · exact h1 h
      · exact h2 h

/-- C2 as stated fails: for two top-level options of the same name the argument map
has one entry, not one per option, and the first option's value is not in it. -/
theorem slashArguments_repeated_name :
    (∀ o ∈ repeatedOptions, o.OptType ≠ ApplicationCommandOptionSubCommand) ∧
      slashArguments repeatedOptions = [("query", .str "b")] ∧
      GoMap.len (slashArguments repeatedOptions) ≠ repeatedOptions.length ∧
      ¬ (∀ o ∈ repeatedOptions,
          GoMap.get (slashArguments repeatedOptions) o.Name = some o.Value) := by
  decide

/-- C2, amended: an empty option list gives the empty map; when the first option is
a sub-command and the reserved key together with the nested option names are
pairwise distinct, the map is the entry `subcommand` for the first option's name
followed by one entry per nested option (later top-level options contribute
nothing); when the first option is not a sub-command and the top-level names are
pairwise distinct, the map is one entry per top-level option. Every `LogCommand`
call of `HandleSlashCommand` carries this map. -/
theorem slashArguments_distinct_names (opts : List DataOption) :
    (opts = [] → slashArguments opts = []) ∧
    (∀ first rest, opts = first :: rest →
      first.OptType = ApplicationCommandOptionSubCommand →
      ("subcommand" :: first.Options.map DataOption.Name).Nodup →
      slashArguments opts
        = ("subcommand", .str first.Name) :: first.Options.map DataOption.entry) ∧
    (∀ first rest, opts = first :: rest →
      first.OptType ≠ ApplicationCommandOptionSubCommand →
      (opts.map DataOption.Name).Nodup →
      slashArguments opts = opts.map DataOption.entry) ∧
    (∀ (w : World) (b : Bot) (i : InteractionCreate) (g c u n k : String) (args : ArgMap),
      i.Options = opts →
      Effect.LogCommand g c u n k args ∈ (HandleSlashCommand w b i).trace →
      args = slashArguments opts) := by
  refine ⟨?_, ?_, ?_, ?_⟩
  · intro h
    subst h
    rfl
  · intro first rest h hty hnd
    subst h
    rw [List.nodup_cons] at hnd
    simp only [slashArguments, hty, if_true]
    rw [flattenOptions_eq_append _ _ _ hnd.2]
    · rfl
    · intro o ho hmem
      have : o.Name = "subcommand" := by
        simpa [GoMap.set, GoMap.delete] using hmem
      exact hnd.1 (this ▸ List.mem_map_of_mem DataOption.Name ho)
  · intro first rest h hty hnd
    subst h
    simp only [slashArguments, hty, if_false]
    rw [flattenOptions_eq_append _ _ _ hnd]
    · rfl
    · intro o _ hmem
      simp at hmem
  · intro w b i g c u n k args hopts hmem
    subst hopts
    unfold HandleSlashCommand at hmem
    cases hc : GoMap.get b.SlashCommands i.Name with
    | none =>
      simp [hc, respondEphemeral] at hmem
    | some cmd =>
      cases hm : i.Member with
      | none =>
        simp [hc, hm, logAndRunSlash] at hmem
      | some member =>
        cases hl : w.LogCommand (if i.GuildID ≠ "" then i.GuildID else "") i.ChannelID
            member.User.ID i.Name "slash" (slashArguments i.Options) with
        | none =>
          simp only [hc, hm, logAndRunSlash, hl, afterLogCommand] at hmem
          split at hmem
          · split at hmem
            · simp [respondEphemeral] at hmem
            · split at hmem
              · simp [respondEphemeral] at hmem
              · simp [Outcome.after] at hmem
                exact hmem.2.2.2.2.2
          · simp at hmem
            exact hmem.2.2.2.2.2
        | some e =>
          simp only [hc, hm, logAndRunSlash, hl, afterLogCommand] at hmem
          split at hmem
          · split at hmem
            · simp [respondEphemeral] at hmem
            · split at hmem
              · simp [respondEphemeral] at hmem
              · simp [Outcome.after] at hmem
                exact hmem.2.2.2.2.2
          · simp at hmem
            exact hmem.2.2.2.2.2

/-- C2 amended, at `/role add user:u2 role:r1` and at `/help command:ping`. -/
theorem slashArguments_distinct_names_witness :
    slashArguments guildRoleAdd.Options
        = [("subcommand", .str "add"), ("user", .str "u2"), ("role", .str "r1")] ∧
      slashArguments [DataOption.mk "command" ApplicationCommandOptionString (.str "ping") []]
        = [("command", .str "ping")] :=
  ⟨(slashArguments_distinct_names guildRoleAdd.Options).2.1 _ _ rfl (by decide) (by decide),
    (slashArguments_distinct_names
      [DataOption.mk "command" ApplicationCommandOptionString (.str "ping") []]).2.2.1 _ _ rfl
      (by decide) (by decide)⟩

/-! ## Structured dispatch: unknown commands (C3) -/

/-- C3: for an interaction whose command name is not a key of the slash-command
table, `HandleSlashCommand` sends exactly one reply, ephemeral and with the text
"Unknown command."; it runs no handler, makes no permission query and does not
call `LogCommand`. -/
theorem HandleSlashCommand_unknown_command (w : World) (b : Bot) (i : InteractionCreate)
    (h : GoMap.get b.SlashCommands i.Name = none) :
    HandleSlashCommand w b i
        = ⟨[.InteractionRespond InteractionResponseChannelMessageWithSource "Unknown command."
            MessageFlagsEphemeral], none⟩ ∧
      ((HandleSlashCommand w b i).trace.filter Effect.isRespond).length = 1 ∧
      (HandleSlashCommand w b i).trace.filter Effect.isHandler = [] ∧
      (HandleSlashCommand w b i).trace.filter Effect.isPermissionQuery = [] ∧
      (HandleSlashCommand w b i).trace.filter Effect.isLogCommand = [] := by
  have e : HandleSlashCommand w b i
      = ⟨[.InteractionRespond InteractionResponseChannelMessageWithSource "Unknown command."
          MessageFlagsEphemeral], none⟩ := by
    simp [HandleSlashCommand, h, respondEphemeral]
  rw [e]
  simp [Effect.isRespond, Effect.isHandler, Effect.isPermissionQuery, Effect.isLogCommand]

/-- C3 at the name `bogus` with the registered table. -/
theorem HandleSlashCommand_unknown_command_witness :
    GoMap.get sampleBot.SlashCommands "bogus" = none ∧
      HandleSlashCommand (quietWorld 0) sampleBot
          { GuildID := "g1", ChannelID := "c1", Member := some ⟨⟨"u1"⟩⟩, Name := "bogus",
            Options := [] }
        = ⟨[.InteractionRespond 4 "Unknown command." 64], none⟩ :=
  ⟨by decide,
    (HandleSlashCommand_unknown_command (quietWorld 0) sampleBot
      { GuildID := "g1", ChannelID := "c1", Member := some ⟨⟨"u1"⟩⟩, Name := "bogus",
        Options := [] } (by decide)).1⟩

/-! ## Structured dispatch: direct messages (C4) -/

/-- Outside the permission gate (no guild id, or a zero mask) and with a member
record present: no permission query, one `LogCommand` call with kind `slash`, then
the handler. -/
theorem HandleSlashCommand_ungated_member (w : World) (b : Bot) (i : InteractionCreate)
    (cmd : SlashCommand) (member : Member)
    (hcmd : GoMap.get b.SlashCommands i.Name = some cmd)
    (hgate : i.GuildID = "" ∨ cmd.Permissions = 0) (hmem : i.Member = some member) :
    HandleSlashCommand w b i
      = ⟨[.LogCommand i.GuildID i.ChannelID member.User.ID i.Name "slash"
            (slashArguments i.Options)]
          ++ afterLogCommand (w.LogCommand i.GuildID i.ChannelID member.User.ID i.Name "slash"
            (slashArguments i.Options))
          ++ [.SlashHandler cmd.Handler], none⟩ := by
  have hg : ¬ (i.GuildID ≠ "" ∧ cmd.Permissions ≠ 0) := by
    rintro ⟨h1, h2⟩
    rcases hgate with h | h
    · exact h1 h
    · exact h2 h
  have hid : (if i.GuildID ≠ "" then i.GuildID else "") = i.GuildID := by
    by_cases h : i.GuildID = ""
    · simp [h]
    · simp [h]
  simp only [HandleSlashCommand, hcmd, hg, if_false, logAndRunSlash, hmem, hid]

/-- Outside the permission gate and without a member record the run ends in a nil
dereference before any call is made. -/
theorem HandleSlashCommand_ungated_nil_member (w : World) (b : Bot) (i : InteractionCreate)
    (cmd : SlashCommand) (hcmd : GoMap.get b.SlashCommands i.Name = some cmd)
    (hgate : i.GuildID = "" ∨ cmd.Permissions = 0) (hmem : i.Member = none) :
    HandleSlashCommand w b i = ⟨[], some .nilDereference⟩ := by
  have hg : ¬ (i.GuildID ≠ "" ∧ cmd.Permissions ≠ 0) := by
    rintro ⟨h1, h2⟩
    rcases hgate with h | h
    · exact h1 h
    · exact h2 h
  simp only [HandleSlashCommand, hcmd, hg, if_false, logAndRunSlash, hmem]

/-- C4, the code at the failing input: `/ping` in a direct message (empty guild id,
no member record) ends in a nil dereference when the arguments of `LogCommand` are
evaluated; `LogCommand` is not called and the handler does not run. -/
theorem HandleSlashCommand_direct_message_nil_member :
    directMessagePing.GuildID = "" ∧ directMessagePing.Member = none ∧
      GoMap.get sampleBot.SlashCommands directMessagePing.Name
        = some ⟨"ping", "pingSlashCommand", 0⟩ ∧
      HandleSlashCommand (quietWorld 0) sampleBot directMessagePing
        = ⟨[], some .nilDereference⟩ := by
  decide

/-! ## Audit-logging failures (C5) -/

/-- The diagnostic of a logging failure is no handler call, no reply and is
dropped with the diagnostics. -/
theorem afterLogCommand_filters (err : Option String) :
    (afterLogCommand err).filter Effect.isHandler = [] ∧
      (afterLogCommand err).filter Effect.isRespond = [] ∧
      (afterLogCommand err).filter (fun e => !e.isDiagnostic) = [] := by
  cases err <;> simp [afterLogCommand, Effect.isHandler, Effect.isRespond, Effect.isDiagnostic]

/-- The run of lines 342-377 with a member record present, whatever `LogCommand`
answers. -/
theorem logAndRunSlash_member (w : World) (cmd : SlashCommand) (i : InteractionCreate)
    (member : Member) (hmem : i.Member = some member) :
    (logAndRunSlash w cmd i).panic = none ∧
      (logAndRunSlash w cmd i).trace.filter Effect.isHandler = [.SlashHandler cmd.Handler] ∧
      (logAndRunSlash w cmd i).trace.filter Effect.isRespond = [] ∧
      (logAndRunSlash w cmd i).trace.filter (fun e => !e.isDiagnostic)
        = [.LogCommand (if i.GuildID ≠ "" then i.GuildID else "") i.ChannelID member.User.ID
            i.Name "slash" (slashArguments i.Options), .SlashHandler cmd.Handler] := by
  obtain ⟨h1, h2, h3⟩ := afterLogCommand_filters
    (w.LogCommand (if i.GuildID ≠ "" then i.GuildID else "") i.ChannelID member.User.ID
      i.Name "slash" (slashArguments i.Options))
  simp only [logAndRunSlash, hmem, List.filter_append, h1, h2, h3]
  simp [Effect.isHandler, Effect.isRespond, Effect.isDiagnostic]

/-- The run of a command that passes the permission gate, with a member record. -/
theorem HandleSlashCommand_passing (w : World) (b : Bot) (i : InteractionCreate)
    (cmd : SlashCommand) (member : Member)
    (hcmd : GoMap.get b.SlashCommands i.Name = some cmd) (hmem : i.Member = some member)
    (hgate : ¬ (i.GuildID ≠ "" ∧ cmd.Permissions ≠ 0) ∨
      ∃ perms, w.UserChannelPermissions member.User.ID i.ChannelID = .ok perms ∧
        Int.land perms cmd.Permissions ≠ 0) :
    HandleSlashCommand w b i
      = (logAndRunSlash w cmd i).after
          (if i.GuildID ≠ "" ∧ cmd.Permissions ≠ 0
            then [.UserChannelPermissions member.User.ID i.ChannelID] else []) := by
  by_cases hg : i.GuildID ≠ "" ∧ cmd.Permissions ≠ 0
  · rcases hgate with h | ⟨perms, hp, hl⟩
    · exact absurd hg h
    · have hg2 : ¬ i.GuildID = "" ∧ ¬ cmd.Permissions = 0 := hg
      simp only [HandleSlashCommand, hcmd, hg, hmem, hp, hl]
      simp [hg2]
  · simp only [HandleSlashCommand, hcmd, hg, if_false]
    simp [Outcome.after]

/-- C5: a failing `LogCommand` changes nothing but the diagnostics. Take two worlds
that differ at most in what `LogCommand` (and the reaction call) answers. For every
registered slash command that passes the permission gate with a member record
present, and for every registered prefix command, neither run panics, each run
invokes the handler of the command exactly once (with the same arguments), no run
sends a reply to the interaction, and the two runs make the same calls once the
logrus diagnostics are left out. -/
theorem logging_failure_is_swallowed (w1 w2 : World) (b : Bot)
    (hlower : w1.toLower = w2.toLower)
    (hperm : w1.UserChannelPermissions = w2.UserChannelPermissions) :
    (∀ (i : InteractionCreate) (cmd : SlashCommand) (member : Member),
      GoMap.get b.SlashCommands i.Name = some cmd → i.Member = some member →
      (¬ (i.GuildID ≠ "" ∧ cmd.Permissions ≠ 0) ∨
        ∃ perms, w1.UserChannelPermissions member.User.ID i.ChannelID = .ok perms ∧
          Int.land perms cmd.Permissions ≠ 0) →
      (HandleSlashCommand w1 b i).panic = none ∧ (HandleSlashCommand w2 b i).panic = none ∧
      (HandleSlashCommand w1 b i).trace.filter Effect.isHandler = [.SlashHandler cmd.Handler] ∧
      (HandleSlashCommand w2 b i).trace.filter Effect.isHandler = [.SlashHandler cmd.Handler] ∧
      (HandleSlashCommand w1 b i).trace.filter Effect.isRespond = [] ∧
      (HandleSlashCommand w2 b i).trace.filter Effect.isRespond = [] ∧
      (HandleSlashCommand w1 b i).trace.filter (fun e => !e.isDiagnostic)
        = (HandleSlashCommand w2 b i).trace.filter (fun e => !e.isDiagnostic)) ∧
    (∀ (m : MessageCreate) (cmdName : String) (args : List String) (cmd : PrefixCommand),
      GoMap.get b.PrefixCommands (w1.toLower cmdName) = some cmd →
      (HandlePrefixCommand w1 b m cmdName args).panic = none ∧
      (HandlePrefixCommand w2 b m cmdName args).panic = none ∧
      (HandlePrefixCommand w1 b m cmdName args).trace.filter Effect.isHandler
        = [.PrefixHandler cmd.Handler args] ∧
      (HandlePrefixCommand w2 b m cmdName args).trace.filter Effect.isHandler
        = [.PrefixHandler cmd.Handler args] ∧
      (HandlePrefixCommand w1 b m cmdName args).trace.filter Effect.isRespond = [] ∧
      (HandlePrefixCommand w2 b m cmdName args).trace.filter Effect.isRespond = [] ∧
      (HandlePrefixCommand w1 b m cmdName args).trace.filter (fun e => !e.isDiagnostic)
        = (HandlePrefixCommand w2 b m cmdName args).trace.filter (fun e => !e.isDiagnostic)) := by
  constructor
  · intro i cmd member hcmd hmem hgate
    have hgate2 : ¬ (i.GuildID ≠ "" ∧ cmd.Permissions ≠ 0) ∨
        ∃ perms, w2.UserChannelPermissions member.User.ID i.ChannelID = .ok perms ∧
          Int.land perms cmd.Permissions ≠ 0 := by
      rw [← hperm]
      exact hgate
    rw [HandleSlashCommand_passing w1 b i cmd member hcmd hmem hgate,
      HandleSlashCommand_passing w2 b i cmd member hcmd hmem hgate2]
    obtain ⟨a1, a2, a3, a4⟩ := logAndRunSlash_member w1 cmd i member hmem
    obtain ⟨b1, b2, b3, b4⟩ := logAndRunSlash_member w2 cmd i member hmem
    simp only [Outcome.after, List.filter_append, a1, a2, a3, a4, b1, b2, b3, b4]
    by_cases hg : i.GuildID ≠ "" ∧ cmd.Permissions ≠ 0 <;>
      simp [hg, Effect.isHandler, Effect.isRespond, Effect.isDiagnostic]
  · intro m cmdName args cmd hcmd
    have hcmd2 : GoMap.get b.PrefixCommands (w2.toLower cmdName) = some cmd := by
      rw [← hlower]
      exact hcmd
    obtain ⟨a1, a2, a3⟩ := afterLogCommand_filters
      (w1.LogCommand (if m.GuildID ≠ "" then m.GuildID else "") m.ChannelID m.Author.ID
        cmdName "prefix" (prefixArguments 0 args []))
    obtain ⟨b1, b2, b3⟩ := afterLogCommand_filters
      (w2.LogCommand (if m.GuildID ≠ "" then m.GuildID else "") m.ChannelID m.Author.ID
        cmdName "prefix" (prefixArguments 0 args []))
    simp only [HandlePrefixCommand, hcmd, hcmd2, List.filter_append, a1, a2, a3, b1, b2, b3]
    simp [Effect.isHandler, Effect.isRespond, Effect.isDiagnostic]

/-- C5 at `/role add` by a holder of manage-roles and at `!ping a`, with a
repository that fails against one that succeeds. -/
theorem logging_failure_is_swallowed_witness :
    (HandleSlashCommand
        { quietWorld PermissionManageRoles with LogCommand := fun _ _ _ _ _ _ => some "db down" }
        sampleBot guildRoleAdd).trace.filter Effect.isHandler
      = [.SlashHandler "roleSlashCommand"] ∧
    (HandlePrefixCommand
        { quietWorld PermissionManageRoles with LogCommand := fun _ _ _ _ _ _ => some "db down" }
        sampleBot ⟨"m1", "g1", "c1", "!ping a", ⟨"u1"⟩⟩ "ping" ["a"]).trace.filter Effect.isHandler
      = [.PrefixHandler "pingCommand" ["a"]] :=
  have h := logging_failure_is_swallowed
    { quietWorld PermissionManageRoles with LogCommand := fun _ _ _ _ _ _ => some "db down" }
    (quietWorld PermissionManageRoles) sampleBot rfl rfl
  ⟨(h.1 guildRoleAdd ⟨"role", "roleSlashCommand", PermissionManageRoles⟩ ⟨⟨"u1"⟩⟩
      (by decide) rfl (Or.inr ⟨PermissionManageRoles, rfl, by decide⟩)).2.2.1,
    (h.2 ⟨"m1", "g1", "c1", "!ping a", ⟨"u1"⟩⟩ "ping" ["a"]
      ⟨"ping", "Checks if the bot is online", "ping", "pingCommand"⟩ (by decide)).2.2.1⟩

/-! ## Prefix dispatch (C6) -/

/-- A string that starts with the prefix has it, and trimming gives the rest. -/
theorem trimPrefix_append (pre rest : String) :
    HasPrefix (pre ++ rest) pre = true ∧ TrimPrefix (pre ++ rest) pre = rest := by
  have h : HasPrefix (pre ++ rest) pre = true := by
    unfold HasPrefix
    rw [String.data_append, List.isPrefixOf_iff_prefix]
    exact List.prefix_append _ _
  refine ⟨h, ?_⟩
  unfold TrimPrefix
  rw [if_pos h, String.data_append, List.drop_left]

/-- The wave reaction is no handler call. -/
theorem helloReaction_no_handler (w : World) (m : MessageCreate) :
    (helloReaction w m).filter Effect.isHandler = [] := by
  unfold helloReaction
  split
  · cases w.MessageReactionAdd m.ChannelID m.ID "👋" <;> simp [Effect.isHandler]
  · rfl

/-- The handler calls of `onMessageCreate` are those of the prefix branch, and it
panics only if that branch does. -/
theorem onMessageCreate_of_dispatchPrefix (w : World) (b : Bot) (m : MessageCreate)
    (hauthor : m.Author.ID ≠ b.UserID) :
    (onMessageCreate w b m).panic = (dispatchPrefix w b m).panic ∧
      (onMessageCreate w b m).trace.filter Effect.isHandler
        = (dispatchPrefix w b m).trace.filter Effect.isHandler := by
  unfold onMessageCreate
  rw [if_neg hauthor]
  cases hp : (dispatchPrefix w b m).panic with
  | none => simp [hp, List.filter_append, helloReaction_no_handler]
  | some p => simp [hp]

/-- The prefix branch on a message that is the prefix followed by text with a first
field. -/
theorem dispatchPrefix_fields (w : World) (b : Bot) (m : MessageCreate) (rest tok : String)
    (args : List String) (hcontent : m.Content = b.CommandPrefix ++ rest)
    (hfields : Fields rest = tok :: args) :
    dispatchPrefix w b m = HandlePrefixCommand w b m tok args := by
  obtain ⟨h1, h2⟩ := trimPrefix_append b.CommandPrefix rest
  unfold dispatchPrefix
  rw [hcontent, h1, if_pos rfl]
  simp only [h2, hfields]

/-- C6: for a message not authored by the bot whose content is the command prefix
followed by text whose whitespace-separated fields are `tok :: args`, the prefix
branch of `onMessageCreate` is `HandlePrefixCommand` on `tok` and `args`; the
descriptor looked up is the one stored under the lowercase of `tok`: if there is
one, its handler is the only handler invoked and it receives exactly `args`, and if
there is none no handler is invoked. A second such message whose first field has the
same lowercase form runs the handler of the same descriptor. -/
theorem onMessageCreate_prefix_dispatch (w : World) (b : Bot) (m : MessageCreate)
    (rest tok : String) (args : List String)
    (hauthor : m.Author.ID ≠ b.UserID)
    (hcontent : m.Content = b.CommandPrefix ++ rest)
    (hfields : Fields rest = tok :: args) :
    dispatchPrefix w b m = HandlePrefixCommand w b m tok args ∧
    (∀ cmd, GoMap.get b.PrefixCommands (w.toLower tok) = some cmd →
      (onMessageCreate w b m).panic = none ∧
      (onMessageCreate w b m).trace.filter Effect.isHandler
        = [.PrefixHandler cmd.Handler args]) ∧
    (GoMap.get b.PrefixCommands (w.toLower tok) = none →
      (onMessageCreate w b m).panic = none ∧
      (onMessageCreate w b m).trace.filter Effect.isHandler = []) ∧
    (∀ (m2 : MessageCreate) (rest2 tok2 : String) (args2 : List String) (cmd : PrefixCommand),
      m2.Author.ID ≠ b.UserID → m2.Content = b.CommandPrefix ++ rest2 →
      Fields rest2 = tok2 :: args2 → w.toLower tok2 = w.toLower tok →
      GoMap.get b.PrefixCommands (w.toLower tok) = some cmd →
      (onMessageCreate w b m2).trace.filter Effect.isHandler
        = [.PrefixHandler cmd.Handler args2]) := by
  have key : ∀ (m : MessageCreate) (rest tok : String) (args : List String)
      (cmd : PrefixCommand), m.Author.ID ≠ b.UserID → m.Content = b.CommandPrefix ++ rest →
      Fields rest = tok :: args → GoMap.get b.PrefixCommands (w.toLower tok) = some cmd →
      (onMessageCreate w b m).panic = none ∧
      (onMessageCreate w b m).trace.filter Effect.isHandler
        = [.PrefixHandler cmd.Handler args] := by
    intro m rest tok args cmd ha hc hf hcmd
    obtain ⟨h1, h2⟩ := onMessageCreate_of_dispatchPrefix w b m ha
    obtain ⟨a1, _, _⟩ := afterLogCommand_filters
      (w.LogCommand (if m.GuildID ≠ "" then m.GuildID else "") m.ChannelID m.Author.ID
        tok "prefix" (prefixArguments 0 args []))
    rw [h1, h2, dispatchPrefix_fields w b m rest tok args hc hf]
    simp only [HandlePrefixCommand, hcmd, List.filter_append, a1]
    simp [Effect.isHandler]
  refine ⟨dispatchPrefix_fields w b m rest tok args hcontent hfields, ?_, ?_, ?_⟩
  · intro cmd hcmd
    exact key m rest tok args cmd hauthor hcontent hfields hcmd
  · intro hnone
    obtain ⟨h1, h2⟩ := onMessageCreate_of_dispatchPrefix w b m hauthor
    rw [h1, h2, dispatchPrefix_fields w b m rest tok args hcontent hfields]
    simp [HandlePrefixCommand, hnone]
  · intro m2 rest2 tok2 args2 cmd ha hc hf hlow hcmd
    exact (key m2 rest2 tok2 args2 cmd ha hc hf (hlow ▸ hcmd)).2

/-- C6 at the message `!PiNg  a b`: the `ping` handler runs on `a`, `b`. -/
theorem onMessageCreate_prefix_dispatch_witness :
    Fields "PiNg  a b" = ["PiNg", "a", "b"] ∧
      (onMessageCreate (quietWorld 0) sampleBot
          ⟨"m1", "g1", "c1", "!PiNg  a b", ⟨"u1"⟩⟩).trace.filter Effect.isHandler
        = [.PrefixHandler "pingCommand" ["a", "b"]] :=
  ⟨by decide,
    ((onMessageCreate_prefix_dispatch (quietWorld 0) sampleBot
      ⟨"m1", "g1", "c1", "!PiNg  a b", ⟨"u1"⟩⟩ "PiNg  a b" "PiNg" ["a", "b"]
      (by decide) (by decide) (by decide)).2.1
      ⟨"ping", "Checks if the bot is online", "ping", "pingCommand"⟩ (by decide)).2⟩

/-! ## Prefix dispatch: unknown commands (C7) -/

/-- C7: for a command name whose lowercase form is not a key of the prefix-command
table and any argument list, `HandlePrefixCommand` sends nothing, runs no handler
and does not call `LogCommand`. -/
theorem HandlePrefixCommand_unknown_command (w : World) (b : Bot) (m : MessageCreate)
    (cmdName : String) (args : List String)
    (h : GoMap.get b.PrefixCommands (w.toLower cmdName) = none) :
    HandlePrefixCommand w b m cmdName args = ⟨[], none⟩ := by
  simp [HandlePrefixCommand, h]

/-- C7 at the message `!bogus`, also through `onMessageCreate`. -/
theorem HandlePrefixCommand_unknown_command_witness :
    GoMap.get sampleBot.PrefixCommands ((quietWorld 0).toLower "bogus") = none ∧
      HandlePrefixCommand (quietWorld 0) sampleBot ⟨"m1", "g1", "c1", "!bogus", ⟨"u1"⟩⟩ "bogus" []
        = ⟨[], none⟩ ∧
      onMessageCreate (quietWorld 0) sampleBot ⟨"m1", "g1", "c1", "!bogus", ⟨"u1"⟩⟩ = ⟨[], none⟩ :=
  ⟨by decide,
    HandlePrefixCommand_unknown_command (quietWorld 0) sampleBot
      ⟨"m1", "g1", "c1", "!bogus", ⟨"u1"⟩⟩ "bogus" [] (by decide),
    by decide⟩

/-! ## Joining a voice channel (C8, C9, C10) -/

namespace GoMap

variable {V : Type}

theorem count_eq_zero_of_not_mem (m : GoMap V) (k : String) (h : k ∉ m.map Prod.fst) :
    count m k = 0 := by
  unfold count
  rw [List.length_eq_zero, List.filter_eq_nil_iff]
  intro e he hk
  have : e.1 = k := by simpa using hk
  exact h (this ▸ List.mem_map_of_mem Prod.fst he)

theorem count_cons (a : String) (v : V) (m : GoMap V) (k : String) :
    count ((a, v) :: m) k = (if a = k then 1 else 0) + count m k := by
  unfold count
  by_cases h : a = k
  · simp [List.filter_cons, h, Nat.add_comm]
  · simp [List.filter_cons, h]

/-- A well-formed map stores at most one entry under a key. -/
theorem count_le_one (m : GoMap V) (k : String) (h : WF m) : count m k ≤ 1 := by
  induction m with
  | nil => simp [count]
  | cons e m ih =>
    obtain ⟨a, v⟩ := e
    unfold WF at h ih
    rw [List.map_cons, List.nodup_cons] at h
    rw [count_cons]
    by_cases hk : a = k
    · subst hk
      rw [count_eq_zero_of_not_mem m a h.1]
      simp
    · simp only [hk, if_false, Nat.zero_add]
      exact ih h.2

end GoMap

/-- The run of lines 56-72 when the transport join succeeds. -/
theorem establish_ok (t : Transport) (vm : VoiceManager) (g c : String)
    (pre : List (VoiceCall × GoMap Ptr)) (conn : Nat) (h : t.ChannelVoiceJoin g c = .ok conn) :
    establish t vm g c pre
      = ⟨{ heap := vm.heap ++ [⟨g, c, conn, false, false⟩],
           Connections := GoMap.set vm.Connections g vm.heap.length },
         some vm.heap.length, none,
         pre ++ [(.ChannelVoiceJoin g c false true, vm.Connections)], none⟩ := by
  simp [establish, h]

/-- The run of lines 56-72 when the transport join fails. -/
theorem establish_error (t : Transport) (vm : VoiceManager) (g c : String)
    (pre : List (VoiceCall × GoMap Ptr)) (e : String) (h : t.ChannelVoiceJoin g c = .error e) :
    establish t vm g c pre
      = ⟨vm, none, some e, pre ++ [(.ChannelVoiceJoin g c false true, vm.Connections)], none⟩ := by
  simp [establish, h]

/-- Joining the channel the guild is already connected to returns the stored record. -/
theorem JoinVoiceChannel_of_connected (t : Transport) (vm : VoiceManager) (g c : String)
    (p : Ptr) (vc : VoiceConnection) (hget : GoMap.get vm.Connections g = some p)
    (hheap : vm.heap[p]? = some vc) (hch : vc.ChannelID = c) :
    JoinVoiceChannel t vm g c = ⟨vm, some p, none, [], none⟩ := by
  simp [JoinVoiceChannel, hget, hheap, hch]

/-- Joining another channel than the one the guild is connected to tears the
connection down and then establishes the new one. -/
theorem JoinVoiceChannel_of_other (t : Transport) (vm : VoiceManager) (g c : String)
    (p : Ptr) (vc : VoiceConnection) (hget : GoMap.get vm.Connections g = some p)
    (hheap : vm.heap[p]? = some vc) (hch : vc.ChannelID ≠ c) :
    JoinVoiceChannel t vm g c
      = establish t (teardown t vm g vc).1 g c (teardown t vm g vc).2 := by
  simp [JoinVoiceChannel, hget, hheap, hch]

/-- Joining from a guild without an entry establishes the connection. -/
theorem JoinVoiceChannel_of_absent (t : Transport) (vm : VoiceManager) (g c : String)
    (hget : GoMap.get vm.Connections g = none) :
    JoinVoiceChannel t vm g c = establish t vm g c [] := by
  simp [JoinVoiceChannel, hget]

/-- The teardown makes no join call. -/
theorem teardown_no_join (t : Transport) (vm : VoiceManager) (g : String)
    (vc : VoiceConnection) :
    (teardown t vm g vc).2.filter (fun e => e.1.isJoin) = [] := by
  unfold teardown
  cases t.Disconnect vc.Conn <;> simp [VoiceCall.isJoin]

/-- After a successful `establish` the guild is connected to the channel. -/
theorem JoinVoiceChannel_after_establish (t t2 : Transport) (vm : VoiceManager) (g c : String)
    (pre : List (VoiceCall × GoMap Ptr)) (hok : (establish t vm g c pre).err = none) :
    (((establish t vm g c pre).trace.filter (fun e => e.1.isJoin)).length
        = (pre.filter (fun e => e.1.isJoin)).length + 1) ∧
      ∃ p, (establish t vm g c pre).vc = some p ∧
        JoinVoiceChannel t2 (establish t vm g c pre).vm g c
          = ⟨(establish t vm g c pre).vm, some p, none, [], none⟩ := by
  cases hj : t.ChannelVoiceJoin g c with
  | error e =>
    rw [establish_error t vm g c pre e hj] at hok
    simp at hok
  | ok conn =>
    rw [establish_ok t vm g c pre conn hj]
    refine ⟨by simp [List.filter_append, VoiceCall.isJoin], vm.heap.length, rfl, ?_⟩
    apply JoinVoiceChannel_of_connected t2 _ g c vm.heap.length ⟨g, c, conn, false, false⟩
    · exact GoMap.get_set_self _ _ _
    · simp
    · rfl

/-- C8 as stated fails: when the guild is already connected to the channel, two
calls in a row both succeed and return the stored record, and no transport join is
made across the two calls (the claim says exactly one). -/
theorem JoinVoiceChannel_already_connected_no_join :
    (JoinVoiceChannel okTransport connectedManager "g1" "A").err = none ∧
      (JoinVoiceChannel okTransport connectedManager "g1" "A").vc = some 0 ∧
      (JoinVoiceChannel okTransport
        (JoinVoiceChannel okTransport connectedManager "g1" "A").vm "g1" "A").vc = some 0 ∧
      (((JoinVoiceChannel okTransport connectedManager "g1" "A").trace ++
        (JoinVoiceChannel okTransport
          (JoinVoiceChannel okTransport connectedManager "g1" "A").vm "g1" "A").trace).filter
        (fun e => e.1.isJoin)).length = 0 := by
  decide

/-- C8, amended: if `JoinVoiceChannel(g, A)` succeeds, an immediately following
`JoinVoiceChannel(g, A)` returns the same record pointer with no error, makes no
call at all (no transport join, no disconnect), and leaves the manager (the map and
every record with its flags) unchanged. Across the two calls exactly one transport
join is made when the guild was not connected to `A` before the first call, and none
when it already was. -/
theorem JoinVoiceChannel_idempotent (t1 t2 : Transport) (vm : VoiceManager) (g A : String)
    (hok : (JoinVoiceChannel t1 vm g A).err = none)
    (hnp : (JoinVoiceChannel t1 vm g A).panic = none) :
    (∃ p, (JoinVoiceChannel t1 vm g A).vc = some p ∧
      JoinVoiceChannel t2 (JoinVoiceChannel t1 vm g A).vm g A
        = ⟨(JoinVoiceChannel t1 vm g A).vm, some p, none, [], none⟩) ∧
    ((∃ p vc, GoMap.get vm.Connections g = some p ∧ vm.heap[p]? = some vc ∧ vc.ChannelID = A) →
      (((JoinVoiceChannel t1 vm g A).trace ++
        (JoinVoiceChannel t2 (JoinVoiceChannel t1 vm g A).vm g A).trace).filter
        (fun e => e.1.isJoin)).length = 0) ∧
    ((¬ ∃ p vc, GoMap.get vm.Connections g = some p ∧ vm.heap[p]? = some vc ∧
        vc.ChannelID = A) →
      (((JoinVoiceChannel t1 vm g A).trace ++
        (JoinVoiceChannel t2 (JoinVoiceChannel t1 vm g A).vm g A).trace).filter
        (fun e => e.1.isJoin)).length = 1) := by
  cases hget : GoMap.get vm.Connections g with
  | none =>
    have e1 := JoinVoiceChannel_of_absent t1 vm g A hget
    rw [e1] at hok ⊢
    obtain ⟨hc, p, hp, h2⟩ := JoinVoiceChannel_after_establish t1 t2 vm g A [] hok
    refine ⟨⟨p, hp, h2⟩, ?_, ?_⟩
    · rintro ⟨q, vc, hq, _⟩
      cases hq
    · intro _
      rw [h2, List.append_nil, hc]
      rfl
  | some p =>
    cases hheap : vm.heap[p]? with
    | none =>
      simp [JoinVoiceChannel, hget, hheap] at hnp
    | some vc =>
      by_cases hch : vc.ChannelID = A
      · have e1 := JoinVoiceChannel_of_connected t1 vm g A p vc hget hheap hch
        have e2 := JoinVoiceChannel_of_connected t2 vm g A p vc hget hheap hch
        rw [e1]
        refine ⟨⟨p, rfl, e2⟩, ?_, ?_⟩
        · intro _
          rw [e2]
          rfl
        · intro h
          exact absurd ⟨p, vc, rfl, hheap, hch⟩ h
      · have e1 := JoinVoiceChannel_of_other t1 vm g A p vc hget hheap hch
        rw [e1] at hok ⊢
        obtain ⟨hc, q, hq, h2⟩ := JoinVoiceChannel_after_establish t1 t2
          (teardown t1 vm g vc).1 g A (teardown t1 vm g vc).2 hok
        refine ⟨⟨q, hq, h2⟩, ?_, ?_⟩
        · rintro ⟨q2, vc2, hq2, hh2, hc2⟩
          cases hq2
          rw [hheap] at hh2
          cases hh2
          exact absurd hc2 hch
        · intro _
          rw [h2, List.append_nil, hc, teardown_no_join]
          rfl

/-- C8 amended, at a guild without a connection: the second call returns the record
of the first and one join is made in all. -/
theorem JoinVoiceChannel_idempotent_witness :
    JoinVoiceChannel failingTransport
        (JoinVoiceChannel okTransport connectedManager "g3" "B").vm "g3" "B"
      = ⟨(JoinVoiceChannel okTransport connectedManager "g3" "B").vm, some 2, none, [], none⟩ :=
  have h := (JoinVoiceChannel_idempotent okTransport failingTransport connectedManager
    "g3" "B" (by decide) (by decide)).1
  by
    obtain ⟨p, hp, h2⟩ := h
    have : p = 2 := by
      have h3 : (JoinVoiceChannel okTransport connectedManager "g3" "B").vc = some 2 := by
        decide
      rw [h3] at hp
      exact (Option.some.inj hp).symm
    rw [h2, this]

/-- The calls of the teardown: one disconnect of the old connection, made while the
map still holds the old entry, and possibly a warning. -/
theorem teardown_calls (t : Transport) (vm : VoiceManager) (g : String) (vc : VoiceConnection) :
    (teardown t vm g vc).1 = { vm with Connections := GoMap.delete vm.Connections g } ∧
      ((teardown t vm g vc).2.map Prod.fst).filter (fun c => c.isDisconnect || c.isJoin)
        = [.Disconnect vc.Conn] ∧
      (∀ e ∈ (teardown t vm g vc).2, e.2 = vm.Connections ∧ e.1.isJoin = false) := by
  unfold teardown
  cases t.Disconnect vc.Conn <;> simp [VoiceCall.isDisconnect, VoiceCall.isJoin]

/-- C9: let guild `g` have a stored connection to channel `A`, and `B` differ from
`A`. Then `JoinVoiceChannel(g, B)` does not panic; its transport calls are, in this
order, the disconnect of the connection to `A` and then the join of `B`; the join is
made on the map from which the entry of `g` has been deleted, so that the map holds
no record for `g` at that point; the map holds at most one record for `g` at every
call and at the end; and on success the map holds exactly one record for `g`, the
new one, whose channel is `B`. -/
theorem JoinVoiceChannel_replace (t : Transport) (vm : VoiceManager) (g A B : String)
    (p : Ptr) (vcA : VoiceConnection) (hwf : GoMap.WF vm.Connections)
    (hget : GoMap.get vm.Connections g = some p) (hheap : vm.heap[p]? = some vcA)
    (hA : vcA.ChannelID = A) (hne : B ≠ A) :
    (JoinVoiceChannel t vm g B).panic = none ∧
    (((JoinVoiceChannel t vm g B).trace.map Prod.fst).filter
        (fun c => c.isDisconnect || c.isJoin)
      = [.Disconnect vcA.Conn, .ChannelVoiceJoin g B false true]) ∧
    (∀ e ∈ (JoinVoiceChannel t vm g B).trace, e.1.isJoin = true →
      e.2 = GoMap.delete vm.Connections g ∧ GoMap.get e.2 g = none ∧ GoMap.count e.2 g = 0) ∧
    (∀ e ∈ (JoinVoiceChannel t vm g B).trace, GoMap.count e.2 g ≤ 1) ∧
    GoMap.count (JoinVoiceChannel t vm g B).vm.Connections g ≤ 1 ∧
    ((JoinVoiceChannel t vm g B).err = none →
      ∃ q vcB, (JoinVoiceChannel t vm g B).vc = some q ∧
        GoMap.get (JoinVoiceChannel t vm g B).vm.Connections g = some q ∧
        (JoinVoiceChannel t vm g B).vm.heap[q]? = some vcB ∧
        vcB.ChannelID = B ∧ vcB.GuildID = g ∧
        GoMap.count (JoinVoiceChannel t vm g B).vm.Connections g = 1) := by
  have hch : vcA.ChannelID ≠ B := by
    rw [hA]
    exact fun h => hne h.symm
  obtain ⟨hvm, hcalls, hsnap⟩ := teardown_calls t vm g vcA
  have hcount := GoMap.count_le_one vm.Connections g hwf
  have hdel0 := GoMap.count_delete_self vm.Connections g
  rw [JoinVoiceChannel_of_other t vm g B p vcA hget hheap hch]
  cases hj : t.ChannelVoiceJoin g B with
  | error e =>
    rw [establish_error t _ g B _ e hj]
    refine ⟨rfl, ?_, ?_, ?_, ?_, ?_⟩
    · simp only [List.map_append, List.filter_append, hcalls]
      simp [VoiceCall.isJoin, VoiceCall.isDisconnect]
    · intro e he hjoin
      rw [List.mem_append] at he
      rcases he with he | he
      · rw [(hsnap e he).2] at hjoin
        cases hjoin
      · rw [List.mem_singleton] at he
        subst he
        rw [hvm]
        exact ⟨rfl, GoMap.get_delete_self _ _, hdel0⟩
    · intro e he
      rw [List.mem_append] at he
      rcases he with he | he
      · rw [(hsnap e he).1]
        exact hcount
      · rw [List.mem_singleton] at he
        subst he
        rw [hvm]
        simp [hdel0]
    · rw [hvm]
      simp [hdel0]
    · intro h
      cases h
  | ok conn =>
    rw [establish_ok t _ g B _ conn hj]
    refine ⟨rfl, ?_, ?_, ?_, ?_, ?_⟩
    · simp only [List.map_append, List.filter_append, hcalls]
      simp [VoiceCall.isJoin, VoiceCall.isDisconnect]
    · intro e he hjoin
      rw [List.mem_append] at he
      rcases he with he | he
      · rw [(hsnap e he).2] at hjoin
        cases hjoin
      · rw [List.mem_singleton] at he
        subst he
        rw [hvm]
        exact ⟨rfl, GoMap.get_delete_self _ _, hdel0⟩
    · intro e he
      rw [List.mem_append] at he
      rcases he with he | he
      · rw [(hsnap e he).1]
        exact hcount
      · rw [List.mem_singleton] at he
        subst he
        rw [hvm]
        simp [hdel0]
    · simp [GoMap.count_set_self]
    · intro _
      refine ⟨_, ⟨g, B, conn, false, false⟩, rfl, GoMap.get_set_self _ _ _, ?_, rfl, rfl,
        GoMap.count_set_self _ _ _⟩
      simp

/-- C9 at guild `g1`, connected to `A`, joining `B`: disconnect of handle `7`, then
the join, made on the map without `g1`. -/
theorem JoinVoiceChannel_replace_witness :
    (JoinVoiceChannel okTransport connectedManager "g1" "B").trace
      = [(.Disconnect 7, [("g1", 0), ("g2", 1)]),
         (.ChannelVoiceJoin "g1" "B" false true, [("g2", 1)])] ∧
    ((JoinVoiceChannel okTransport connectedManager "g1" "B").trace.map Prod.fst).filter
        (fun c => c.isDisconnect || c.isJoin)
      = [.Disconnect 7, .ChannelVoiceJoin "g1" "B" false true] :=
  ⟨by decide,
    (JoinVoiceChannel_replace okTransport connectedManager "g1" "A" "B" 0
      ⟨"g1", "A", 7, false, false⟩ (by decide) (by decide) (by decide) rfl (by decide)).2.1⟩

/-- C10: if `JoinVoiceChannel(g, c)` makes the transport join call and the call
fails with error `e`, then it returns `e` and no connection, allocates no record,
and afterwards the map has no entry for `g` (also when `g` had a connection to
another channel before), while the entry of every other guild is as before. -/
theorem JoinVoiceChannel_join_fails (t : Transport) (vm : VoiceManager) (g c e : String)
    (hcall : ∃ snap, (VoiceCall.ChannelVoiceJoin g c false true, snap)
      ∈ (JoinVoiceChannel t vm g c).trace)
    (hfail : t.ChannelVoiceJoin g c = .error e) :
    (JoinVoiceChannel t vm g c).err = some e ∧
    (JoinVoiceChannel t vm g c).vc = none ∧
    (JoinVoiceChannel t vm g c).panic = none ∧
    (JoinVoiceChannel t vm g c).vm.heap = vm.heap ∧
    GoMap.get (JoinVoiceChannel t vm g c).vm.Connections g = none ∧
    (∀ g2, g2 ≠ g →
      GoMap.get (JoinVoiceChannel t vm g c).vm.Connections g2 = GoMap.get vm.Connections g2) := by
  obtain ⟨snap, hmem⟩ := hcall
  cases hget : GoMap.get vm.Connections g with
  | none =>
    rw [JoinVoiceChannel_of_absent t vm g c hget, establish_error t vm g c [] e hfail]
    exact ⟨rfl, rfl, rfl, rfl, hget, fun _ _ => rfl⟩
  | some p =>
    cases hheap : vm.heap[p]? with
    | none =>
      simp [JoinVoiceChannel, hget, hheap] at hmem
    | some vc =>
      by_cases hch : vc.ChannelID = c
      · rw [JoinVoiceChannel_of_connected t vm g c p vc hget hheap hch] at hmem
        simp at hmem
      · rw [JoinVoiceChannel_of_other t vm g c p vc hget hheap hch,
          establish_error t _ g c _ e hfail, (teardown_calls t vm g vc).1]
        exact ⟨rfl, rfl, rfl, rfl, GoMap.get_delete_self _ _,
          fun g2 h2 => GoMap.get_delete_of_ne _ _ _ h2⟩

/-- C10 at guild `g1`, connected to `A`, when the join of `B` times out. -/
theorem JoinVoiceChannel_join_fails_witness :
    (JoinVoiceChannel failingTransport connectedManager "g1" "B").err = some "timeout" ∧
      GoMap.get (JoinVoiceChannel failingTransport connectedManager "g1" "B").vm.Connections
        "g1" = none ∧
      GoMap.get (JoinVoiceChannel failingTransport connectedManager "g1" "B").vm.Connections
        "g2" = some 1 :=
  have h := JoinVoiceChannel_join_fails failingTransport connectedManager "g1" "B" "timeout"
    ⟨[("g2", 1)], by decide⟩ rfl
  ⟨h.1, h.2.2.2.2.1, by decide⟩

/-! ## Leaving a voice channel (C11, C12) -/

/-- The run of `LeaveVoiceChannel` for a guild without an entry. -/
theorem LeaveVoiceChannel_of_absent (t : Transport) (vm : VoiceManager) (g : String)
    (hget : GoMap.get vm.Connections g = none) :
    LeaveVoiceChannel t vm g = ⟨vm, some .notConnected, [], none⟩ := by
  simp [LeaveVoiceChannel, hget]

/-- The run of `LeaveVoiceChannel` for a guild with an entry: the stopping flag of
its record is set and the transport is asked once to disconnect; the entry is
deleted if the disconnect succeeds, and stays if it fails. -/
theorem LeaveVoiceChannel_of_entry (t : Transport) (vm : VoiceManager) (g : String) (p : Ptr)
    (vc : VoiceConnection) (hget : GoMap.get vm.Connections g = some p)
    (hheap : vm.heap[p]? = some vc) :
    LeaveVoiceChannel t vm g
      = match t.Disconnect vc.Conn with
        | some e =>
          ⟨{ vm with heap := vm.heap.set p { vc with Stopping := true } },
            some (.transport e), [(.Disconnect vc.Conn, vm.Connections)], none⟩
        | none =>
          ⟨{ heap := vm.heap.set p { vc with Stopping := true },
             Connections := GoMap.delete vm.Connections g },
            none, [(.Disconnect vc.Conn, vm.Connections)], none⟩ := by
  cases hd : t.Disconnect vc.Conn <;> simp [LeaveVoiceChannel, hget, hheap, hd]

/-- C11: `LeaveVoiceChannel(g)` returns the "not connected" error if and only if the
map has no entry for `g`; in that case it makes no call on the transport and leaves
the manager (the map and every record with its flags) unchanged. -/
theorem LeaveVoiceChannel_not_connected (t : Transport) (vm : VoiceManager) (g : String) :
    ((LeaveVoiceChannel t vm g).err = some .notConnected ↔ GoMap.get vm.Connections g = none) ∧
    (GoMap.get vm.Connections g = none →
      (LeaveVoiceChannel t vm g).trace = [] ∧ (LeaveVoiceChannel t vm g).vm = vm ∧
      (LeaveVoiceChannel t vm g).panic = none) := by
  constructor
  · constructor
    · intro herr
      cases hget : GoMap.get vm.Connections g with
      | none => rfl
      | some p =>
        cases hheap : vm.heap[p]? with
        | none => simp [LeaveVoiceChannel, hget, hheap] at herr
        | some vc =>
          rw [LeaveVoiceChannel_of_entry t vm g p vc hget hheap] at herr
          cases hd : t.Disconnect vc.Conn <;> simp [hd] at herr
    · intro hget
      rw [LeaveVoiceChannel_of_absent t vm g hget]
  · intro hget
    rw [LeaveVoiceChannel_of_absent t vm g hget]
    exact ⟨rfl, rfl, rfl⟩

/-- C11 at guild `g3`, which has no entry. -/
theorem LeaveVoiceChannel_not_connected_witness :
    GoMap.get connectedManager.Connections "g3" = none ∧
      (LeaveVoiceChannel okTransport connectedManager "g3").err = some .notConnected ∧
      (LeaveVoiceChannel okTransport connectedManager "g3").trace = [] ∧
      (LeaveVoiceChannel okTransport connectedManager "g3").vm = connectedManager :=
  have h := LeaveVoiceChannel_not_connected okTransport connectedManager "g3"
  ⟨by decide, h.1.2 (by decide), (h.2 (by decide)).1, (h.2 (by decide)).2.1⟩

/-- C12, the code at the failing input: guild `g1` has an entry and the transport
fails to disconnect. The stopping flag is set and disconnect is called once, but the
call returns the transport error with the entry of `g1` still in the map. -/
theorem LeaveVoiceChannel_disconnect_fails_keeps_entry :
    GoMap.get connectedManager.Connections "g1" = some 0 ∧
      (LeaveVoiceChannel brokenTransport connectedManager "g1").err
        = some (.transport "broken pipe") ∧
      (LeaveVoiceChannel brokenTransport connectedManager "g1").trace
        = [(.Disconnect 7, [("g1", 0), ("g2", 1)])] ∧
      (LeaveVoiceChannel brokenTransport connectedManager "g1").vm.heap[0]?
        = some ⟨"g1", "A", 7, false, true⟩ ∧
      GoMap.get (LeaveVoiceChannel brokenTransport connectedManager "g1").vm.Connections "g1"
        = some 0 := by
  decide

/-- What C12 asks for holds whenever the disconnect succeeds: the stopping flag of
the record is set, disconnect is called exactly once, the returned error is nil,
the map has no entry for the guild afterwards and the entries of the other guilds
are as before. -/
theorem LeaveVoiceChannel_disconnect_succeeds (t : Transport) (vm : VoiceManager) (g : String)
    (p : Ptr) (vc : VoiceConnection) (hget : GoMap.get vm.Connections g = some p)
    (hheap : vm.heap[p]? = some vc) (hd : t.Disconnect vc.Conn = none) :
    (LeaveVoiceChannel t vm g).err = none ∧
    (LeaveVoiceChannel t vm g).panic = none ∧
    (LeaveVoiceChannel t vm g).vm.heap[p]? = some { vc with Stopping := true } ∧
    (LeaveVoiceChannel t vm g).trace.map Prod.fst = [.Disconnect vc.Conn] ∧
    GoMap.get (LeaveVoiceChannel t vm g).vm.Connections g = none ∧
    (∀ g2, g2 ≠ g →
      GoMap.get (LeaveVoiceChannel t vm g).vm.Connections g2 = GoMap.get vm.Connections g2) := by
  have e : LeaveVoiceChannel t vm g
      = ⟨{ heap := vm.heap.set p { vc with Stopping := true },
           Connections := GoMap.delete vm.Connections g },
          none, [(.Disconnect vc.Conn, vm.Connections)], none⟩ := by
    rw [LeaveVoiceChannel_of_entry t vm g p vc hget hheap, hd]
  rw [e]
  have hp : p < vm.heap.length := by
    rcases Nat.lt_or_ge p vm.heap.length with h | h
    · exact h
    · rw [List.getElem?_eq_none h] at hheap
      cases hheap
  refine ⟨rfl, rfl, ?_, rfl, GoMap.get_delete_self _ _, fun g2 h2 => GoMap.get_delete_of_ne _ _ _ h2⟩
  simp [List.getElem?_set, hp]

/-! ## Playing audio: the busy connection (C13) -/

/-- C13: on a connection whose playing flag is set, `PlayAudio` returns the "already
playing" error and does nothing else: the record (playing and stopping flags
included) is as before, and the run makes no call at all, so the speaking flag is
not touched, nothing is read from the stream and no chunk is sent. This holds
whatever the stream and the number of loop iterations allowed. -/
theorem PlayAudio_already_playing (a : AudioWorld) (fuel : Nat) (vc : VoiceConnection)
    (h : vc.Playing = true) :
    PlayAudio a fuel vc = some ⟨vc, some .alreadyPlaying, [], none⟩ := by
  simp [PlayAudio, h]

/-- C13 at a playing connection that is being stopped, on an endless stream. -/
theorem PlayAudio_already_playing_witness :
    PlayAudio stoppedPlayback 0 ⟨"g1", "A", 7, true, true⟩
      = some ⟨⟨"g1", "A", 7, true, true⟩, some .alreadyPlaying, [], none⟩ :=
  PlayAudio_already_playing stoppedPlayback 0 ⟨"g1", "A", 7, true, true⟩ rfl

/-! ## Playing audio: the streaming loop (C14, C15, C16) -/

/-- One iteration of the loop unfolded. -/
theorem playLoop_succ (a : AudioWorld) (fuel k : Nat) (vc : VoiceConnection) :
    playLoop a (fuel + 1) k vc
      = (let vc1 := if a.stops k then StopAudio vc else vc
         if vc1.Stopping then some (vc1, [], none)
         else
           match (a.reader k).err with
           | some e => some (vc1, readFailed e, none)
           | none =>
             if (a.reader k).bytes.length > 0 then
               if (a.reader k).bytes.length > bufferSize then
                 some (vc1, [.Read bufferSize], some .sliceBoundsOutOfRange)
               else
                 match playLoop a fuel (k + 1) vc1 with
                 | none => none
                 | some (vc2, tr, p) =>
                   some (vc2, [.Read bufferSize, .OpusSend (a.reader k).bytes] ++ tr, p)
             else
               match playLoop a fuel (k + 1) vc1 with
               | none => none
               | some (vc2, tr, p) => some (vc2, [.Read bufferSize] ++ tr, p)) := rfl

/-- The iteration that finds the stopping flag set leaves the loop. -/
theorem playLoop_stop (a : AudioWorld) (fuel k : Nat) (vc : VoiceConnection)
    (h : (if a.stops k then StopAudio vc else vc).Stopping = true) :
    playLoop a (fuel + 1) k vc = some (if a.stops k then StopAudio vc else vc, [], none) := by
  rw [playLoop_succ]
  simp only [h, if_true]

/-- The iteration whose read reports an error leaves the loop after that read. -/
theorem playLoop_error (a : AudioWorld) (fuel k : Nat) (vc : VoiceConnection) (e : ReadError)
    (h : (if a.stops k then StopAudio vc else vc).Stopping = false)
    (herr : (a.reader k).err = some e) :
    playLoop a (fuel + 1) k vc
      = some (if a.stops k then StopAudio vc else vc, readFailed e, none) := by
  rw [playLoop_succ]
  simp only [h, herr]
  simp

/-- The iteration whose read reports more bytes than the buffer holds panics. -/
theorem playLoop_oversize (a : AudioWorld) (fuel k : Nat) (vc : VoiceConnection)
    (h : (if a.stops k then StopAudio vc else vc).Stopping = false)
    (herr : (a.reader k).err = none) (hbig : (a.reader k).bytes.length > bufferSize) :
    playLoop a (fuel + 1) k vc
      = some (if a.stops k then StopAudio vc else vc, [.Read bufferSize],
          some .sliceBoundsOutOfRange) := by
  have hpos : (a.reader k).bytes.length > 0 := Nat.lt_of_le_of_lt (Nat.zero_le _) hbig
  rw [playLoop_succ]
  simp only [h, herr, hpos, hbig]
  simp

/-- The iteration whose read succeeds forwards the chunk, if it is not empty, and
goes on with the next iteration. -/
theorem playLoop_next (a : AudioWorld) (fuel k : Nat) (vc : VoiceConnection)
    (h : (if a.stops k then StopAudio vc else vc).Stopping = false)
    (herr : (a.reader k).err = none) (hsize : (a.reader k).bytes.length ≤ bufferSize) :
    playLoop a (fuel + 1) k vc
      = (playLoop a fuel (k + 1) (if a.stops k then StopAudio vc else vc)).map
          (fun r => (r.1, iterationCalls (a.reader k) ++ r.2.1, r.2.2)) := by
  have hbig : ¬ (a.reader k).bytes.length > bufferSize := Nat.not_lt.mpr hsize
  rw [playLoop_succ]
  simp only [h, herr, hbig]
  by_cases hpos : (a.reader k).bytes.length > 0
  · simp only [hpos, iterationCalls]
    cases playLoop a fuel (k + 1) (if a.stops k then StopAudio vc else vc) <;> simp
  · simp only [hpos, iterationCalls]
    cases playLoop a fuel (k + 1) (if a.stops k then StopAudio vc else vc) <;> simp

/-- The four ways an iteration can go. -/
theorem playLoop_cases (a : AudioWorld) (fuel k : Nat) (vc : VoiceConnection) :
    playLoop a (fuel + 1) k vc = some (if a.stops k then StopAudio vc else vc, [], none) ∨
    (∃ e, playLoop a (fuel + 1) k vc
      = some (if a.stops k then StopAudio vc else vc, readFailed e, none)) ∨
    ((a.reader k).bytes.length > bufferSize ∧ playLoop a (fuel + 1) k vc
      = some (if a.stops k then StopAudio vc else vc, [.Read bufferSize],
          some .sliceBoundsOutOfRange)) ∨
    ((if a.stops k then StopAudio vc else vc).Stopping = false ∧ (a.reader k).err = none ∧
      playLoop a (fuel + 1) k vc
      = (playLoop a fuel (k + 1) (if a.stops k then StopAudio vc else vc)).map
          (fun r => (r.1, iterationCalls (a.reader k) ++ r.2.1, r.2.2))) := by
  rcases Bool.eq_false_or_eq_true (if a.stops k then StopAudio vc else vc).Stopping with hs | hs
  · exact Or.inl (playLoop_stop a fuel k vc hs)
  · cases herr : (a.reader k).err with
    | some e => exact Or.inr (Or.inl ⟨e, playLoop_error a fuel k vc e hs herr⟩)
    | none =>
      rcases Nat.lt_or_ge bufferSize (a.reader k).bytes.length with hbig | hsize
      · exact Or.inr (Or.inr (Or.inl ⟨hbig, playLoop_oversize a fuel k vc hs herr hbig⟩))
      · exact Or.inr (Or.inr (Or.inr ⟨hs, rfl, playLoop_next a fuel k vc hs herr hsize⟩))

/-- The calls of a successful iteration do not touch the speaking flag. -/
theorem iterationCalls_no_speaking (r : ReadResult) (b : Bool) :
    (iterationCalls r).count (.Speaking b) = 0 := by
  unfold iterationCalls
  split <;> simp

/-- The loop leaves the speaking flag alone. -/
theorem playLoop_no_speaking (a : AudioWorld) (b : Bool) :
    ∀ (fuel k : Nat) (vc : VoiceConnection)
      (res : VoiceConnection × List AudioCall × Option Panic),
      playLoop a fuel k vc = some res → res.2.1.count (.Speaking b) = 0 := by
  intro fuel
  induction fuel with
  | zero =>
    intro k vc res h
    simp [playLoop] at h
  | succ fuel ih =>
    intro k vc res h
    rcases playLoop_cases a fuel k vc with h1 | ⟨e, h1⟩ | ⟨_, h1⟩ | ⟨_, _, h1⟩
    · rw [h1] at h
      cases h
      rfl
    · rw [h1] at h
      cases h
      cases e <;> simp [readFailed]
    · rw [h1] at h
      cases h
      simp
    · rw [h1] at h
      cases hrec : playLoop a fuel (k + 1) (if a.stops k then StopAudio vc else vc) with
      | none => simp [hrec] at h
      | some r =>
        simp only [hrec, Option.map_some', Option.some.injEq] at h
        subst h
        simp only [List.count_append, iterationCalls_no_speaking, ih _ _ _ hrec]

/-- The loop does not panic on a reader that never reports more bytes than the
buffer holds. -/
theorem playLoop_no_panic (a : AudioWorld)
    (hsize : ∀ j, (a.reader j).bytes.length ≤ bufferSize) :
    ∀ (fuel k : Nat) (vc : VoiceConnection)
      (res : VoiceConnection × List AudioCall × Option Panic),
      playLoop a fuel k vc = some res → res.2.2 = none := by
  intro fuel
  induction fuel with
  | zero =>
    intro k vc res h
    simp [playLoop] at h
  | succ fuel ih =>
    intro k vc res h
    rcases playLoop_cases a fuel k vc with h1 | ⟨e, h1⟩ | ⟨hbig, _⟩ | ⟨_, _, h1⟩
    · rw [h1] at h
      cases h
      rfl
    · rw [h1] at h
      cases h
      rfl
    · exact absurd (hsize k) (Nat.not_le.mpr hbig)
    · rw [h1] at h
      cases hrec : playLoop a fuel (k + 1) (if a.stops k then StopAudio vc else vc) with
      | none => simp [hrec] at h
      | some r =>
        simp only [hrec, Option.map_some', Option.some.injEq] at h
        subst h
        exact ih _ _ r hrec

/-- The loop exits within `k0 - k + 1` iterations when the stopping flag is set
before check `k0` or read `k0` reports an error. -/
theorem playLoop_exits (a : AudioWorld) (k0 : Nat)
    (hexit : a.stops k0 = true ∨ (a.reader k0).err ≠ none) :
    ∀ (fuel k : Nat) (vc : VoiceConnection), k ≤ k0 → k0 - k < fuel →
      ∃ res, playLoop a fuel k vc = some res := by
  intro fuel
  induction fuel with
  | zero =>
    intro k vc _ h
    exact absurd h (Nat.not_lt_zero _)
  | succ fuel ih =>
    intro k vc hk hfuel
    rcases playLoop_cases a fuel k vc with h1 | ⟨e, h1⟩ | ⟨_, h1⟩ | ⟨hns, herr, h1⟩
    · exact ⟨_, h1⟩
    · exact ⟨_, h1⟩
    · exact ⟨_, h1⟩
    · have hlt : k < k0 := by
        rcases Nat.lt_or_ge k k0 with h | h
        · exact h
        · have hkk : k = k0 := Nat.le_antisymm hk h
          subst hkk
          rcases hexit with h2 | h2
          · simp [h2, StopAudio] at hns
          · exact absurd herr h2
      obtain ⟨res, hres⟩ := ih (k + 1) (if a.stops k then StopAudio vc else vc) hlt (by omega)
      rw [h1, hres]
      exact ⟨_, rfl⟩

/-- A run of `PlayAudio` that enters the loop: the loop, then the deferred cleanup. -/
theorem PlayAudio_entered (a : AudioWorld) (fuel : Nat) (vc : VoiceConnection)
    (hplay : vc.Playing = false) (hspeak : a.Speaking true = none) :
    PlayAudio a fuel vc
      = (playLoop a fuel 0 { vc with Playing := true, Stopping := false }).map
          (fun r => ⟨{ r.1 with Playing := false, Stopping := false }, none,
            [.Speaking true] ++ r.2.1 ++ [.Speaking false], r.2.2⟩) := by
  unfold PlayAudio
  simp only [hplay, hspeak]
  cases playLoop a fuel 0 { vc with Playing := true, Stopping := false } <;> simp

/-- While nobody stops the playback and the reads succeed, the loop runs one
iteration after the other. -/
theorem playLoop_prefix (a : AudioWorld) :
    ∀ (n fuel k : Nat) (vc : VoiceConnection), vc.Stopping = false →
      (∀ j, k ≤ j → j < k + n → a.stops j = false ∧ (a.reader j).err = none ∧
        (a.reader j).bytes.length ≤ bufferSize) →
      playLoop a (n + fuel) k vc
        = (playLoop a fuel (k + n) vc).map
            (fun r => (r.1,
              ((List.range' k n).map (fun j => iterationCalls (a.reader j))).flatten ++ r.2.1,
              r.2.2)) := by
  intro n
  induction n with
  | zero =>
    intro fuel k vc _ _
    simp only [Nat.zero_add, Nat.add_zero, List.range'_zero, List.map_nil, List.flatten_nil,
      List.nil_append]
    cases playLoop a fuel k vc <;> rfl
  | succ n ih =>
    intro fuel k vc hvc hok
    obtain ⟨hs, herr, hsize⟩ := hok k (Nat.le_refl k) (by omega)
    have hvc1 : (if a.stops k then StopAudio vc else vc) = vc := by simp [hs]
    have hstop : (if a.stops k then StopAudio vc else vc).Stopping = false := by
      rw [hvc1]
      exact hvc
    have e : n + 1 + fuel = (n + fuel) + 1 := by omega
    rw [e, playLoop_next a (n + fuel) k vc hstop herr hsize, hvc1,
      ih fuel (k + 1) vc hvc (fun j h1 h2 => hok j (by omega) (by omega))]
    have e2 : k + 1 + n = k + (n + 1) := by omega
    rw [e2]
    cases playLoop a fuel (k + (n + 1)) vc with
    | none => rfl
    | some r => simp [List.range'_succ]

/-- The chunks forwarded by a run of successful iterations are the non-empty read
results, in read order. -/
theorem iterationCalls_chunks (l : List ReadResult) :
    ((l.map iterationCalls).flatten).filterMap AudioCall.chunk
      = (l.map (fun r => r.bytes)).filter (fun c => 0 < c.length) := by
  induction l with
  | nil => rfl
  | cons r l ih =>
    simp only [List.map_cons, List.flatten_cons, List.filterMap_append, ih, List.filter_cons]
    by_cases h : 0 < r.bytes.length
    · simp [iterationCalls, h, AudioCall.chunk]
    · simp [iterationCalls, h, AudioCall.chunk]

/-- A run of successful iterations makes one read of the buffer size per iteration. -/
theorem iterationCalls_reads (l : List ReadResult) :
    ((l.map iterationCalls).flatten).filter AudioCall.isRead
      = List.replicate l.length (.Read bufferSize) := by
  induction l with
  | nil => rfl
  | cons r l ih =>
    simp only [List.map_cons, List.flatten_cons, List.filter_append, ih, List.length_cons,
      List.replicate_succ]
    by_cases h : 0 < r.bytes.length
    · simp [iterationCalls, h, AudioCall.isRead]
    · simp [iterationCalls, h, AudioCall.isRead]

/-- A run of successful iterations leaves the speaking flag alone. -/
theorem iterationCalls_flatten_no_speaking (l : List ReadResult) (b : Bool) :
    ((l.map iterationCalls).flatten).count (.Speaking b) = 0 := by
  induction l with
  | nil => rfl
  | cons r l ih =>
    simp only [List.map_cons, List.flatten_cons, List.count_append, ih,
      iterationCalls_no_speaking]

/-- The calls of the first `n` iterations, written over the list of read results. -/
theorem iterations_eq (a : AudioWorld) (n : Nat) :
    (List.range' 0 n).map (fun j => iterationCalls (a.reader j))
      = ((List.range n).map a.reader).map iterationCalls := by
  rw [List.range_eq_range', List.map_map]
  rfl

/-- C14: take a playback that enters the streaming loop (the connection is not
playing and the speaking flag could be raised). Whenever `PlayAudio` comes to its
end, the playing and stopping flags are both false, the returned error is nil, and
the speaking flag has been cleared exactly once, as the last call of the run. And
`PlayAudio` does come to its end on each of the three ways out of the loop: if the
stopping flag is set before check `k`, or read `k` reports end-of-stream or another
error, a run with more than `k` iterations allowed gives a result; that result is
not a panic when the reader never reports more bytes than the buffer holds. -/
theorem PlayAudio_cleanup (a : AudioWorld) (vc : VoiceConnection)
    (hplay : vc.Playing = false) (hspeak : a.Speaking true = none) :
    (∀ fuel r, PlayAudio a fuel vc = some r →
      r.vc.Playing = false ∧ r.vc.Stopping = false ∧ r.err = none ∧
      r.trace.count (.Speaking false) = 1 ∧ r.trace.getLast? = some (.Speaking false)) ∧
    (∀ k fuel, (a.stops k = true ∨ (a.reader k).err = some .EOF ∨
        ∃ msg, (a.reader k).err = some (.other msg)) → k < fuel →
      ∃ r, PlayAudio a fuel vc = some r ∧
        ((∀ j, (a.reader j).bytes.length ≤ bufferSize) → r.panic = none)) := by
  constructor
  · intro fuel r h
    rw [PlayAudio_entered a fuel vc hplay hspeak] at h
    cases hl : playLoop a fuel 0 { vc with Playing := true, Stopping := false } with
    | none => simp [hl] at h
    | some res =>
      simp only [hl, Option.map_some', Option.some.injEq] at h
      subst h
      have hc := playLoop_no_speaking a false _ _ _ res hl
      refine ⟨rfl, rfl, rfl, ?_, ?_⟩
      · simp [List.count_append, hc, List.count_cons]
      · show ([AudioCall.Speaking true] ++ res.2.1 ++ [AudioCall.Speaking false]).getLast?
            = some (.Speaking false)
        rw [List.getLast?_append]
        rfl
  · intro k fuel hexit hfuel
    have hexit2 : a.stops k = true ∨ (a.reader k).err ≠ none := by
      rcases hexit with h | h | ⟨msg, h⟩
      · exact Or.inl h
      · exact Or.inr (by simp [h])
      · exact Or.inr (by simp [h])
    obtain ⟨res, hres⟩ := playLoop_exits a k hexit2 fuel 0
      { vc with Playing := true, Stopping := false } (Nat.zero_le k) (by omega)
    rw [PlayAudio_entered a fuel vc hplay hspeak, hres]
    refine ⟨_, rfl, ?_⟩
    intro hsize
    exact playLoop_no_panic a hsize _ _ _ res hres

/-- C14 at the stream that ends after four reads. -/
theorem PlayAudio_cleanup_witness :
    ∃ r, PlayAudio shortPlayback 4 idleConnection = some r ∧ r.vc.Playing = false ∧
      r.vc.Stopping = false ∧ r.err = none ∧ r.trace.count (.Speaking false) = 1 :=
  have h := PlayAudio_cleanup shortPlayback idleConnection rfl rfl
  have ⟨r, hr, _⟩ := h.2 3 4 (Or.inr (Or.inl rfl)) (by decide)
  ⟨r, hr, (h.1 4 r hr).1, (h.1 4 r hr).2.1, (h.1 4 r hr).2.2.1, (h.1 4 r hr).2.2.2.1⟩

/-- The run of `PlayAudio` whose first `k` iterations succeed unstopped and whose
iteration `k` leaves the loop with the calls `last`. -/
theorem PlayAudio_run (a : AudioWorld) (vc : VoiceConnection) (k fuel : Nat)
    (last : List AudioCall) (hplay : vc.Playing = false) (hspeak : a.Speaking true = none)
    (hrun : ∀ j, j < k → a.stops j = false ∧ (a.reader j).err = none ∧
      (a.reader j).bytes.length ≤ bufferSize)
    (hlast : ∀ n, playLoop a (n + 1) k { vc with Playing := true, Stopping := false }
      = some (if a.stops k then StopAudio { vc with Playing := true, Stopping := false }
          else { vc with Playing := true, Stopping := false }, last, none))
    (hfuel : k < fuel) :
    PlayAudio a fuel vc
      = some ⟨{ vc with Playing := false, Stopping := false }, none,
          [.Speaking true] ++ (((List.range k).map a.reader).map iterationCalls).flatten
            ++ last ++ [.Speaking false], none⟩ := by
  obtain ⟨n, hn⟩ : ∃ n, fuel = k + (n + 1) := ⟨fuel - k - 1, by omega⟩
  have hpre := playLoop_prefix a k (n + 1) 0 { vc with Playing := true, Stopping := false } rfl
    (fun j _ h2 => hrun j (by omega))
  rw [Nat.zero_add, hlast n, iterations_eq] at hpre
  rw [PlayAudio_entered a fuel vc hplay hspeak, hn, hpre]
  by_cases hs : a.stops k = true
  · simp [hs, StopAudio]
  · simp [hs]

/-- C15: let the playback enter the loop and the stopping flag never be set.
(1) As long as the reads succeed, the loop runs iteration after iteration: a run
allowed `n` more iterations than another makes, before it, exactly the calls of the
first `n` iterations, one read of the buffer size each, followed by the chunk read
if it is not empty. (2) If read `k` is the first to report an error (end-of-stream
or another one), `PlayAudio` returns; the chunks sent to the sink are exactly the
non-empty results of reads `0` to `k - 1`, in read order, each of 1 to 16384 bytes;
and the run makes `k + 1` reads of 16384 bytes, so none after the failing read. -/
theorem PlayAudio_forwards_reads (a : AudioWorld) (vc : VoiceConnection)
    (hplay : vc.Playing = false) (hspeak : a.Speaking true = none)
    (hnostop : ∀ j, a.stops j = false) :
    (∀ n fuel, (∀ j, j < n → (a.reader j).err = none ∧
        (a.reader j).bytes.length ≤ bufferSize) →
      playLoop a (n + fuel) 0 { vc with Playing := true, Stopping := false }
        = (playLoop a fuel n { vc with Playing := true, Stopping := false }).map
            (fun r => (r.1,
              (((List.range n).map a.reader).map iterationCalls).flatten ++ r.2.1, r.2.2))) ∧
    (∀ k fuel e, (∀ j, j < k → (a.reader j).err = none ∧
        (a.reader j).bytes.length ≤ bufferSize) →
      (a.reader k).err = some e → k < fuel →
      ∃ r, PlayAudio a fuel vc = some r ∧ r.err = none ∧ r.panic = none ∧
        r.trace.filterMap AudioCall.chunk
          = ((List.range k).map (fun j => (a.reader j).bytes)).filter (fun c => 0 < c.length) ∧
        (∀ c ∈ r.trace.filterMap AudioCall.chunk, 1 ≤ c.length ∧ c.length ≤ 16384) ∧
        r.trace.filter AudioCall.isRead = List.replicate (k + 1) (.Read 16384)) := by
  constructor
  · intro n fuel hreads
    have hpre := playLoop_prefix a n fuel 0 { vc with Playing := true, Stopping := false } rfl
      (fun j _ h2 => ⟨hnostop j, hreads j (by omega)⟩)
    rw [Nat.zero_add, iterations_eq] at hpre
    exact hpre
  · intro k fuel e hreads herr hfuel
    have hlast : ∀ n, playLoop a (n + 1) k { vc with Playing := true, Stopping := false }
        = some (if a.stops k then StopAudio { vc with Playing := true, Stopping := false }
            else { vc with Playing := true, Stopping := false }, readFailed e, none) := by
      intro n
      exact playLoop_error a n k _ e (by simp [hnostop k]) herr
    have hrun := PlayAudio_run a vc k fuel (readFailed e) hplay hspeak
      (fun j hj => ⟨hnostop j, hreads j hj⟩) hlast hfuel
    have hchunks : (readFailed e).filterMap AudioCall.chunk = [] := by
      cases e <;> rfl
    have hreadsLast : (readFailed e).filter AudioCall.isRead = [.Read bufferSize] := by
      cases e <;> rfl
    have hsent : ([AudioCall.Speaking true]
          ++ (((List.range k).map a.reader).map iterationCalls).flatten
          ++ readFailed e ++ [AudioCall.Speaking false]).filterMap AudioCall.chunk
        = ((List.range k).map (fun j => (a.reader j).bytes)).filter (fun c => 0 < c.length) := by
      simp only [List.filterMap_append, iterationCalls_chunks, hchunks]
      rw [List.map_map]
      simp only [List.filterMap_cons, List.filterMap_nil, AudioCall.chunk, List.nil_append,
        List.append_nil]
      rfl
    refine ⟨_, hrun, rfl, rfl, hsent, ?_, ?_⟩
    · intro c hc
      rw [hsent, List.mem_filter, List.mem_map] at hc
      obtain ⟨⟨j, hj, hjc⟩, hpos⟩ := hc
      rw [List.mem_range] at hj
      subst hjc
      exact ⟨by simpa using hpos, (hreads j hj).2⟩
    · simp only [List.filter_append, iterationCalls_reads, hreadsLast, List.length_map,
        List.length_range]
      simp [AudioCall.isRead, bufferSize, List.replicate_succ']

/-- C15 at the stream that gives two bytes, nothing, three bytes and then ends. -/
theorem PlayAudio_forwards_reads_witness :
    ∃ r, PlayAudio shortPlayback 4 idleConnection = some r ∧
      r.trace.filterMap AudioCall.chunk = [[1, 2], [3, 4, 5]] ∧
      r.trace.filter AudioCall.isRead = List.replicate 4 (.Read 16384) :=
  have ⟨r, hr, _, _, hc, _, hreads⟩ :=
    (PlayAudio_forwards_reads shortPlayback idleConnection rfl rfl (fun _ => rfl)).2 3 4 .EOF
      (by decide) rfl (by decide)
  ⟨r, hr, hc.trans (by decide), hreads⟩

/-- C16: `StopAudio` sets the stopping flag and leaves the playing flag, the guild,
the channel and the transport handle as they are. Let a playback run unstopped with
successful reads through its first `k - 1` iterations, and let the stopping flag be
set after check `k - 1` and before check `k` of the loop (for `k = 0`: before the
first check). Then `PlayAudio` returns without error; its calls are the raising of
the speaking flag, the `k` iterations begun before the flag was set, and the
clearing of the speaking flag, once. Only iteration `k - 1` can still be under way
when the flag is set, so after it the run makes at most one read and forwards at
most one chunk; the playing flag is false at the end. -/
theorem StopAudio_cooperative (a : AudioWorld) (vc : VoiceConnection) (k fuel : Nat)
    (hplay : vc.Playing = false) (hspeak : a.Speaking true = none)
    (hrun : ∀ j, j < k → a.stops j = false ∧ (a.reader j).err = none ∧
      (a.reader j).bytes.length ≤ bufferSize)
    (hstop : a.stops k = true) (hfuel : k < fuel) :
    (∀ c : VoiceConnection, (StopAudio c).Stopping = true ∧ (StopAudio c).Playing = c.Playing ∧
      (StopAudio c).GuildID = c.GuildID ∧ (StopAudio c).ChannelID = c.ChannelID ∧
      (StopAudio c).Conn = c.Conn) ∧
    ∃ r, PlayAudio a fuel vc = some r ∧ r.err = none ∧ r.panic = none ∧
      r.vc.Playing = false ∧ r.vc.Stopping = false ∧
      r.trace = [.Speaking true] ++ (((List.range k).map a.reader).map iterationCalls).flatten
        ++ [.Speaking false] ∧
      (r.trace.filter AudioCall.isRead).length = k ∧
      r.trace.count (.Speaking false) = 1 ∧
      ∃ tail, r.trace = [.Speaking true]
          ++ (((List.range (k - 1)).map a.reader).map iterationCalls).flatten ++ tail ∧
        (tail.filter AudioCall.isRead).length ≤ 1 ∧
        (tail.filterMap AudioCall.chunk).length ≤ 1 ∧
        tail.getLast? = some (.Speaking false) := by
  refine ⟨fun c => ⟨rfl, rfl, rfl, rfl, rfl⟩, ?_⟩
  have hlast : ∀ n, playLoop a (n + 1) k { vc with Playing := true, Stopping := false }
      = some (if a.stops k then StopAudio { vc with Playing := true, Stopping := false }
          else { vc with Playing := true, Stopping := false }, [], none) := by
    intro n
    exact playLoop_stop a n k _ (by simp [hstop, StopAudio])
  have hr := PlayAudio_run a vc k fuel [] hplay hspeak hrun hlast hfuel
  rw [List.append_nil] at hr
  refine ⟨_, hr, rfl, rfl, rfl, rfl, rfl, ?_, ?_, ?_⟩
  · simp only [List.filter_append, iterationCalls_reads, List.length_append,
      List.length_replicate, List.length_map, List.length_range]
    simp [AudioCall.isRead]
  · simp only [List.count_append, iterationCalls_flatten_no_speaking]
    simp [List.count_cons]
  · cases k with
    | zero =>
      exact ⟨[.Speaking false], rfl, by simp [AudioCall.isRead], by simp [AudioCall.chunk], rfl⟩
    | succ m =>
      refine ⟨iterationCalls (a.reader m) ++ [.Speaking false], ?_, ?_, ?_, ?_⟩
      · simp [List.range_succ, List.append_assoc]
      · unfold iterationCalls
        split <;> simp [AudioCall.isRead]
      · unfold iterationCalls
        split <;> simp [AudioCall.chunk]
      · rw [List.getLast?_append]
        rfl

/-- C16 at an endless stream stopped during its second iteration: two reads, two
chunks, then the speaking flag is cleared. -/
theorem StopAudio_cooperative_witness :
    ∃ r, PlayAudio stoppedPlayback 3 idleConnection = some r ∧ r.vc.Playing = false ∧
      r.trace = [.Speaking true, .Read 16384, .OpusSend [0], .Read 16384, .OpusSend [1],
        .Speaking false] :=
  have ⟨r, hr, _, _, hp, _, ht, _⟩ :=
    (StopAudio_cooperative stoppedPlayback idleConnection 2 3 rfl rfl (by decide) rfl
      (by decide)).2
  ⟨r, hr, hp, ht.trans (by decide)⟩

/-! ## The guild store (C17, C18) -/

namespace GoMap

variable {V : Type}

theorem not_mem_keys_delete (m : GoMap V) (k : String) : k ∉ (delete m k).map Prod.fst := by
  intro h
  rw [List.mem_map] at h
  obtain ⟨e, he, hk⟩ := h
  unfold delete at he
  rw [List.mem_filter] at he
  simp [hk] at he

theorem WF_delete (m : GoMap V) (k : String) (h : WF m) : WF (delete m k) := by
  unfold WF delete at *
  exact List.Nodup.sublist (List.Sublist.map Prod.fst (List.filter_sublist m)) h

theorem WF_set (m : GoMap V) (k : String) (v : V) (h : WF m) : WF (set m k v) := by
  have h1 := WF_delete m k h
  have h2 := not_mem_keys_delete m k
  unfold WF set at *
  rw [List.map_append, List.nodup_append]
  refine ⟨h1, by simp, ?_⟩
  intro a ha hb
  simp only [List.map_cons, List.map_nil, List.mem_singleton] at hb
  exact h2 (hb ▸ ha)

theorem get_eq_none_of_not_mem (m : GoMap V) (k : String) (h : k ∉ m.map Prod.fst) :
    get m k = none := by
  induction m with
  | nil => rfl
  | cons e m ih =>
    obtain ⟨a, v⟩ := e
    rw [List.map_cons, List.mem_cons, not_or] at h
    rw [get_cons, if_neg h.1]
    exact ih h.2

/-- Copying a well-formed map entry by entry into another map: the entries of the
source win over those already there. -/
theorem get_foldl_set (m : GoMap V) (h : WF m) (acc : GoMap V) (k : String) :
    get (m.foldl (fun acc e => set acc e.1 e.2) acc) k
      = match get m k with
        | some v => some v
        | none => get acc k := by
  induction m generalizing acc with
  | nil => rfl
  | cons e m ih =>
    obtain ⟨a, v⟩ := e
    unfold WF at h ih
    rw [List.map_cons, List.nodup_cons] at h
    rw [List.foldl_cons, ih h.2, get_cons]
    by_cases hk : k = a
    · subst hk
      rw [get_eq_none_of_not_mem m k h.1, if_pos rfl]
      exact get_set_self acc k v
    · rw [if_neg hk]
      cases get m k with
      | some u => rfl
      | none => exact get_set_of_ne acc a k v hk

/-- The copy of a well-formed map has the same entry under every key. -/
theorem get_copy (m : GoMap V) (h : WF m) (k : String) :
    get (m.foldl (fun acc e => set acc e.1 e.2) []) k = get m k := by
  rw [get_foldl_set m h [] k]
  cases get m k <;> rfl

/-- Every entry of the copy comes from the source or was there before. -/
theorem mem_foldl_set (m acc : GoMap V) (e : String × V)
    (h : e ∈ m.foldl (fun acc e => set acc e.1 e.2) acc) : e ∈ acc ∨ e ∈ m := by
  induction m generalizing acc with
  | nil => exact Or.inl h
  | cons x m ih =>
    rw [List.foldl_cons] at h
    rcases ih _ h with h1 | h1
    · unfold set delete at h1
      rw [List.mem_append, List.mem_filter, List.mem_singleton] at h1
      rcases h1 with h2 | h2
      · exact Or.inl h2.1
      · exact Or.inr (h2 ▸ List.mem_cons_self _ _)
    · exact Or.inr (List.mem_cons_of_mem _ h1)

theorem mem_of_get (m : GoMap V) (k : String) (v : V) (h : get m k = some v) : (k, v) ∈ m := by
  induction m with
  | nil => simp [get_nil] at h
  | cons e m ih =>
    obtain ⟨a, u⟩ := e
    rw [get_cons] at h
    by_cases hk : k = a
    · rw [if_pos hk] at h
      cases h
      rw [hk]
      exact List.mem_cons_self _ _
    · rw [if_neg hk] at h
      exact List.mem_cons_of_mem _ (ih h)

end GoMap

/-- The entries of an allocated map object. -/
theorem Memory.entries_of_valid (m : Memory) (r : MapRef) (h : r < m.maps.length) :
    m.maps[r]? = some (m.entries r) := by
  unfold Memory.entries
  rw [List.getElem?_eq_getElem h]
  rfl

/-- An assignment through an allocated map object. -/
theorem Memory.mapSet_of_valid (m : Memory) (r : MapRef) (k : String) (p : Ptr)
    (h : r < m.maps.length) :
    m.mapSet r k p = ({ m with maps := m.maps.set r (GoMap.set (m.entries r) k p) }, none) := by
  unfold Memory.mapSet
  rw [Memory.entries_of_valid m r h]

/-- A deletion through an allocated map object. -/
theorem Memory.mapDelete_of_valid (m : Memory) (r : MapRef) (k : String)
    (h : r < m.maps.length) :
    m.mapDelete r k = { m with maps := m.maps.set r (GoMap.delete (m.entries r) k) } := by
  unfold Memory.mapDelete
  rw [Memory.entries_of_valid m r h]

/-- The entries of the map objects after one of them was replaced. -/
theorem Memory.entries_set (guilds : List Guild) (maps : List (GoMap Ptr)) (r r2 : MapRef)
    (es : GoMap Ptr) (h : r < maps.length) :
    Memory.entries ⟨guilds, maps.set r es⟩ r2
      = if r2 = r then es else Memory.entries ⟨guilds, maps⟩ r2 := by
  unfold Memory.entries
  by_cases h2 : r2 = r
  · subst h2
    simp [h]
  · have h3 : ¬ r = r2 := fun h4 => h2 h4.symm
    simp [h2, List.getElem?_set, h3]

/-- What `GetGuilds` does to memory: it adds one map object, the copy. -/
theorem GetGuilds_eq (st : GuildStore) :
    GetGuilds st
      = (⟨⟨st.mem.guilds, st.mem.maps ++
            [(st.mem.entries st.Guilds).foldl (fun acc e => GoMap.set acc e.1 e.2) []]⟩,
          st.Guilds⟩, st.mem.maps.length) := rfl

/-- The map objects that exist before an allocation keep their entries. -/
theorem Memory.entries_append (guilds : List Guild) (maps : List (GoMap Ptr)) (es : GoMap Ptr)
    (r : MapRef) :
    Memory.entries ⟨guilds, maps ++ [es]⟩ r
      = if r = maps.length then es else Memory.entries ⟨guilds, maps⟩ r := by
  unfold Memory.entries
  rcases Nat.lt_trichotomy r maps.length with h | h | h
  · have h2 : ¬ r = maps.length := Nat.ne_of_lt h
    simp [List.getElem?_append_left h, h2]
  · subst h
    simp
  · have h2 : ¬ r = maps.length := Nat.ne_of_gt h
    have h3 : (maps ++ [es]).length ≤ r := by simp; omega
    have h4 : maps.length ≤ r := by omega
    simp [List.getElem?_eq_none h3, List.getElem?_eq_none h4, h2]

/-- Summing the member counts succeeds when every entry points to a guild object. -/
theorem sumMemberCounts_isSome (m : Memory) (l : List (String × Ptr))
    (h : ∀ e ∈ l, e.2 < m.guilds.length) (acc : Int) :
    ∃ n, sumMemberCounts m l acc = some n := by
  induction l generalizing acc with
  | nil => exact ⟨acc, rfl⟩
  | cons e l ih =>
    obtain ⟨k, p⟩ := e
    have hp : p < m.guilds.length := h (k, p) (List.mem_cons_self _ _)
    unfold sumMemberCounts
    rw [List.getElem?_eq_getElem hp]
    exact ih (fun e he => h e (List.mem_cons_of_mem _ he)) _

/-- The store after `updateStats`: memory has one more map object, the copy made by
`GetGuilds`; and there is no panic when every entry points to a guild object. -/
theorem updateStats_store (w : GuildWorld) (st : GuildStore) :
    (updateStats w st).store = (GetGuilds st).1 ∧
    ((∀ e ∈ st.mem.entries st.Guilds, e.2 < st.mem.guilds.length) →
      (updateStats w st).panic = none) := by
  constructor
  · unfold updateStats
    simp only
    split
    · rfl
    · split <;> rfl
  · intro h
    have hcopy : ∀ e ∈ (GetGuilds st).1.mem.entries (GetGuilds st).2,
        e.2 < (GetGuilds st).1.mem.guilds.length := by
      intro e he
      rw [GetGuilds_eq] at he ⊢
      simp only [Memory.entries_append, if_true] at he
      rcases GoMap.mem_foldl_set _ _ e he with h1 | h1
      · cases h1
      · exact h e h1
    obtain ⟨n, hn⟩ := sumMemberCounts_isSome _ _ hcopy 0
    unfold updateStats
    simp only [hn]
    split <;> rfl

/-- The store after `onGuildCreate` on an allocated map: the guild object is placed
in memory, the entry of its id points to it, and `updateStats` has run. -/
theorem onGuildCreate_store (w : GuildWorld) (st : GuildStore) (g : Guild)
    (hvalid : st.Guilds < st.mem.maps.length) :
    (onGuildCreate w st g).store
        = (GetGuilds ⟨⟨st.mem.guilds ++ [g], st.mem.maps.set st.Guilds
            (GoMap.set (st.mem.entries st.Guilds) g.ID st.mem.guilds.length)⟩, st.Guilds⟩).1 ∧
    ((∀ e ∈ st.mem.entries st.Guilds, e.2 < st.mem.guilds.length) →
      (onGuildCreate w st g).panic = none) := by
  have hset : Memory.mapSet ⟨st.mem.guilds ++ [g], st.mem.maps⟩ st.Guilds g.ID
      st.mem.guilds.length
      = (⟨st.mem.guilds ++ [g], st.mem.maps.set st.Guilds
          (GoMap.set (st.mem.entries st.Guilds) g.ID st.mem.guilds.length)⟩, none) :=
    Memory.mapSet_of_valid ⟨st.mem.guilds ++ [g], st.mem.maps⟩ st.Guilds g.ID _ hvalid
  constructor
  · unfold onGuildCreate
    simp only [hset]
    split
    · exact (updateStats_store w _).1
    · exact (updateStats_store w _).1
  · intro hptr
    have hp := (updateStats_store w ⟨⟨st.mem.guilds ++ [g], st.mem.maps.set st.Guilds
      (GoMap.set (st.mem.entries st.Guilds) g.ID st.mem.guilds.length)⟩, st.Guilds⟩).2 (by
        intro e he
        simp only [Memory.entries_set _ _ _ _ _ hvalid, if_true] at he
        unfold GoMap.set GoMap.delete at he
        rw [List.mem_append, List.mem_filter, List.mem_singleton] at he
        simp only [List.length_append, List.length_singleton]
        rcases he with h1 | h1
        · exact Nat.lt_succ_of_lt (hptr e h1.1)
        · rw [h1]
          exact Nat.lt_succ_self _)
    unfold onGuildCreate
    simp only [hset, hp]

/-- The store after `onGuildDelete` on an allocated map: the entry of the id is
deleted and `updateStats` has run. -/
theorem onGuildDelete_store (w : GuildWorld) (st : GuildStore) (id name : String)
    (hvalid : st.Guilds < st.mem.maps.length) :
    (onGuildDelete w st id name).store
        = (GetGuilds ⟨⟨st.mem.guilds, st.mem.maps.set st.Guilds
            (GoMap.delete (st.mem.entries st.Guilds) id)⟩, st.Guilds⟩).1 ∧
    ((∀ e ∈ st.mem.entries st.Guilds, e.2 < st.mem.guilds.length) →
      (onGuildDelete w st id name).panic = none) := by
  have hdel := Memory.mapDelete_of_valid st.mem st.Guilds id hvalid
  constructor
  · unfold onGuildDelete
    simp only [hdel]
    exact (updateStats_store w _).1
  · intro hptr
    unfold onGuildDelete
    simp only [hdel]
    apply (updateStats_store w _).2
    intro e he
    simp only [Memory.entries_set _ _ _ _ _ hvalid, if_true] at he
    unfold GoMap.delete at he
    rw [List.mem_filter] at he
    exact hptr e he.1

/-- The store as `GetGuilds` leaves it after the map object of the store was
replaced: the store map has the new entries and the guild objects are untouched. -/
theorem GetGuilds_after_set (guilds : List Guild) (maps : List (GoMap Ptr)) (r : MapRef)
    (es : GoMap Ptr) (hvalid : r < maps.length) :
    (GetGuilds ⟨⟨guilds, maps.set r es⟩, r⟩).1.Guilds = r ∧
    r < (GetGuilds ⟨⟨guilds, maps.set r es⟩, r⟩).1.mem.maps.length ∧
    (GetGuilds ⟨⟨guilds, maps.set r es⟩, r⟩).1.mem.entries r = es ∧
    (GetGuilds ⟨⟨guilds, maps.set r es⟩, r⟩).1.mem.guilds = guilds := by
  rw [GetGuilds_eq]
  refine ⟨rfl, ?_, ?_, rfl⟩
  · simp only [List.length_append, List.length_set, List.length_singleton]
    exact Nat.lt_succ_of_lt hvalid
  · have hne : ¬ r = (maps.set r es).length := by
      rw [List.length_set]
      exact Nat.ne_of_lt hvalid
    simp only [Memory.entries_append, hne, if_false]
    rw [Memory.entries_set _ _ _ _ _ hvalid, if_pos rfl]

/-- C17: let the store map be allocated and well-formed, with every entry pointing
to a guild object. After `onGuildCreate` for the snapshot `g` the store holds `g`
under `g.ID`; after `onGuildDelete` for `g.ID` the mapping returned by `GetGuilds`
has no entry for `g.ID`, and under every other guild id it has the entry, and the
snapshot, that the store had before the two events. Neither handler panics. -/
theorem guild_store_round_trip (w1 w2 : GuildWorld) (st : GuildStore) (g : Guild)
    (name : String) (hvalid : st.Guilds < st.mem.maps.length)
    (hwf : GoMap.WF (st.mem.entries st.Guilds))
    (hptr : ∀ e ∈ st.mem.entries st.Guilds, e.2 < st.mem.guilds.length) :
    (onGuildCreate w1 st g).panic = none ∧
    (onGuildCreate w1 st g).store.lookup g.ID = some g ∧
    (onGuildDelete w2 (onGuildCreate w1 st g).store g.ID name).panic = none ∧
    GoMap.get
      ((GetGuilds (onGuildDelete w2 (onGuildCreate w1 st g).store g.ID name).store).1.mem.entries
        (GetGuilds (onGuildDelete w2 (onGuildCreate w1 st g).store g.ID name).store).2)
      g.ID = none ∧
    (∀ id, id ≠ g.ID →
      GoMap.get
        ((GetGuilds (onGuildDelete w2 (onGuildCreate w1 st g).store g.ID name).store).1.mem.entries
          (GetGuilds (onGuildDelete w2 (onGuildCreate w1 st g).store g.ID name).store).2)
        id = GoMap.get (st.mem.entries st.Guilds) id ∧
      (GetGuilds (onGuildDelete w2 (onGuildCreate w1 st g).store g.ID name).store).1.mem.lookup
          (GetGuilds (onGuildDelete w2 (onGuildCreate w1 st g).store g.ID name).store).2 id
        = st.lookup id) := by
  obtain ⟨hs1, hp1⟩ := onGuildCreate_store w1 st g hvalid
  obtain ⟨a1, a2, a3, a4⟩ := GetGuilds_after_set (st.mem.guilds ++ [g]) st.mem.maps st.Guilds
    (GoMap.set (st.mem.entries st.Guilds) g.ID st.mem.guilds.length) hvalid
  rw [← hs1] at a1 a2 a3 a4
  have hptr1 : ∀ e ∈ (onGuildCreate w1 st g).store.mem.entries (onGuildCreate w1 st g).store.Guilds,
      e.2 < (onGuildCreate w1 st g).store.mem.guilds.length := by
    intro e he
    rw [a1, a3] at he
    rw [a4]
    unfold GoMap.set GoMap.delete at he
    rw [List.mem_append, List.mem_filter, List.mem_singleton] at he
    simp only [List.length_append, List.length_singleton]
    rcases he with h1 | h1
    · exact Nat.lt_succ_of_lt (hptr e h1.1)
    · rw [h1]
      exact Nat.lt_succ_self _
  have hvalid1 : (onGuildCreate w1 st g).store.Guilds
      < (onGuildCreate w1 st g).store.mem.maps.length := by
    rw [a1]
    exact a2
  obtain ⟨hs2, hp2⟩ := onGuildDelete_store w2 (onGuildCreate w1 st g).store g.ID name hvalid1
  obtain ⟨b1, b2, b3, b4⟩ := GetGuilds_after_set (onGuildCreate w1 st g).store.mem.guilds
    (onGuildCreate w1 st g).store.mem.maps (onGuildCreate w1 st g).store.Guilds
    (GoMap.delete ((onGuildCreate w1 st g).store.mem.entries (onGuildCreate w1 st g).store.Guilds)
      g.ID) hvalid1
  rw [← hs2] at b1 b2 b3 b4
  rw [a1] at b1 b3
  rw [a3] at b3
  rw [a4] at b4
  have hwf2 : GoMap.WF (GoMap.delete
      (GoMap.set (st.mem.entries st.Guilds) g.ID st.mem.guilds.length) g.ID) :=
    GoMap.WF_delete _ _ (GoMap.WF_set _ _ _ hwf)
  have hcopy : ∀ id, GoMap.get
      ((GetGuilds (onGuildDelete w2 (onGuildCreate w1 st g).store g.ID name).store).1.mem.entries
        (GetGuilds (onGuildDelete w2 (onGuildCreate w1 st g).store g.ID name).store).2) id
      = GoMap.get (GoMap.delete
          (GoMap.set (st.mem.entries st.Guilds) g.ID st.mem.guilds.length) g.ID) id := by
    intro id
    rw [GetGuilds_eq]
    simp only [Memory.entries_append, if_true]
    rw [b1, b3]
    exact GoMap.get_copy _ hwf2 id
  have hguilds : (GetGuilds (onGuildDelete w2 (onGuildCreate w1 st g).store g.ID
      name).store).1.mem.guilds = st.mem.guilds ++ [g] := by
    rw [GetGuilds_eq]
    exact b4
  refine ⟨hp1 hptr, ?_, hp2 hptr1, ?_, ?_⟩
  · unfold GuildStore.lookup Memory.lookup
    rw [a1, a3, GoMap.get_set_self, a4]
    simp
  · rw [hcopy]
    exact GoMap.get_delete_self _ _
  · intro id hid
    have hget : GoMap.get (GoMap.delete
        (GoMap.set (st.mem.entries st.Guilds) g.ID st.mem.guilds.length) g.ID) id
        = GoMap.get (st.mem.entries st.Guilds) id := by
      rw [GoMap.get_delete_of_ne _ _ _ hid, GoMap.get_set_of_ne _ _ _ _ hid]
    refine ⟨(hcopy id).trans hget, ?_⟩
    unfold GuildStore.lookup Memory.lookup
    rw [hcopy, hget, hguilds]
    cases hg : GoMap.get (st.mem.entries st.Guilds) id with
    | none => rfl
    | some p =>
      have hp : p < st.mem.guilds.length := hptr (id, p) (GoMap.mem_of_get _ _ _ hg)
      simp only
      rw [List.getElem?_append_left hp]

/-- C17 at the store of `g1` and `g2`, when `g3` joins and leaves. -/
theorem guild_store_round_trip_witness :
    (onGuildCreate quietGuildWorld sampleStore newGuild).store.lookup "g3" = some newGuild ∧
    GoMap.get
      ((GetGuilds (onGuildDelete quietGuildWorld
          (onGuildCreate quietGuildWorld sampleStore newGuild).store "g3"
          "Three").store).1.mem.entries
        (GetGuilds (onGuildDelete quietGuildWorld
          (onGuildCreate quietGuildWorld sampleStore newGuild).store "g3" "Three").store).2)
      "g3" = none :=
  have h := guild_store_round_trip quietGuildWorld quietGuildWorld sampleStore newGuild "Three"
    (by decide) (by decide) (by decide)
  ⟨h.2.1, h.2.2.2.1⟩

/-- C18 as stated fails: the returned mapping holds the pointers of the store, so a
member count written through a pointer taken from the returned mapping shows in the
store, which held 10 for `g1` before and holds 99 afterwards. -/
theorem GetGuilds_snapshot_shared :
    sampleStore.lookup "g1" = some ⟨"g1", "One", 10, []⟩ ∧
      GoMap.get ((GetGuilds sampleStore).1.mem.entries (GetGuilds sampleStore).2) "g1" = some 0 ∧
      GuildStore.lookup
          { (GetGuilds sampleStore).1 with
            mem := ((GetGuilds sampleStore).1.mem.setMemberCount 0 99).1 } "g1"
        = some ⟨"g1", "One", 99, []⟩ := by
  decide

/-- C18, amended: let the store map be allocated and well-formed. The mapping
returned by `GetGuilds` is a new map object that has, under every guild id, the
entry of the store, hence the same snapshot; the call leaves the store map and the
guild objects as they are; and no later insertion or deletion of a key through the
returned mapping changes the entries of the store map or a guild object. The
snapshots are shared with the store: a member count written through a pointer of
the returned mapping is the member count the store shows. -/
theorem GetGuilds_copy (st : GuildStore) (hvalid : st.Guilds < st.mem.maps.length)
    (hwf : GoMap.WF (st.mem.entries st.Guilds)) :
    (GetGuilds st).2 ≠ st.Guilds ∧
    (∀ id, GoMap.get ((GetGuilds st).1.mem.entries (GetGuilds st).2) id
        = GoMap.get (st.mem.entries st.Guilds) id ∧
      (GetGuilds st).1.mem.lookup (GetGuilds st).2 id = st.lookup id) ∧
    ((GetGuilds st).1.Guilds = st.Guilds ∧
      (GetGuilds st).1.mem.entries st.Guilds = st.mem.entries st.Guilds ∧
      (GetGuilds st).1.mem.guilds = st.mem.guilds) ∧
    (∀ id p, ((GetGuilds st).1.mem.mapSet (GetGuilds st).2 id p).2 = none ∧
      ((GetGuilds st).1.mem.mapSet (GetGuilds st).2 id p).1.entries st.Guilds
        = st.mem.entries st.Guilds ∧
      ((GetGuilds st).1.mem.mapSet (GetGuilds st).2 id p).1.guilds = st.mem.guilds) ∧
    (∀ id, ((GetGuilds st).1.mem.mapDelete (GetGuilds st).2 id).entries st.Guilds
        = st.mem.entries st.Guilds ∧
      ((GetGuilds st).1.mem.mapDelete (GetGuilds st).2 id).guilds = st.mem.guilds) ∧
    (∀ id p snapshot n, GoMap.get ((GetGuilds st).1.mem.entries (GetGuilds st).2) id = some p →
      st.mem.guilds[p]? = some snapshot →
      GuildStore.lookup
          { (GetGuilds st).1 with mem := ((GetGuilds st).1.mem.setMemberCount p n).1 } id
        = some { snapshot with MemberCount := n }) := by
  have hne : ¬ st.Guilds = st.mem.maps.length := Nat.ne_of_lt hvalid
  have hnew : st.mem.maps.length < (st.mem.maps ++
      [(st.mem.entries st.Guilds).foldl (fun acc e => GoMap.set acc e.1 e.2) []]).length := by
    simp
  have hcopy : ∀ id, GoMap.get ((GetGuilds st).1.mem.entries (GetGuilds st).2) id
      = GoMap.get (st.mem.entries st.Guilds) id := by
    intro id
    rw [GetGuilds_eq]
    simp only [Memory.entries_append, if_true]
    exact GoMap.get_copy _ hwf id
  have hstore : (GetGuilds st).1.mem.entries st.Guilds = st.mem.entries st.Guilds := by
    rw [GetGuilds_eq]
    simp only [Memory.entries_append, hne, if_false]
  refine ⟨?_, ?_, ⟨rfl, hstore, rfl⟩, ?_, ?_, ?_⟩
  · rw [GetGuilds_eq]
    exact fun h => hne h.symm
  · intro id
    refine ⟨hcopy id, ?_⟩
    unfold GuildStore.lookup Memory.lookup
    rw [hcopy id]
    rfl
  · intro id p
    rw [GetGuilds_eq]
    simp only
    rw [Memory.mapSet_of_valid _ _ _ _ hnew]
    refine ⟨rfl, ?_, rfl⟩
    simp only
    rw [Memory.entries_set _ _ _ _ _ hnew, if_neg hne]
    simp only [Memory.entries_append, hne, if_false]
  · intro id
    rw [GetGuilds_eq]
    simp only
    rw [Memory.mapDelete_of_valid _ _ _ hnew]
    refine ⟨?_, rfl⟩
    simp only
    rw [Memory.entries_set _ _ _ _ _ hnew, if_neg hne]
    simp only [Memory.entries_append, hne, if_false]
  · intro id p snapshot n hget hsnap
    rw [hcopy id] at hget
    have hp : p < st.mem.guilds.length := by
      rcases Nat.lt_or_ge p st.mem.guilds.length with h | h
      · exact h
      · rw [List.getElem?_eq_none h] at hsnap
        cases hsnap
    unfold GuildStore.lookup Memory.lookup Memory.setMemberCount
    rw [GetGuilds_eq]
    simp only [hsnap]
    have he : Memory.entries
        ⟨st.mem.guilds.set p { snapshot with MemberCount := n }, st.mem.maps ++
          [(st.mem.entries st.Guilds).foldl (fun acc e => GoMap.set acc e.1 e.2) []]⟩ st.Guilds
        = st.mem.entries st.Guilds := by
      simp only [Memory.entries_append, hne, if_false]
      rfl
    rw [he, hget]
    simp [List.getElem?_set, hp]

/-- C18 amended, at the store of `g1` and `g2`: deleting `g1` from the returned
mapping leaves the entry of `g1` in the store. -/
theorem GetGuilds_copy_witness :
    GoMap.get (((GetGuilds sampleStore).1.mem.mapDelete (GetGuilds sampleStore).2 "g1").entries
        sampleStore.Guilds) "g1" = some 0 ∧
      GoMap.get (((GetGuilds sampleStore).1.mem.mapDelete (GetGuilds sampleStore).2 "g1").entries
        (GetGuilds sampleStore).2) "g1" = none :=
  have h := (GetGuilds_copy sampleStore (by decide) (by decide)).2.2.2.2.1 "g1"
  ⟨by rw [h.1]; decide, by decide⟩

/-! ## Registration of the commands (C19) -/

/-- C19: in each of the two tables, registering `d1` and then `d2` under the same
name leaves exactly one entry for the name, and the lookup by the name gives `d2`;
the entries under other names are as before, and a registration in one table leaves
the other table as it is. The two registration functions of the bot are made of
such assignments and so each leaves the table of the other alone. -/
theorem registration_last_wins (b : Bot) (name : String) :
    (∀ d1 d2 : PrefixCommand,
      GoMap.get (registerPrefix (registerPrefix b name d1) name d2).PrefixCommands name
        = some d2 ∧
      GoMap.count (registerPrefix (registerPrefix b name d1) name d2).PrefixCommands name = 1 ∧
      (∀ other, other ≠ name →
        GoMap.get (registerPrefix (registerPrefix b name d1) name d2).PrefixCommands other
          = GoMap.get b.PrefixCommands other) ∧
      (registerPrefix (registerPrefix b name d1) name d2).SlashCommands = b.SlashCommands) ∧
    (∀ d1 d2 : SlashCommand,
      GoMap.get (registerSlash (registerSlash b name d1) name d2).SlashCommands name
        = some d2 ∧
      GoMap.count (registerSlash (registerSlash b name d1) name d2).SlashCommands name = 1 ∧
      (∀ other, other ≠ name →
        GoMap.get (registerSlash (registerSlash b name d1) name d2).SlashCommands other
          = GoMap.get b.SlashCommands other) ∧
      (registerSlash (registerSlash b name d1) name d2).PrefixCommands = b.PrefixCommands) ∧
    (registerPrefixCommands b).SlashCommands = b.SlashCommands ∧
    (registerSlashCommands b).PrefixCommands = b.PrefixCommands := by
  refine ⟨?_, ?_, rfl, rfl⟩
  · intro d1 d2
    refine ⟨GoMap.get_set_self _ _ _, GoMap.count_set_self _ _ _, ?_, rfl⟩
    intro other h
    show GoMap.get (GoMap.set (GoMap.set b.PrefixCommands name d1) name d2) other = _
    rw [GoMap.get_set_of_ne _ _ _ _ h, GoMap.get_set_of_ne _ _ _ _ h]
  · intro d1 d2
    refine ⟨GoMap.get_set_self _ _ _, GoMap.count_set_self _ _ _, ?_, rfl⟩
    intro other h
    show GoMap.get (GoMap.set (GoMap.set b.SlashCommands name d1) name d2) other = _
    rw [GoMap.get_set_of_ne _ _ _ _ h, GoMap.get_set_of_ne _ _ _ _ h]

/-- C19 at the registered tables: a second `ping` replaces the first, and `help`
stays. -/
theorem registration_last_wins_witness :
    (registerCommands emptyBot).PrefixCommands = registeredPrefixCommands ∧
    (registerCommands emptyBot).SlashCommands = registeredSlashCommands ∧
    GoMap.get (registerPrefix (registerPrefix (registerCommands emptyBot) "ping"
        ⟨"ping", "first", "ping", "pingOne"⟩) "ping"
        ⟨"ping", "second", "ping", "pingTwo"⟩).PrefixCommands "help"
      = some ⟨"help", "Shows the help message", "help [command]", "helpCommand"⟩ :=
  ⟨by decide, by decide,
    ((registration_last_wins (registerCommands emptyBot) "ping").1
      ⟨"ping", "first", "ping", "pingOne"⟩ ⟨"ping", "second", "ping", "pingTwo"⟩).2.2.1
      "help" (by decide) |>.trans (by decide)⟩

/-! ## Registration with the command catalog (C20) -/

/-- The create calls of the loop are those of the first `n` commands, for some `n`;
all of them when no create call fails; and the loop reports an error when a create
call fails. -/
theorem registerLoop_calls (c : Catalog) (cfg : Config) (appID : String)
    (l : List (String × SlashCommand)) :
    (∃ n, n ≤ l.length ∧ (registerLoop c cfg appID l).trace.filter CatalogCall.isCatalog
      = (l.take n).map
          (fun e => CatalogCall.ApplicationCommandCreate appID cfg.scope e.2.Command)) ∧
    ((∀ e ∈ l, c.ApplicationCommandCreate appID cfg.scope e.2.Command = none) →
      (registerLoop c cfg appID l).err = none ∧
      (registerLoop c cfg appID l).trace.filter CatalogCall.isCatalog
        = l.map (fun e => CatalogCall.ApplicationCommandCreate appID cfg.scope e.2.Command)) ∧
    ((∃ e ∈ l, c.ApplicationCommandCreate appID cfg.scope e.2.Command ≠ none) →
      (registerLoop c cfg appID l).err ≠ none) := by
  induction l with
  | nil =>
    refine ⟨⟨0, Nat.le_refl _, rfl⟩, fun _ => ⟨rfl, rfl⟩, ?_⟩
    rintro ⟨e, he, _⟩
    cases he
  | cons x l ih =>
    obtain ⟨k, cmd⟩ := x
    obtain ⟨⟨n, hn, hcalls⟩, hall, hfail⟩ := ih
    cases hc : c.ApplicationCommandCreate appID cfg.scope cmd.Command with
    | some e =>
      have hrun : registerLoop c cfg appID ((k, cmd) :: l)
          = ⟨some ("error creating slash command '" ++ cmd.Command ++ "': " ++ e),
              [.ApplicationCommandCreate appID cfg.scope cmd.Command]⟩ := by
        unfold Config.scope at hc
        simp only [registerLoop, hc]
        rfl
      rw [hrun]
      refine ⟨⟨1, by simp, by simp [CatalogCall.isCatalog]⟩, ?_, fun _ => by simp⟩
      intro h
      have := h (k, cmd) (List.mem_cons_self _ _)
      rw [hc] at this
      cases this
    | none =>
      have hrun : registerLoop c cfg appID ((k, cmd) :: l)
          = ⟨(registerLoop c cfg appID l).err,
              [.ApplicationCommandCreate appID cfg.scope cmd.Command,
                .Infof ("Registered slash command: " ++ cmd.Command)]
                ++ (registerLoop c cfg appID l).trace⟩ := by
        unfold Config.scope at hc
        simp only [registerLoop, hc]
        rfl
      rw [hrun]
      refine ⟨⟨n + 1, by simp [hn], ?_⟩, ?_, ?_⟩
      · simp [List.filter_cons, CatalogCall.isCatalog, hcalls]
      · intro h
        obtain ⟨h1, h2⟩ := hall (fun e he => h e (List.mem_cons_of_mem _ he))
        exact ⟨h1, by simp [List.filter_cons, CatalogCall.isCatalog, h2]⟩
      · rintro ⟨e, he, hne⟩
        rw [List.mem_cons] at he
        rcases he with he | he
        · subst he
          exact absurd hc hne
        · exact hfail ⟨e, he, hne⟩

/-- The loop stops at the first create call that fails: when the create calls of
the commands `pre` succeed and the one of the next command `e` fails with `msg`, the
loop makes the create calls of `pre` and of `e`, none for the commands after `e`, and
returns the error built from `msg`. -/
theorem registerLoop_stops (c : Catalog) (cfg : Config) (appID : String)
    (pre : List (String × SlashCommand)) (e : String × SlashCommand)
    (post : List (String × SlashCommand)) (msg : String)
    (hpre : ∀ x ∈ pre, c.ApplicationCommandCreate appID cfg.scope x.2.Command = none)
    (he : c.ApplicationCommandCreate appID cfg.scope e.2.Command = some msg) :
    (registerLoop c cfg appID (pre ++ e :: post)).err
        = some ("error creating slash command '" ++ e.2.Command ++ "': " ++ msg) ∧
      (registerLoop c cfg appID (pre ++ e :: post)).trace.filter CatalogCall.isCatalog
        = (pre ++ [e]).map
            (fun x => CatalogCall.ApplicationCommandCreate appID cfg.scope x.2.Command) := by
  induction pre with
  | nil =>
    obtain ⟨k, cmd⟩ := e
    have hrun : registerLoop c cfg appID ((k, cmd) :: post)
        = ⟨some ("error creating slash command '" ++ cmd.Command ++ "': " ++ msg),
            [.ApplicationCommandCreate appID cfg.scope cmd.Command]⟩ := by
      unfold Config.scope at he
      simp only [registerLoop, he]
      rfl
    rw [List.nil_append, hrun]
    exact ⟨rfl, by simp [CatalogCall.isCatalog]⟩
  | cons x pre ih =>
    obtain ⟨k, cmd⟩ := x
    have hc : c.ApplicationCommandCreate appID cfg.scope cmd.Command = none :=
      hpre (k, cmd) (List.mem_cons_self _ _)
    obtain ⟨h1, h2⟩ := ih (fun y hy => hpre y (List.mem_cons_of_mem _ hy))
    have hrun : registerLoop c cfg appID ((k, cmd) :: (pre ++ e :: post))
        = ⟨(registerLoop c cfg appID (pre ++ e :: post)).err,
            [.ApplicationCommandCreate appID cfg.scope cmd.Command,
              .Infof ("Registered slash command: " ++ cmd.Command)]
              ++ (registerLoop c cfg appID (pre ++ e :: post)).trace⟩ := by
      unfold Config.scope at hc
      simp only [registerLoop, hc]
      rfl
    rw [List.cons_append, hrun]
    refine ⟨h1, ?_⟩
    simp [List.filter_cons, CatalogCall.isCatalog, h2]

/-- The delete calls of the loop: one per listed command, in the order of the list,
in the development scope. -/
theorem unregisterLoop_calls (c : Catalog) (cfg : Config) (appID : String)
    (l : List ApplicationCommand) :
    (unregisterLoop c cfg appID l).filter CatalogCall.isCatalog
      = l.map (fun cmd => CatalogCall.ApplicationCommandDelete appID cfg.DevGuildID cmd.ID) := by
  induction l with
  | nil => rfl
  | cons cmd l ih =>
    unfold unregisterLoop
    cases c.ApplicationCommandDelete appID cfg.DevGuildID cmd.ID <;>
      simp [List.filter_cons, CatalogCall.isCatalog, ih]

/-- C20 as stated fails: with six commands registered and a catalog that refuses
the create call, `RegisterSlashCommands` makes one create call and returns. -/
theorem RegisterSlashCommands_stops_at_failure :
    sampleBot.SlashCommands.length = 6 ∧
      (RegisterSlashCommands refusingCatalog prodConfig sampleBot).trace
        = [.ApplicationCommandCreate "bot" "" "help"] ∧
      (RegisterSlashCommands refusingCatalog prodConfig sampleBot).err
        = some "error creating slash command 'help': forbidden" := by
  decide

/-- C20, amended: `RegisterSlashCommands` makes create calls only, for the
registered commands one after the other, each in the scope of the configuration:
the development guild id when development mode is set and that id is not empty,
the global scope (the empty id) otherwise. It stops at the first create call that
fails: its catalog calls are then the create calls of the commands up to and
including the one refused, none for the commands after it, and it returns the error
naming that command. When no create call fails it makes exactly one per registered
command and returns no error. `UnregisterSlashCommands` makes no call
and returns no error when development mode is unset or the development guild id is
empty; otherwise it lists the commands of the development scope and makes one
delete call, in that scope, for every command listed, returning no error; when the
listing fails it returns an error and deletes nothing. -/
theorem catalog_registration_scope (c : Catalog) (cfg : Config) (b : Bot) :
    ((cfg.DevMode = true ∧ cfg.DevGuildID ≠ "" → cfg.scope = cfg.DevGuildID) ∧
      (¬ (cfg.DevMode = true ∧ cfg.DevGuildID ≠ "") → cfg.scope = "")) ∧
    (∀ pre e post msg, b.SlashCommands = pre ++ e :: post →
      (∀ x ∈ pre, c.ApplicationCommandCreate b.UserID cfg.scope x.2.Command = none) →
      c.ApplicationCommandCreate b.UserID cfg.scope e.2.Command = some msg →
      (RegisterSlashCommands c cfg b).err
        = some ("error creating slash command '" ++ e.2.Command ++ "': " ++ msg) ∧
      (RegisterSlashCommands c cfg b).trace.filter CatalogCall.isCatalog
        = (pre ++ [e]).map
            (fun x => CatalogCall.ApplicationCommandCreate b.UserID cfg.scope x.2.Command)) ∧
    ((∀ e ∈ b.SlashCommands,
        c.ApplicationCommandCreate b.UserID cfg.scope e.2.Command = none) →
      (RegisterSlashCommands c cfg b).err = none ∧
      (RegisterSlashCommands c cfg b).trace.filter CatalogCall.isCatalog
        = b.SlashCommands.map
            (fun e => CatalogCall.ApplicationCommandCreate b.UserID cfg.scope e.2.Command)) ∧
    ((∃ e ∈ b.SlashCommands,
        c.ApplicationCommandCreate b.UserID cfg.scope e.2.Command ≠ none) →
      (RegisterSlashCommands c cfg b).err ≠ none) ∧
    (cfg.DevMode = false ∨ cfg.DevGuildID = "" →
      UnregisterSlashCommands c cfg b = ⟨none, []⟩) ∧
    (cfg.DevMode = true → cfg.DevGuildID ≠ "" →
      (∀ commands, c.ApplicationCommands b.UserID cfg.DevGuildID = .ok commands →
        (UnregisterSlashCommands c cfg b).err = none ∧
        (UnregisterSlashCommands c cfg b).trace.filter CatalogCall.isCatalog
          = [.ApplicationCommands b.UserID cfg.DevGuildID] ++ commands.map
              (fun cmd => CatalogCall.ApplicationCommandDelete b.UserID cfg.DevGuildID cmd.ID)) ∧
      (∀ e, c.ApplicationCommands b.UserID cfg.DevGuildID = .error e →
        (UnregisterSlashCommands c cfg b).err ≠ none ∧
        (UnregisterSlashCommands c cfg b).trace
          = [.ApplicationCommands b.UserID cfg.DevGuildID])) := by
  obtain ⟨_, h2, h3⟩ := registerLoop_calls c cfg b.UserID b.SlashCommands
  have h1 : ∀ pre e post msg, b.SlashCommands = pre ++ e :: post →
      (∀ x ∈ pre, c.ApplicationCommandCreate b.UserID cfg.scope x.2.Command = none) →
      c.ApplicationCommandCreate b.UserID cfg.scope e.2.Command = some msg →
      (RegisterSlashCommands c cfg b).err
        = some ("error creating slash command '" ++ e.2.Command ++ "': " ++ msg) ∧
      (RegisterSlashCommands c cfg b).trace.filter CatalogCall.isCatalog
        = (pre ++ [e]).map
            (fun x => CatalogCall.ApplicationCommandCreate b.UserID cfg.scope x.2.Command) := by
    intro pre e post msg hsplit hpre he
    unfold RegisterSlashCommands
    rw [hsplit]
    exact registerLoop_stops c cfg b.UserID pre e post msg hpre he
  refine ⟨⟨?_, ?_⟩, h1, h2, h3, ?_, ?_⟩
  · intro h
    unfold Config.scope
    rw [if_pos h]
  · intro h
    unfold Config.scope
    rw [if_neg h]
  · intro h
    have hc : ¬ cfg.DevMode = true ∨ cfg.DevGuildID = "" := by
      rcases h with h | h
      · exact Or.inl (by simp [h])
      · exact Or.inr h
    unfold UnregisterSlashCommands
    rw [if_pos hc]
  · intro hdev hid
    have hc : ¬ (¬ cfg.DevMode = true ∨ cfg.DevGuildID = "") := by
      rintro (h | h)
      · exact h hdev
      · exact hid h
    constructor
    · intro commands hlist
      have hrun : UnregisterSlashCommands c cfg b
          = ⟨none, [.ApplicationCommands b.UserID cfg.DevGuildID] ++
              unregisterLoop c cfg b.UserID commands⟩ := by
        unfold UnregisterSlashCommands
        rw [if_neg hc, hlist]
      rw [hrun]
      refine ⟨rfl, ?_⟩
      rw [List.filter_append, unregisterLoop_calls]
      rfl
    · intro e hlist
      have hrun : UnregisterSlashCommands c cfg b
          = ⟨some ("error getting slash commands: " ++ e),
              [.ApplicationCommands b.UserID cfg.DevGuildID]⟩ := by
        unfold UnregisterSlashCommands
        rw [if_neg hc, hlist]
      rw [hrun]
      exact ⟨by simp, rfl⟩

/-- C20 amended, at the registered table: six create calls in the development scope
in development mode; three create calls, the last one refused, and the error naming
`info` when the catalog refuses the third of the six commands; and no call at all
when unregistering in production. -/
theorem catalog_registration_scope_witness :
    (RegisterSlashCommands okCatalog devConfig sampleBot).trace.filter CatalogCall.isCatalog
      = [.ApplicationCommandCreate "bot" "dev" "help",
         .ApplicationCommandCreate "bot" "dev" "ping",
         .ApplicationCommandCreate "bot" "dev" "info",
         .ApplicationCommandCreate "bot" "dev" "button",
         .ApplicationCommandCreate "bot" "dev" "select",
         .ApplicationCommandCreate "bot" "dev" "role"] ∧
    ((RegisterSlashCommands pickyCatalog devConfig sampleBot).err
        = some "error creating slash command 'info': quota" ∧
      (RegisterSlashCommands pickyCatalog devConfig sampleBot).trace.filter
          CatalogCall.isCatalog
        = [.ApplicationCommandCreate "bot" "dev" "help",
           .ApplicationCommandCreate "bot" "dev" "ping",
           .ApplicationCommandCreate "bot" "dev" "info"]) ∧
    UnregisterSlashCommands okCatalog prodConfig sampleBot = ⟨none, []⟩ :=
  have h := catalog_registration_scope okCatalog devConfig sampleBot
  have h2 := catalog_registration_scope okCatalog prodConfig sampleBot
  have h3 := (catalog_registration_scope pickyCatalog devConfig sampleBot).2.1
    (List.take 2 sampleBot.SlashCommands) (List.get sampleBot.SlashCommands ⟨2, by decide⟩)
    (List.drop 3 sampleBot.SlashCommands) "quota" (by decide) (by decide) (by decide)
  ⟨(h.2.2.1 (by decide)).2.trans (by decide),
    ⟨h3.1.trans (by decide), h3.2.trans (by decide)⟩, h2.2.2.2.2.1 (Or.inl rfl)⟩

/-! ## Prefix routing without a command token (C22) -/

/-- The prefix branch of `onMessageCreate` on a message that has the prefix but no
field after it: indexing the empty result of `strings.Fields` panics. -/
theorem onMessageCreate_no_token (w : World) (b : Bot) (m : MessageCreate)
    (hauthor : m.Author.ID ≠ b.UserID) (hpre : HasPrefix m.Content b.CommandPrefix = true)
    (hfields : Fields (TrimPrefix m.Content b.CommandPrefix) = []) :
    onMessageCreate w b m = ⟨[], some .indexOutOfRange⟩ := by
  have hd : dispatchPrefix w b m = ⟨[], some .indexOutOfRange⟩ := by
    unfold dispatchPrefix
    rw [if_pos hpre]
    simp only [hfields]
  unfold onMessageCreate
  rw [if_neg hauthor]
  simp only [hd]

/-- C22, the code at the failing inputs: on a message that is exactly the prefix,
and on one that is the prefix followed by blanks only, `onMessageCreate` ends in an
index-out-of-range panic (`strings.Fields(cmdString)[0]` on an empty slice). -/
theorem onMessageCreate_bare_prefix_panics :
    barePrefixMessage.Author.ID ≠ sampleBot.UserID ∧
      HasPrefix barePrefixMessage.Content sampleBot.CommandPrefix = true ∧
      Fields (TrimPrefix barePrefixMessage.Content sampleBot.CommandPrefix) = [] ∧
      onMessageCreate (quietWorld 0) sampleBot barePrefixMessage
        = ⟨[], some .indexOutOfRange⟩ ∧
      Fields (TrimPrefix blankPrefixMessage.Content sampleBot.CommandPrefix) = [] ∧
      onMessageCreate (quietWorld 0) sampleBot blankPrefixMessage
        = ⟨[], some .indexOutOfRange⟩ := by
  decide

/-! ## The reserved key of the argument map (C23) -/

/-- Flattening options leaves the entries under other keys alone. -/
theorem get_flattenOptions_of_not_mem (os : List DataOption) (m : ArgMap) (k : String)
    (h : k ∉ os.map DataOption.Name) :
    GoMap.get (flattenOptions os m) k = GoMap.get m k := by
  induction os generalizing m with
  | nil => rfl
  | cons a os ih =>
    rw [List.map_cons, List.mem_cons, not_or] at h
    rw [flattenOptions_cons, ih _ h.2, GoMap.get_set_of_ne _ _ _ _ h.1]

/-- After flattening, the entry under the name of an option is the value of the last
option of that name. -/
theorem get_flattenOptions_last (os rest : List DataOption) (o : DataOption) (m : ArgMap)
    (h : o.Name ∉ rest.map DataOption.Name) :
    GoMap.get (flattenOptions (os ++ o :: rest) m) o.Name = some o.Value := by
  induction os generalizing m with
  | nil =>
    rw [List.nil_append, flattenOptions_cons, get_flattenOptions_of_not_mem _ _ _ h,
      GoMap.get_set_self]
  | cons a os ih =>
    rw [List.cons_append, flattenOptions_cons]
    exact ih _

/-- Every `LogCommand` call of `HandleSlashCommand` carries the argument map of the
invocation. -/
theorem HandleSlashCommand_logs_arguments (w : World) (b : Bot) (i : InteractionCreate)
    (g c u n k : String) (args : ArgMap)
    (hmem : Effect.LogCommand g c u n k args ∈ (HandleSlashCommand w b i).trace) :
    args = slashArguments i.Options := by
  have hlog : ∀ cmd : SlashCommand,
      Effect.LogCommand g c u n k args ∈ (logAndRunSlash w cmd i).trace →
      args = slashArguments i.Options := by
    intro cmd h
    unfold logAndRunSlash at h
    cases hm : i.Member with
    | none => simp [hm] at h
    | some member =>
      simp only [hm, List.mem_append, List.mem_singleton] at h
      rcases h with (h | h) | h
      · injection h with _ _ _ _ _ h6
      · unfold afterLogCommand at h
        split at h <;> simp at h
      · cases h
  unfold HandleSlashCommand at hmem
  cases hc : GoMap.get b.SlashCommands i.Name with
  | none => simp [hc, respondEphemeral] at hmem
  | some cmd =>
    simp only [hc] at hmem
    split at hmem
    · split at hmem
      · simp at hmem
      · split at hmem
        · simp [respondEphemeral] at hmem
        · split at hmem
          · simp [respondEphemeral] at hmem
          · simp only [Outcome.after, List.mem_append, List.mem_singleton] at hmem
            rcases hmem with h | h
            · cases h
            · exact hlog cmd h
    · exact hlog cmd hmem

/-- C23 as stated fails: a nested option named `subcommand` takes the reserved key.
For the sub-command `add` with that one nested option, the map holds the value of
the option under `subcommand`, not the name `add`, and it has one entry, as many as
there are nested options, although the nested names are distinct. -/
theorem slashArguments_reserved_key_overwritten :
    slashArguments reservedClash = [("subcommand", .str "x")] ∧
      GoMap.get (slashArguments reservedClash) "subcommand" ≠ some (.str "add") ∧
      GoMap.len (slashArguments reservedClash) = 1 := by
  decide

/-- C23, amended: let the first option of the invocation be a sub-command. If no
nested option is named `subcommand`, the argument map has the name of the
sub-command under the key `subcommand`, whatever the nested names are; if a nested
option is named `subcommand`, the key holds the value of the last such option
instead. The map has one entry more than there are nested options when the nested
names are distinct and none of them is `subcommand`. This map is the one every
`LogCommand` call of `HandleSlashCommand` carries. -/
theorem slashArguments_reserved_key (first : DataOption) (rest : List DataOption)
    (hsub : first.OptType = ApplicationCommandOptionSubCommand) :
    ("subcommand" ∉ first.Options.map DataOption.Name →
      GoMap.get (slashArguments (first :: rest)) "subcommand" = some (.str first.Name)) ∧
    (∀ before after o, first.Options = before ++ o :: after → o.Name = "subcommand" →
      "subcommand" ∉ after.map DataOption.Name →
      GoMap.get (slashArguments (first :: rest)) "subcommand" = some o.Value) ∧
    ((first.Options.map DataOption.Name).Nodup →
      "subcommand" ∉ first.Options.map DataOption.Name →
      GoMap.len (slashArguments (first :: rest)) = first.Options.length + 1) ∧
    (∀ (w : World) (b : Bot) (i : InteractionCreate) (g c u n k : String) (args : ArgMap),
      i.Options = first :: rest →
      Effect.LogCommand g c u n k args ∈ (HandleSlashCommand w b i).trace →
      args = slashArguments (first :: rest)) := by
  have hdef : slashArguments (first :: rest)
      = flattenOptions first.Options (GoMap.set [] "subcommand" (.str first.Name)) := by
    simp only [slashArguments, hsub, if_true]
  refine ⟨?_, ?_, ?_, ?_⟩
  · intro h
    rw [hdef, get_flattenOptions_of_not_mem _ _ _ h, GoMap.get_set_self]
  · intro before after o hopts hname hlast
    rw [hdef, hopts, ← hname]
    exact get_flattenOptions_last before after o _ (hname ▸ hlast)
  · intro hnd hnot
    rw [hdef, flattenOptions_eq_append _ _ _ hnd]
    · simp [GoMap.len, GoMap.set, GoMap.delete]
    · intro o ho hmem
      have : o.Name = "subcommand" := by
        simpa [GoMap.set, GoMap.delete] using hmem
      exact hnot (this ▸ List.mem_map_of_mem DataOption.Name ho)
  · intro w b i g c u n k args hopts hmem
    rw [← hopts]
    exact HandleSlashCommand_logs_arguments w b i g c u n k args hmem

/-- C23 amended, at `/role add user:u2 role:r1` and at the clashing invocation. -/
theorem slashArguments_reserved_key_witness :
    GoMap.get (slashArguments guildRoleAdd.Options) "subcommand" = some (.str "add") ∧
      GoMap.len (slashArguments guildRoleAdd.Options) = 3 ∧
      GoMap.get (slashArguments reservedClash) "subcommand" = some (.str "x") :=
  have h := slashArguments_reserved_key
    (DataOption.mk "add" ApplicationCommandOptionSubCommand .null
      [DataOption.mk "user" 6 (.str "u2") [], DataOption.mk "role" 8 (.str "r1") []]) [] rfl
  have h2 := slashArguments_reserved_key
    (DataOption.mk "add" ApplicationCommandOptionSubCommand .null
      [DataOption.mk "subcommand" ApplicationCommandOptionString (.str "x") []]) [] rfl
  ⟨h.1 (by decide), h.2.2.1 (by decide) (by decide),
    h2.2.1 [] [] (DataOption.mk "subcommand" ApplicationCommandOptionString (.str "x") [])
      rfl rfl (by decide)⟩

/-! ## Playing audio: a speaking flag that cannot be raised (C24) -/

/-- The run of `PlayAudio` when `Speaking(true)` fails: the error is returned after
the playing flag was set, and before the deferred cleanup is registered. -/
theorem PlayAudio_speaking_fails (a : AudioWorld) (fuel : Nat) (vc : VoiceConnection)
    (e : String) (hplay : vc.Playing = false) (hspeak : a.Speaking true = some e) :
    PlayAudio a fuel vc
      = some ⟨{ vc with Playing := true, Stopping := false }, some (.transport e),
          [.Speaking true], none⟩ := by
  unfold PlayAudio
  simp only [hplay, hspeak]
  rfl

/-- C24, the code at the failing input: on an idle connection whose transport fails
to raise the speaking flag, `PlayAudio` returns that error, reads nothing and sends
nothing, but leaves the playing flag set; the next `PlayAudio` on the connection,
on a transport that works, is rejected as already playing. -/
theorem PlayAudio_speaking_fails_leaves_playing :
    idleConnection.Playing = false ∧
      PlayAudio mutePlayback 5 idleConnection
        = some ⟨⟨"g1", "A", 7, true, false⟩, some (.transport "ws closed"),
            [.Speaking true], none⟩ ∧
      PlayAudio shortPlayback 5 ⟨"g1", "A", 7, true, false⟩
        = some ⟨⟨"g1", "A", 7, true, false⟩, some .alreadyPlaying, [], none⟩ := by
  decide

/-! ## Playing audio: the end of the stream (C25) -/

/-- Leaving out the empty chunks does not change the bytes. -/
theorem flatten_filter_nonempty (l : List (List Nat)) :
    (l.filter (fun c => 0 < c.length)).flatten = l.flatten := by
  induction l with
  | nil => rfl
  | cons c l ih =>
    cases c with
    | nil => simpa [List.filter_cons] using ih
    | cons x xs => simp [List.filter_cons, ih]

/-- The bytes forwarded when read `k` is the first to report an error: the bytes of
reads `0` to `k - 1`, and nothing of read `k`. -/
theorem PlayAudio_forwarded_bytes (a : AudioWorld) (vc : VoiceConnection) (k fuel : Nat)
    (e : ReadError) (hplay : vc.Playing = false) (hspeak : a.Speaking true = none)
    (hnostop : ∀ j, a.stops j = false)
    (hreads : ∀ j, j < k → (a.reader j).err = none ∧ (a.reader j).bytes.length ≤ bufferSize)
    (herr : (a.reader k).err = some e) (hfuel : k < fuel) :
    ∃ r, PlayAudio a fuel vc = some r ∧
      (r.trace.filterMap AudioCall.chunk).flatten
        = ((List.range k).map (fun j => (a.reader j).bytes)).flatten := by
  have hlast : ∀ n, playLoop a (n + 1) k { vc with Playing := true, Stopping := false }
      = some (if a.stops k then StopAudio { vc with Playing := true, Stopping := false }
          else { vc with Playing := true, Stopping := false }, readFailed e, none) := by
    intro n
    exact playLoop_error a n k _ e (by simp [hnostop k]) herr
  have hrun := PlayAudio_run a vc k fuel (readFailed e) hplay hspeak
    (fun j hj => ⟨hnostop j, hreads j hj⟩) hlast hfuel
  have hchunks : (readFailed e).filterMap AudioCall.chunk = [] := by
    cases e <;> rfl
  refine ⟨_, hrun, ?_⟩
  simp only [List.filterMap_append, iterationCalls_chunks, hchunks]
  rw [List.map_map]
  simp only [List.filterMap_cons, List.filterMap_nil, AudioCall.chunk, List.nil_append,
    List.append_nil]
  exact flatten_filter_nonempty _

/-- C25, the code at the failing input: the stream delivers two bytes and then three
bytes together with end-of-stream, five bytes in all; `PlayAudio` returns without
error having sent the first two bytes only. -/
theorem PlayAudio_drops_final_bytes :
    ((List.range 2).map (fun j => (tailStream j).bytes)).flatten = [1, 2, 3, 4, 5] ∧
      (tailStream 1).err = some .EOF ∧
      PlayAudio tailPlayback 5 idleConnection
        = some ⟨idleConnection, none,
            [.Speaking true, .Read 16384, .OpusSend [1, 2], .Read 16384, .Speaking false],
            none⟩ ∧
      ((PlayAudio tailPlayback 5 idleConnection).map
          (fun r => (r.trace.filterMap AudioCall.chunk).flatten)) = some [1, 2] := by
  decide

/-! ## The statistics update (C21) -/

/-- Rounding to the nearest integer does not go below an integer below `x`. -/
theorem le_roundHalfEven (x : ℚ) (A : ℤ) (h : (A : ℚ) ≤ x) : A ≤ roundHalfEven x := by
  have hf : A ≤ ⌊x⌋ := Int.le_floor.mpr h
  unfold roundHalfEven
  split
  · exact hf
  · split
    · omega
    · split <;> omega

/-- Rounding to the nearest integer stays below an integer that is more than one
half above `x`. -/
theorem roundHalfEven_lt (x : ℚ) (N : ℤ) (h : x < (N : ℚ) - 1 / 2) : roundHalfEven x < N := by
  have hxN : x < (N : ℚ) := by linarith
  have hf : ⌊x⌋ < N := Int.floor_lt.mpr hxN
  have hfl : (⌊x⌋ : ℚ) ≤ x := Int.floor_le x
  by_cases hlt : x - ⌊x⌋ < 1 / 2
  · unfold roundHalfEven
    rw [if_pos hlt]
    exact hf
  · have hne : ⌊x⌋ + 1 < N := by
      by_contra hcon
      have h1 : N ≤ ⌊x⌋ + 1 := by omega
      have h2 : (N : ℚ) ≤ (⌊x⌋ : ℚ) + 1 := by exact_mod_cast h1
      apply hlt
      linarith
    unfold roundHalfEven
    rw [if_neg hlt]
    split
    · exact hne
    · split <;> omega

/-- Rounding to the nearest integer moves by one half at most, upwards. -/
theorem roundHalfEven_le (x : ℚ) : (roundHalfEven x : ℚ) ≤ x + 1 / 2 := by
  have hfl : (⌊x⌋ : ℚ) ≤ x := Int.floor_le x
  unfold roundHalfEven
  split
  · linarith
  · rename_i h1
    split
    · rename_i h2
      push_cast
      linarith
    · rename_i h2
      have heq : x - ⌊x⌋ = 1 / 2 := le_antisymm (not_lt.mp h2) (not_lt.mp h1)
      split
      · linarith
      · push_cast
        linarith

/-- The integer within one half of `x` is what `x` is rounded to. -/
theorem roundHalfEven_eq (x : ℚ) (k : ℤ) (h1 : (k : ℚ) - 1 / 2 < x) (h2 : x < (k : ℚ) + 1 / 2) :
    roundHalfEven x = k := by
  have hlo : k ≤ roundHalfEven x := by
    by_contra hcon
    have h3 : roundHalfEven x ≤ k - 1 := by omega
    have h4 : (roundHalfEven x : ℚ) ≤ (k : ℚ) - 1 := by exact_mod_cast h3
    by_cases hx : (k : ℚ) ≤ x
    · have := le_roundHalfEven x k hx
      omega
    · have hA : ((k - 1 : ℤ) : ℚ) ≤ x := by
        push_cast
        linarith
      have hfl : ⌊x⌋ = k - 1 := by
        apply Int.floor_eq_iff.mpr
        constructor
        · exact hA
        · push_cast
          linarith
      have hfr : ¬ (x - ⌊x⌋ < 1 / 2) := by
        rw [hfl]
        push_cast
        linarith
      have hfr2 : 1 / 2 < x - ⌊x⌋ := by
        rw [hfl]
        push_cast
        linarith
      have hval : roundHalfEven x = ⌊x⌋ + 1 := by
        unfold roundHalfEven
        rw [if_neg hfr, if_pos hfr2]
      omega
  have hhi : roundHalfEven x < k + 1 := by
    apply roundHalfEven_lt
    push_cast
    linarith
  omega

/-- The binary exponent of a positive rational between two powers of two. -/
theorem log_two_eq (x : ℚ) (E : ℤ) (hlo : (2 : ℚ) ^ E ≤ x) (hhi : x < (2 : ℚ) ^ (E + 1)) :
    Int.log 2 x = E := by
  have hpos : 0 < x := lt_of_lt_of_le (by positivity) hlo
  have h1 : E ≤ Int.log 2 x := by
    apply (Int.zpow_le_iff_le_log (by norm_num) hpos).mp
    exact_mod_cast hlo
  have h2 : Int.log 2 x < E + 1 := by
    apply (Int.lt_zpow_iff_log_lt (by norm_num) hpos).mp
    exact_mod_cast hhi
  omega

/-- The `float64` of a positive rational, from its binary exponent and the multiple
of the unit in the last place that lies within one half of it. -/
theorem roundFloat64_eq (x : ℚ) (E k : ℤ) (hlo : (2 : ℚ) ^ E ≤ x) (hhi : x < (2 : ℚ) ^ (E + 1))
    (h1 : (k : ℚ) - 1 / 2 < x / 2 ^ (E - 52)) (h2 : x / 2 ^ (E - 52) < (k : ℚ) + 1 / 2) :
    roundFloat64 x = k * 2 ^ (E - 52) := by
  have hpos : 0 < x := lt_of_lt_of_le (by positivity) hlo
  unfold roundFloat64
  rw [if_neg (ne_of_gt hpos), if_pos hpos, log_two_eq x E hlo hhi, roundHalfEven_eq _ k h1 h2]
/-- The fraction `0.999999999` as a `float64`. -/
theorem roundFloat64_nanos :
    roundFloat64 ((999999999 : ℤ) / 1000000000) = 9007199245733793 / 9007199254740992 := by
  have h := roundFloat64_eq ((999999999 : ℤ) / 1000000000) (-1) 9007199245733793
    (by norm_num) (by norm_num) (by norm_num) (by norm_num)
  rw [h]
  norm_num

/-- The duration of `2 ^ 24` seconds and `999999999` nanoseconds, in seconds. -/
theorem Seconds_rounds_up : Seconds 16777216999999999 = 16777217 := by
  have hd : Int.tdiv 16777216999999999 Second = 16777216 := by decide
  have hm : Int.tmod 16777216999999999 Second = 999999999 := by decide
  unfold Seconds
  rw [hd, hm, roundFloat64_nanos]
  have h := roundFloat64_eq ((16777216 : ℤ) + 9007199245733793 / 9007199254740992) 24
    4503599895805952 (by norm_num) (by norm_num) (by norm_num) (by norm_num)
  rw [h]
  norm_num
/-- A `float64` below one: rounding a fraction keeps it at zero or above and raises
it by `2 ^ (-54)` at most. -/
theorem roundFloat64_fraction (x : ℚ) (h0 : 0 ≤ x) (h1 : x < 1) :
    0 ≤ roundFloat64 x ∧ roundFloat64 x ≤ x + 1 / 2 ^ 54 := by
  rcases eq_or_lt_of_le h0 with hz | hpos
  · subst hz
    simp [roundFloat64]
  · have hE : Int.log 2 x < 0 := by
      apply (Int.lt_zpow_iff_log_lt (by norm_num) hpos).mp
      simpa using h1
    have hu : (0 : ℚ) < 2 ^ (Int.log 2 x - 52) := by positivity
    have hule : (2 : ℚ) ^ (Int.log 2 x - 52) ≤ 2 ^ (-53 : ℤ) :=
      zpow_le_zpow_right₀ (by norm_num) (by omega)
    have hu53 : (2 : ℚ) ^ (-53 : ℤ) = 1 / 2 ^ 53 := by norm_num
    have hr0 : (0 : ℤ) ≤ roundHalfEven (x / 2 ^ (Int.log 2 x - 52)) := by
      apply le_roundHalfEven
      push_cast
      positivity
    have hr1 := roundHalfEven_le (x / 2 ^ (Int.log 2 x - 52))
    have hr0q : (0 : ℚ) ≤ (roundHalfEven (x / 2 ^ (Int.log 2 x - 52)) : ℚ) := by
      exact_mod_cast hr0
    unfold roundFloat64
    rw [if_neg (ne_of_gt hpos), if_pos hpos]
    constructor
    · positivity
    · have hmul : (roundHalfEven (x / 2 ^ (Int.log 2 x - 52)) : ℚ) * 2 ^ (Int.log 2 x - 52)
          ≤ (x / 2 ^ (Int.log 2 x - 52) + 1 / 2) * 2 ^ (Int.log 2 x - 52) :=
        mul_le_mul_of_nonneg_right hr1 (le_of_lt hu)
      have hexp : (x / 2 ^ (Int.log 2 x - 52) + 1 / 2) * 2 ^ (Int.log 2 x - 52)
          = x + 2 ^ (Int.log 2 x - 52) / 2 := by
        field_simp
        ring
      rw [hexp] at hmul
      have : (2 : ℚ) ^ (Int.log 2 x - 52) / 2 ≤ 1 / 2 ^ 54 := by
        rw [hu53] at hule
        have h54 : (1 : ℚ) / 2 ^ 54 = (1 / 2 ^ 53) / 2 := by norm_num
        rw [h54]
        linarith
      linarith

/-- A sum of whole seconds below `2 ^ 24` and a fraction that stays clear of one by
`2 ^ (-30)` is rounded to a `float64` within the same second. -/
theorem roundFloat64_within_second (sec : ℕ) (q : ℚ) (hs1 : 1 ≤ sec) (hs2 : sec < 2 ^ 24)
    (hq0 : 0 ≤ q) (hq1 : q < 1 - 1 / 2 ^ 30) :
    (sec : ℚ) ≤ roundFloat64 (sec + q) ∧ roundFloat64 (sec + q) < (sec : ℚ) + 1 := by
  have hne : sec ≠ 0 := by omega
  have hlo : 2 ^ Nat.log 2 sec ≤ sec := Nat.pow_log_le_self 2 hne
  have hhi : sec < 2 ^ (Nat.log 2 sec + 1) := Nat.lt_pow_succ_log_self (by norm_num) sec
  have hE : Nat.log 2 sec < 24 := by
    have : 2 ^ Nat.log 2 sec < 2 ^ 24 := lt_of_le_of_lt hlo hs2
    exact (Nat.pow_lt_pow_iff_right (by norm_num)).mp this
  generalize Nat.log 2 sec = E at hlo hhi hE
  have hloq : (2 : ℚ) ^ (E : ℤ) ≤ (sec : ℚ) + q := by
    have : ((2 ^ E : ℕ) : ℚ) ≤ (sec : ℚ) := by exact_mod_cast hlo
    rw [zpow_natCast]
    push_cast at this
    linarith
  have hhiq : (sec : ℚ) + q < (2 : ℚ) ^ ((E : ℤ) + 1) := by
    have h1 : sec + 1 ≤ 2 ^ (E + 1) := hhi
    have : ((sec + 1 : ℕ) : ℚ) ≤ ((2 ^ (E + 1) : ℕ) : ℚ) := by exact_mod_cast h1
    have h2 : (2 : ℚ) ^ ((E : ℤ) + 1) = (2 : ℚ) ^ (E + 1) := by
      rw [← zpow_natCast]
      push_cast
      rfl
    rw [h2]
    push_cast at this
    have h30 : (0 : ℚ) < 1 / 2 ^ 30 := by positivity
    linarith
  have hpos : (0 : ℚ) < (sec : ℚ) + q := lt_of_lt_of_le (by positivity) hloq
  have hu : (2 : ℚ) ^ ((E : ℤ) - 52) = 1 / 2 ^ (52 - E) := by
    have : ((E : ℤ) - 52) = -((52 - E : ℕ) : ℤ) := by omega
    rw [this, zpow_neg, zpow_natCast]
    simp
  have hP : (0 : ℚ) < 2 ^ (52 - E) := by positivity
  have hP29 : (2 : ℚ) ^ 29 ≤ 2 ^ (52 - E) :=
    pow_le_pow_right₀ (by norm_num) (by omega)
  have hdiv : ((sec : ℚ) + q) / 2 ^ ((E : ℤ) - 52) = ((sec : ℚ) + q) * 2 ^ (52 - E) := by
    rw [hu]
    field_simp
  have hA : (((sec * 2 ^ (52 - E) : ℕ) : ℤ) : ℚ) ≤ ((sec : ℚ) + q) * 2 ^ (52 - E) := by
    push_cast
    have : (0 : ℚ) ≤ q * 2 ^ (52 - E) := by positivity
    linarith
  have hN : ((sec : ℚ) + q) * 2 ^ (52 - E)
      < ((((sec + 1) * 2 ^ (52 - E) : ℕ) : ℤ) : ℚ) - 1 / 2 := by
    push_cast
    have h1 : (1 / 2 ^ 30 : ℚ) * 2 ^ 29 ≤ (1 - q) * 2 ^ (52 - E) := by
      have ha : (1 / 2 ^ 30 : ℚ) ≤ 1 - q := by linarith
      have hb : (0 : ℚ) ≤ 1 / 2 ^ 30 := by positivity
      have hc : (0 : ℚ) ≤ 1 - q := by linarith
      calc (1 / 2 ^ 30 : ℚ) * 2 ^ 29 ≤ (1 / 2 ^ 30) * 2 ^ (52 - E) :=
            mul_le_mul_of_nonneg_left hP29 hb
        _ ≤ (1 - q) * 2 ^ (52 - E) := mul_le_mul_of_nonneg_right ha (le_of_lt hP)
    have h2 : (1 / 2 ^ 30 : ℚ) * 2 ^ 29 = 1 / 2 := by norm_num
    have h3 : (1 / 2 ^ 30 : ℚ) < 1 - q := by linarith
    have h4 : (1 / 2 ^ 30 : ℚ) * 2 ^ (52 - E) < (1 - q) * 2 ^ (52 - E) :=
      mul_lt_mul_of_pos_right h3 hP
    have h5 : (1 / 2 ^ 30 : ℚ) * 2 ^ 29 ≤ (1 / 2 ^ 30) * 2 ^ (52 - E) :=
      mul_le_mul_of_nonneg_left hP29 (by positivity)
    nlinarith
  have hr1 := le_roundHalfEven _ _ hA
  have hr2 := roundHalfEven_lt _ _ hN
  have hval : roundFloat64 ((sec : ℚ) + q)
      = (roundHalfEven (((sec : ℚ) + q) * 2 ^ (52 - E)) : ℚ) * (1 / 2 ^ (52 - E)) := by
    unfold roundFloat64
    rw [if_neg (ne_of_gt hpos), if_pos hpos, log_two_eq _ (E : ℤ) hloq hhiq, hdiv, hu]
  rw [hval]
  have hr1q : ((sec * 2 ^ (52 - E) : ℕ) : ℚ)
      ≤ (roundHalfEven (((sec : ℚ) + q) * 2 ^ (52 - E)) : ℚ) := by
    exact_mod_cast hr1
  have hr2q : (roundHalfEven (((sec : ℚ) + q) * 2 ^ (52 - E)) : ℚ)
      < (((sec + 1) * 2 ^ (52 - E) : ℕ) : ℚ) := by
    exact_mod_cast hr2
  push_cast at hr1q hr2q
  constructor
  · rw [mul_one_div, le_div_iff₀ hP]
    exact hr1q
  · rw [mul_one_div, div_lt_iff₀ hP]
    exact hr2q
/-- Below `2 ^ 24` seconds the conversion `int(d.Seconds())` gives the whole seconds
of the duration `d`. -/
theorem float64ToInt_Seconds (d : ℤ) (h0 : 0 ≤ d) (h1 : d < 16777216 * Second) :
    float64ToInt (Seconds d) = d / Second := by
  have hS : (0 : ℤ) ≤ Second := by decide
  have hsec0 : 0 ≤ d / Second := by
    unfold Second
    omega
  have hsec1 : d / Second < 16777216 := by
    unfold Second at h1 ⊢
    omega
  have hn0 : 0 ≤ d % Second := by
    unfold Second
    omega
  have hn1 : d % Second ≤ 999999999 := by
    unfold Second
    omega
  have hx0 : (0 : ℚ) ≤ ((d % Second : ℤ) : ℚ) / 1000000000 := by
    have : (0 : ℚ) ≤ ((d % Second : ℤ) : ℚ) := by exact_mod_cast hn0
    positivity
  have hx1 : ((d % Second : ℤ) : ℚ) / 1000000000 ≤ 999999999 / 1000000000 := by
    have : ((d % Second : ℤ) : ℚ) ≤ 999999999 := by exact_mod_cast hn1
    apply div_le_div_of_nonneg_right this (by norm_num)
  obtain ⟨hq0, hq1⟩ := roundFloat64_fraction _ hx0
    (lt_of_le_of_lt hx1 (by norm_num))
  have hq2 : roundFloat64 (((d % Second : ℤ) : ℚ) / 1000000000) < 1 - 1 / 2 ^ 30 := by
    have : (999999999 / 1000000000 : ℚ) + 1 / 2 ^ 54 < 1 - 1 / 2 ^ 30 := by norm_num
    linarith
  unfold Seconds
  rw [Int.tdiv_eq_ediv h0 hS, Int.tmod_eq_emod h0 hS]
  generalize roundFloat64 (((d % Second : ℤ) : ℚ) / 1000000000) = q at hq0 hq2
  obtain ⟨n, hn⟩ := Int.eq_ofNat_of_zero_le hsec0
  rw [hn] at hsec1 ⊢
  have hn24 : n < 2 ^ 24 := by
    have : (n : ℤ) < 16777216 := hsec1
    omega
  have hbounds : ((n : ℕ) : ℚ) ≤ roundFloat64 (((n : ℤ) : ℚ) + q) ∧
      roundFloat64 (((n : ℤ) : ℚ) + q) < ((n : ℕ) : ℚ) + 1 := by
    rcases Nat.eq_zero_or_pos n with hz | hp
    · subst hz
      have h30 : (0 : ℚ) < 1 / 2 ^ 30 := by positivity
      obtain ⟨a, b⟩ := roundFloat64_fraction q hq0 (by linarith)
      have hb : q + 1 / 2 ^ 54 < 1 := by
        have : (1 : ℚ) / 2 ^ 54 < 1 / 2 ^ 30 := by norm_num
        linarith
      have hz : (((0 : ℕ) : ℤ) : ℚ) + q = q := by simp
      rw [hz]
      simp only [Nat.cast_zero, zero_add]
      exact ⟨a, by linarith⟩
    · have := roundFloat64_within_second n q hp hn24 hq0 hq2
      simpa using this
  have hnonneg : (0 : ℚ) ≤ roundFloat64 (((n : ℤ) : ℚ) + q) :=
    le_trans (by positivity) hbounds.1
  unfold float64ToInt
  rw [if_pos hnonneg]
  apply Int.floor_eq_iff.mpr
  constructor
  · exact_mod_cast hbounds.1
  · have := hbounds.2
    push_cast
    exact this
/-- Adding to a wrapped value and wrapping again is wrapping the sum. -/
theorem wrapInt_add (a b : ℤ) : wrapInt (wrapInt a + b) = wrapInt (a + b) := by
  unfold wrapInt
  norm_num
  omega

/-- A value in the range of a Go `int` is not changed by wrapping. -/
theorem wrapInt_of_range (x : ℤ) (h1 : -(2 ^ 63) ≤ x) (h2 : x < 2 ^ 63) : wrapInt x = x := by
  unfold wrapInt
  norm_num at h1 h2 ⊢
  omega

/-- Copying a well-formed map entry by entry gives the same entries in the same
order. -/
theorem copy_eq_self (m acc : GoMap Ptr) (h : GoMap.WF (acc ++ m)) :
    m.foldl (fun acc e => GoMap.set acc e.1 e.2) acc = acc ++ m := by
  induction m generalizing acc with
  | nil => simp
  | cons e m ih =>
    have hnot : e.1 ∉ acc.map Prod.fst := by
      unfold GoMap.WF at h
      rw [List.map_append, List.map_cons, List.nodup_append] at h
      intro hmem
      exact h.2.2 hmem (List.mem_cons_self _ _)
    rw [List.foldl_cons, GoMap.set_eq_append acc e.1 e.2 hnot, ih]
    · simp
    · simpa using h

/-- The running sum of `updateStats` over entries that point to guild objects: the
sum of the member counts, in the arithmetic of a Go `int`. -/
theorem sumMemberCounts_eq (m : Memory) (l : List (String × Ptr))
    (hptr : ∀ e ∈ l, e.2 < m.guilds.length) (acc : ℤ) (hacc : wrapInt acc = acc) :
    sumMemberCounts m l acc = some (wrapInt (acc + memberCountSum m l)) := by
  induction l generalizing acc with
  | nil => simp [sumMemberCounts, memberCountSum, hacc]
  | cons e l ih =>
    obtain ⟨k, p⟩ := e
    have hp : p < m.guilds.length := hptr (k, p) (List.mem_cons_self _ _)
    have hidem : wrapInt (wrapInt (acc + (m.guilds[p]).MemberCount))
        = wrapInt (acc + (m.guilds[p]).MemberCount) := by
      have := wrapInt_add (acc + (m.guilds[p]).MemberCount) 0
      simpa using this
    unfold sumMemberCounts
    rw [List.getElem?_eq_getElem hp]
    simp only
    rw [ih (fun e he => hptr e (List.mem_cons_of_mem _ he)) _ hidem, wrapInt_add]
    simp [memberCountSum, List.getElem?_eq_getElem hp, add_assoc]

/-- The run of `updateStats` on a well-formed store whose entries point to guild
objects: one call of the stats port, and a diagnostic if the port fails. -/
theorem updateStats_eq (w : GuildWorld) (st : GuildStore)
    (hwf : GoMap.WF (st.mem.entries st.Guilds))
    (hptr : ∀ e ∈ st.mem.entries st.Guilds, e.2 < st.mem.guilds.length) :
    updateStats w st
      = ⟨(GetGuilds st).1,
          [.UpdateBotStats (GoMap.len (st.mem.entries st.Guilds))
              (wrapInt (memberCountSum st.mem (st.mem.entries st.Guilds)))
              (float64ToInt (Seconds w.uptime))] ++
            (match w.UpdateBotStats (GoMap.len (st.mem.entries st.Guilds))
                (wrapInt (memberCountSum st.mem (st.mem.entries st.Guilds)))
                (float64ToInt (Seconds w.uptime)) with
             | some e => [.Errorf ("Error updating bot stats: " ++ e)]
             | none => []),
          none⟩ := by
  have hcopy : (GetGuilds st).1.mem.entries (GetGuilds st).2 = st.mem.entries st.Guilds := by
    rw [GetGuilds_eq]
    simp only [Memory.entries_append, if_true]
    have := copy_eq_self (st.mem.entries st.Guilds) [] (by simpa using hwf)
    simpa using this
  have hsum := sumMemberCounts_eq (GetGuilds st).1.mem (st.mem.entries st.Guilds) hptr 0
    (by decide)
  rw [Int.zero_add] at hsum
  have hsame : memberCountSum (GetGuilds st).1.mem (st.mem.entries st.Guilds)
      = memberCountSum st.mem (st.mem.entries st.Guilds) := rfl
  rw [hsame] at hsum
  unfold updateStats
  simp only [hcopy, hsum]
  cases w.UpdateBotStats (GoMap.len (st.mem.entries st.Guilds))
    (wrapInt (memberCountSum st.mem (st.mem.entries st.Guilds)))
    (float64ToInt (Seconds w.uptime)) <;> rfl
/-- C21 as stated fails: after `2 ^ 24` seconds and `999999999` nanoseconds of
uptime, `16777216` whole seconds have elapsed, but the conversion through `float64`
rounds the duration up and the stats port is called with `16777217`. -/
theorem updateStats_uptime_rounds_up :
    longRunningWorld.uptime / Second = 16777216 ∧
      (updateStats longRunningWorld sampleStore).trace = [.UpdateBotStats 2 15 16777217] := by
  constructor
  · decide
  · rw [updateStats_eq longRunningWorld sampleStore (by decide) (by decide)]
    have hu : float64ToInt (Seconds longRunningWorld.uptime) = 16777217 := by
      show float64ToInt (Seconds 16777216999999999) = 16777217
      rw [Seconds_rounds_up]
      norm_num [float64ToInt]
    have hlen : ((GoMap.len (sampleStore.mem.entries sampleStore.Guilds) : ℕ) : ℤ) = 2 := by
      decide
    have hsum : wrapInt (memberCountSum sampleStore.mem
        (sampleStore.mem.entries sampleStore.Guilds)) = 15 := by
      decide
    simp only [hu, hlen, hsum]
    rfl

/-- C21, amended: on a well-formed store whose entries point to guild objects,
`updateStats` does not panic and calls the stats port exactly once, with the number
of entries of the store, with the sum of the member counts of the stored snapshots
in the arithmetic of a Go `int` (the exact sum when it fits 64 bits; `0` for an
empty store), and with `int(uptime.Seconds())`, which is the whole number of
seconds elapsed for every uptime below `2 ^ 24` seconds. The answer of the stats
port changes neither the store nor the run, but for one diagnostic when it is an
error; the store map and the guild objects are as before. -/
theorem updateStats_call (w : GuildWorld) (st : GuildStore)
    (hwf : GoMap.WF (st.mem.entries st.Guilds))
    (hptr : ∀ e ∈ st.mem.entries st.Guilds, e.2 < st.mem.guilds.length) :
    (updateStats w st).panic = none ∧
    (updateStats w st).trace.filter GuildCall.isUpdateBotStats
      = [.UpdateBotStats (GoMap.len (st.mem.entries st.Guilds))
          (wrapInt (memberCountSum st.mem (st.mem.entries st.Guilds)))
          (float64ToInt (Seconds w.uptime))] ∧
    (-(2 ^ 63) ≤ memberCountSum st.mem (st.mem.entries st.Guilds) →
      memberCountSum st.mem (st.mem.entries st.Guilds) < 2 ^ 63 →
      wrapInt (memberCountSum st.mem (st.mem.entries st.Guilds))
        = memberCountSum st.mem (st.mem.entries st.Guilds)) ∧
    (st.mem.entries st.Guilds = [] →
      wrapInt (memberCountSum st.mem (st.mem.entries st.Guilds)) = 0) ∧
    (0 ≤ w.uptime → w.uptime < 16777216 * Second →
      float64ToInt (Seconds w.uptime) = w.uptime / Second) ∧
    (∀ w2 : GuildWorld, w2.uptime = w.uptime →
      (updateStats w2 st).store = (updateStats w st).store ∧
      (updateStats w2 st).panic = none ∧
      (updateStats w2 st).trace.filter GuildCall.isUpdateBotStats
        = (updateStats w st).trace.filter GuildCall.isUpdateBotStats) ∧
    ((updateStats w st).store.Guilds = st.Guilds ∧
      (updateStats w st).store.mem.entries st.Guilds = st.mem.entries st.Guilds ∧
      (updateStats w st).store.mem.guilds = st.mem.guilds) := by
  have hfilter : ∀ w : GuildWorld,
      (updateStats w st).trace.filter GuildCall.isUpdateBotStats
        = [.UpdateBotStats (GoMap.len (st.mem.entries st.Guilds))
            (wrapInt (memberCountSum st.mem (st.mem.entries st.Guilds)))
            (float64ToInt (Seconds w.uptime))] := by
    intro w
    rw [updateStats_eq w st hwf hptr]
    simp only [List.filter_append]
    cases w.UpdateBotStats (GoMap.len (st.mem.entries st.Guilds))
      (wrapInt (memberCountSum st.mem (st.mem.entries st.Guilds)))
      (float64ToInt (Seconds w.uptime)) <;>
      simp [GuildCall.isUpdateBotStats]
  refine ⟨?_, hfilter w, ?_, ?_, ?_, ?_, ?_⟩
  · rw [updateStats_eq w st hwf hptr]
  · intro h1 h2
    exact wrapInt_of_range _ h1 h2
  · intro h
    rw [h]
    show wrapInt 0 = 0
    decide
  · intro h0 h1
    exact float64ToInt_Seconds w.uptime h0 h1
  · intro w2 hw2
    refine ⟨?_, ?_, ?_⟩
    · rw [updateStats_eq w2 st hwf hptr, updateStats_eq w st hwf hptr]
    · rw [updateStats_eq w2 st hwf hptr]
    · rw [hfilter w2, hfilter w, hw2]
  · rw [updateStats_eq w st hwf hptr, GetGuilds_eq]
    refine ⟨rfl, ?_, rfl⟩
    simp only [Memory.entries_append]
    split
    · rename_i hr
      have hnone : st.mem.entries st.Guilds = [] := by
        unfold Memory.entries
        rw [hr, List.getElem?_eq_none (Nat.le_refl _)]
        rfl
      rw [hnone]
      rfl
    · rfl

/-- C21 amended, at the store of `g1` (10 members) and `g2` (5 members) after one
minute of uptime, with a stats port that fails. -/
theorem updateStats_call_witness :
    (updateStats failingStatsWorld sampleStore).trace.filter GuildCall.isUpdateBotStats
        = [.UpdateBotStats 2 15 60] ∧
      (updateStats failingStatsWorld sampleStore).panic = none ∧
      (updateStats failingStatsWorld sampleStore).store
        = (updateStats quietGuildWorld sampleStore).store :=
  have h := updateStats_call quietGuildWorld sampleStore (by decide) (by decide)
  have h60 : float64ToInt (Seconds quietGuildWorld.uptime) = 60 :=
    (h.2.2.2.2.1 (by decide) (by decide)).trans (by decide)
  have hw := h.2.2.2.2.2.1 failingStatsWorld rfl
  ⟨by
      rw [hw.2.2, h.2.1, h60]
      decide,
    hw.2.1, hw.1⟩

end DiscordBot
